import Mathlib

/-! # LEM stream core (`src/lem/io/stream.c`, `src/lem/io/core.c`)

A shallow embedding of the stream half of the LEM I/O core.  C functions become
total Lean functions that pass the state explicitly:

* `lua_State`  : the value stack of the coroutine the C function runs for,
* `stream`     : the userdata of `struct stream`,
* `file`       : the part of `struct file` that `stream_sendfile` touches,
* `Kernel`     : the operating system and the event loop as seen from the
  event-loop thread: `errno`, the future outcomes of the system calls, the
  blocking mode of each descriptor, and the trace of everything the code did.

An `int` result of a C function is an `Int`; a function that leaves through
`lua_yield` returns `LUA_YIELD = -1`, as Lua 5.1 does.
-/

namespace Lem

/-! ## Lua values and the Lua C API (external library) -/

/-- A Lua string is a finite sequence of bytes; one `Char` stands for one byte. -/
abbrev LStr := List Char

/-- The Lua values that the stream code pushes or reads. -/
inductive Val
  | nil
  | boolean (b : Bool)
  | number (n : Int)
  | string (s : LStr)
  | userdata (p : Nat)
  deriving DecidableEq, Repr

/-- A coroutine: `id` is the address of the `lua_State`, `stack` its value
stack (index 1 is the head of the list). -/
structure lua_State where
  id : Nat
  stack : List Val
  deriving DecidableEq, Repr

def lua_gettop (T : lua_State) : Nat := T.stack.length

def lua_push (T : lua_State) (v : Val) : lua_State :=
  { T with stack := T.stack ++ [v] }

def lua_pushnil (T : lua_State) : lua_State := lua_push T Val.nil

def lua_pushboolean (T : lua_State) (b : Int) : lua_State :=
  lua_push T (Val.boolean (b != 0))

def lua_pushliteral (T : lua_State) (s : String) : lua_State :=
  lua_push T (Val.string s.toList)

def lua_pushstring (T : lua_State) (s : LStr) : lua_State :=
  lua_push T (Val.string s)

def lua_pushnumber (T : lua_State) (n : Int) : lua_State :=
  lua_push T (Val.number n)

def lua_settop (T : lua_State) (n : Nat) : lua_State :=
  { T with stack := T.stack.take n ++ List.replicate (n - T.stack.length) Val.nil }

/-- The bytes of the string at stack index `idx` (`lua_tolstring` returns the
pointer and stores the length); no bytes when the slot holds no string. -/
def lua_tolstring (T : lua_State) (idx : Nat) : LStr :=
  match T.stack.get? (idx - 1) with
  | some (Val.string s) => s
  | _ => []

/-- The marker a C function returns when it leaves through `lua_yield`. -/
def LUA_YIELD : Int := -1

def lua_yield (_T : lua_State) (_nresults : Nat) : Int := LUA_YIELD

/-- The values a C function hands back: the top `ret` slots of the stack. -/
def results (ret : Int) (T : lua_State) : List Val :=
  T.stack.drop (T.stack.length - ret.toNat)

/-- The coroutine behind the pointer `T` with the stack that a callee has left
in `T1`: a C function keeps its pointer `T` whatever its callees do. -/
def same_thread (T T1 : lua_State) : lua_State := { id := T.id, stack := T1.stack }

/-! ## The parser protocol (`lem-io.h`, not part of the sources at hand) -/

/-- The reason passed to a parser's destroy callback, `enum lem_preason`. -/
inductive lem_preason
  | LEM_PCLOSED
  | LEM_PERROR
  deriving DecidableEq, Repr

/-- The input buffer, `struct lem_inputbuf`: two cursors and the byte array. -/
structure lem_inputbuf where
  start : Nat
  end_ : Nat
  buf : LStr
  deriving DecidableEq, Repr

/-- The callbacks of `struct lem_parser`.  `init` and `destroy` may be NULL.
A callback sees the coroutine and the input buffer and nothing else. -/
structure lem_parser_t where
  init : Option (lua_State → lem_inputbuf → lua_State × lem_inputbuf)
  process : lua_State → lem_inputbuf → Int × lua_State × lem_inputbuf
  destroy : Option (lua_State → lem_inputbuf → lem_preason → Int × lua_State × lem_inputbuf)

/-! ## Events, the kernel and the event loop -/

/-- The two callbacks that the stream code installs in a watcher. -/
inductive Callback
  | stream_readp_cb
  | stream_write_cb
  deriving DecidableEq, Repr

/-- The three places where a suspended coroutine is remembered. -/
inductive Slot
  | r_data
  | w_data
  | a_T
  deriving DecidableEq, Repr

/-- Everything the code does that is visible outside the function that does it:
system calls (with their arguments, result and the `errno` left behind), parser
callbacks, calls into libev and into the LEM scheduler, and stores to the
waiter slots.  `buf` is a ghost record of the input buffer's cursors after each
change of the buffer. -/
inductive Event
  | close (fd : Int) (ret : Int)
  | read (fd : Int) (count : Nat) (ret : Int) (errno : Nat)
  | write (fd : Int) (buf : LStr) (ret : Int) (errno : Nat)
  | setsockopt (fd : Int) (state : Int) (ret : Int)
  | fcntl (fd : Int) (nonblock : Bool) (ret : Int)
  | sendfile (out_fd in_fd : Int) (offset count : Int) (ret : Int)
  | init
  | process (ret : Int)
  | destroy (reason : lem_preason) (ret : Int)
  | buf (start end_ : Nat)
  | ev_io_start (cb : Callback)
  | ev_io_stop (cb : Callback)
  | store (slot : Slot) (T : Option Nat)
  | lem_queue (T : Nat) (nargs : Int) (vals : List Val)
  | lem_async_put (T : Nat)
  deriving DecidableEq, Repr

/-- What the system has decided for one future call of `read`. -/
inductive ReadRet
  | data (bytes : LStr)
  | fail (errno : Nat)
  deriving DecidableEq, Repr

/-- What the system has decided for one future call of another system call:
`ok n` lets it succeed (`n` bounds the bytes a transfer takes), `fail e` makes
it return -1 with `errno = e`. -/
inductive SysRet
  | ok (n : Nat)
  | fail (errno : Nat)
  deriving DecidableEq, Repr

def EAGAIN : Nat := 11
def EPIPE : Nat := 32
def ECONNRESET : Nat := 104

/-- The operating system the code is compiled for.  It decides which branch of
the preprocessor conditionals in `stream_sendfile_work` is the code:
`__FreeBSD__`, `__APPLE__`, or neither of the two (Linux). -/
inductive Platform
  | freebsd
  | apple
  | linux
  deriving DecidableEq, Repr

/-- The world outside the stream code.  Each list holds the outcomes of the
coming calls of one system call, in order; when a list is used up, `read` and
`write` report `EAGAIN` and the other calls succeed. -/
structure Kernel where
  platform : Platform
  errno : Nat
  nonblock : Int → Bool
  strerror : Nat → LStr
  reads : List ReadRet
  writes : List SysRet
  closes : List SysRet
  setsockopts : List SysRet
  fcntls : List SysRet
  sendfiles : List SysRet
  trace : List Event

def Kernel.emit (k : Kernel) (e : Event) : Kernel :=
  { k with trace := k.trace ++ [e] }

/-- The call `read(fd, buf, count)`: the result and the bytes stored.  A read
never delivers more than `count` bytes. -/
def sys_read (k : Kernel) (fd : Int) (count : Nat) : Int × LStr × Kernel :=
  match k.reads with
  | [] =>
    (-1, [], { k with errno := EAGAIN, trace := k.trace ++ [Event.read fd count (-1) EAGAIN] })
  | ReadRet.data bytes :: rest =>
    ((bytes.take count).length, bytes.take count,
      { k with reads := rest,
               trace := k.trace ++ [Event.read fd count (bytes.take count).length k.errno] })
  | ReadRet.fail e :: rest =>
    (-1, [], { k with reads := rest, errno := e,
                      trace := k.trace ++ [Event.read fd count (-1) e] })

/-- The call `write(fd, buf, len)` with `len = buf.length`.  A write never
takes more than `len` bytes. -/
def sys_write (k : Kernel) (fd : Int) (buf : LStr) : Int × Kernel :=
  match k.writes with
  | [] =>
    (-1, { k with errno := EAGAIN, trace := k.trace ++ [Event.write fd buf (-1) EAGAIN] })
  | SysRet.ok n :: rest =>
    (min n buf.length,
      { k with writes := rest,
               trace := k.trace ++ [Event.write fd buf (min n buf.length) k.errno] })
  | SysRet.fail e :: rest =>
    (-1, { k with writes := rest, errno := e,
                  trace := k.trace ++ [Event.write fd buf (-1) e] })

/-- The call `close(fd)`. -/
def sys_close (k : Kernel) (fd : Int) : Int × Kernel :=
  match k.closes with
  | [] => (0, { k with trace := k.trace ++ [Event.close fd 0] })
  | SysRet.ok _ :: rest =>
    (0, { k with closes := rest, trace := k.trace ++ [Event.close fd 0] })
  | SysRet.fail e :: rest =>
    (-1, { k with closes := rest, errno := e, trace := k.trace ++ [Event.close fd (-1)] })

/-- The call `setsockopt(fd, IPPROTO_TCP, TCP_CORK, &state, sizeof(int))`. -/
def sys_setsockopt (k : Kernel) (fd : Int) (state : Int) : Int × Kernel :=
  match k.setsockopts with
  | [] => (0, { k with trace := k.trace ++ [Event.setsockopt fd state 0] })
  | SysRet.ok _ :: rest =>
    (0, { k with setsockopts := rest, trace := k.trace ++ [Event.setsockopt fd state 0] })
  | SysRet.fail e :: rest =>
    (-1, { k with setsockopts := rest, errno := e,
                  trace := k.trace ++ [Event.setsockopt fd state (-1)] })

/-- The call `fcntl(fd, F_SETFL, flags)` with `flags` either `0` or
`O_NONBLOCK`: on success the descriptor takes the requested blocking mode. -/
def sys_fcntl (k : Kernel) (fd : Int) (nb : Bool) : Int × Kernel :=
  match k.fcntls with
  | [] =>
    (0, { k with nonblock := fun d => if d = fd then nb else k.nonblock d,
                 trace := k.trace ++ [Event.fcntl fd nb 0] })
  | SysRet.ok _ :: rest =>
    (0, { k with fcntls := rest,
                 nonblock := fun d => if d = fd then nb else k.nonblock d,
                 trace := k.trace ++ [Event.fcntl fd nb 0] })
  | SysRet.fail e :: rest =>
    (-1, { k with fcntls := rest, errno := e, trace := k.trace ++ [Event.fcntl fd nb (-1)] })

/-- The Linux call `sendfile(out_fd, in_fd, &offset, count)`: on success it
reports how many bytes it moved, never more than `count`. -/
def sys_sendfile (k : Kernel) (out_fd in_fd : Int) (offset count : Int) : Int × Kernel :=
  match k.sendfiles with
  | [] => (0, { k with trace := k.trace ++ [Event.sendfile out_fd in_fd offset count 0] })
  | SysRet.ok n :: rest =>
    (min (n : Int) (max count 0),
      { k with sendfiles := rest,
               trace := k.trace ++
                 [Event.sendfile out_fd in_fd offset count (min (n : Int) (max count 0))] })
  | SysRet.fail e :: rest =>
    (-1, { k with sendfiles := rest, errno := e,
                  trace := k.trace ++ [Event.sendfile out_fd in_fd offset count (-1)] })

/-- The call `sendfile` of FreeBSD, `sendfile(fd, s, offset, nbytes, NULL,
&sbytes, SF_SYNC)`, and of macOS, `sendfile(fd, s, offset, &len, NULL, 0)`: the
result is 0 or -1, and the number of bytes sent is stored through `sbytes`
(through `len` on macOS).  A count of 0 asks for the file to be sent until its
end, so then the number is whatever the system sent, and otherwise it is never
more than the count.  The result is a triple: the result of the call, the
number stored, the kernel.  For a call that fails the number stored is taken to
be 0; the code never looks at it. -/
def sys_sendfile_bsd (k : Kernel) (fd s : Int) (offset count : Int) : Int × Int × Kernel :=
  match k.sendfiles with
  | [] => (0, 0, { k with trace := k.trace ++ [Event.sendfile s fd offset count 0] })
  | SysRet.ok n :: rest =>
    (0, (if count = 0 then (n : Int) else min (n : Int) (max count 0)),
      { k with sendfiles := rest,
               trace := k.trace ++ [Event.sendfile s fd offset count 0] })
  | SysRet.fail e :: rest =>
    (-1, 0, { k with sendfiles := rest, errno := e,
                     trace := k.trace ++ [Event.sendfile s fd offset count (-1)] })

/-- The scheduler call `lem_queue(T, nargs)`: the coroutine is put on the run
queue to be resumed with the top `nargs` values of its stack. -/
def lem_queue (k : Kernel) (T : lua_State) (nargs : Int) : Kernel :=
  k.emit (Event.lem_queue T.id nargs (results nargs T))

/-! ## `struct stream` -/

/-- A libev watcher, `struct ev_io`, with the fields the stream code uses. -/
structure ev_io where
  active : Bool
  data : Option Nat
  cb : Option Callback
  fd : Int
  deriving DecidableEq, Repr

/-- The userdata of `struct stream`.  `out` is the unwritten rest of the
current argument: the C fields `out` (a pointer into the argument) and
`out_len` (the count of bytes behind it) together. -/
structure stream where
  r : ev_io
  w : ev_io
  out : LStr
  idx : Nat
  p : Option lem_parser_t
  buf : lem_inputbuf

/-- The part of `struct file` that the zero-copy transfer uses: the descriptor,
the embedded `struct lem_async` (its `T`), the result code and the
`sendfile` request. -/
structure file where
  fd : Int
  a_T : Option Nat
  ret : Nat
  sendfile_stream : Option Nat
  sendfile_size : Int
  sendfile_offset : Int
  deriving DecidableEq, Repr

def ev_io_init (cb : Option Callback) (fd : Int) : ev_io :=
  { active := false, data := none, cb := cb, fd := fd }

/-- The function `stream_new`.  The fields that C leaves uninitialised (`out`,
`idx`, `p`, the bytes of the buffer) get fixed values; the buffer array is
`undef`. -/
def stream_new (fd : Int) (undef : LStr) : stream :=
  { r := { ev_io_init none fd with data := none },
    w := { ev_io_init none fd with data := none },
    out := [], idx := 0, p := none,
    buf := { start := 0, end_ := 0, buf := undef } }

def io_closed (T : lua_State) : Int × lua_State :=
  (2, lua_pushliteral (lua_pushnil T) "closed")

def io_busy (T : lua_State) : Int × lua_State :=
  (2, lua_pushliteral (lua_pushnil T) "busy")

/-- Modelled from the spec: `io_strerror` is not in the sources at hand; by the
result convention (absence plus diagnostic string, the string being the OS
error text) it pushes nil and the text of `err`. -/
def io_strerror (k : Kernel) (T : lua_State) (err : Nat) : Int × lua_State :=
  (2, lua_pushstring (lua_pushnil T) (k.strerror err))

/-- The method `stream_close`, called as `stream:close()`. -/
def stream_close (T : lua_State) (s : stream) (k : Kernel) :
    Int × lua_State × stream × Kernel :=
  if s.r.fd < 0 then
    ((io_closed T).1, (io_closed T).2, s, k)
  else if s.r.data ≠ none ∨ s.w.data ≠ none then
    ((io_busy T).1, (io_busy T).2, s, k)
  else
    let c := sys_close k s.r.fd
    let s1 : stream := { s with r := { s.r with fd := -1 }, w := { s.w with fd := -1 } }
    if c.1 ≠ 0 then
      ((io_strerror c.2 T c.2.errno).1, (io_strerror c.2 T c.2.errno).2, s1, c.2)
    else
      (1, lua_pushboolean T 1, s1, c.2)

/-! ## The write path -/

/-- The code of `stream__write` after its loop: `bytes` is the result of the
last `write`. -/
def stream__write_exit (T : lua_State) (s : stream) (k : Kernel) (bytes : Int) :
    Int × lua_State × stream × Kernel :=
  let err := k.errno
  if bytes < 0 ∧ err = EAGAIN then
    (0, T, s, k)
  else
    let c := sys_close k s.w.fd
    let s1 : stream := { s with w := { s.w with fd := -1 }, r := { s.r with fd := -1 } }
    if bytes = 0 ∨ err = ECONNRESET ∨ err = EPIPE then
      ((io_closed T).1, (io_closed T).2, s1, c.2)
    else
      ((io_strerror c.2 T err).1, (io_strerror c.2 T err).2, s1, c.2)

/-- The loop of `stream__write`.  Every turn of the loop uses up one outcome of
`k.writes`, so `fuel` larger than the length of that list is never used up. -/
def stream__write_loop (T : lua_State) : Nat → stream → Kernel →
    Int × lua_State × stream × Kernel
  | 0, s, k => (0, T, s, k)
  | fuel + 1, s, k =>
    let wr := sys_write k s.w.fd s.out
    if wr.1 > 0 then
      let s1 : stream := { s with out := s.out.drop wr.1.toNat }
      if s1.out.length = 0 then
        if s1.idx = lua_gettop T then
          (1, lua_pushboolean T 1, s1, wr.2)
        else
          stream__write_loop T fuel
            { s1 with idx := s1.idx + 1, out := lua_tolstring T (s1.idx + 1) } wr.2
      else
        stream__write_loop T fuel s1 wr.2
    else
      stream__write_exit T s wr.2 wr.1

/-- The function `stream__write`. -/
def stream__write (T : lua_State) (s : stream) (k : Kernel) :
    Int × lua_State × stream × Kernel :=
  stream__write_loop T (k.writes.length + 1) s k

/-- The callback `stream_write_cb`; `T` is the coroutine that `s.w.data`
points to. -/
def stream_write_cb (T : lua_State) (s : stream) (k : Kernel) :
    lua_State × stream × Kernel :=
  let r := stream__write T s k
  if r.1 = 0 then
    (same_thread T r.2.1, r.2.2.1, r.2.2.2)
  else
    let k1 := r.2.2.2.emit (Event.ev_io_stop Callback.stream_write_cb)
    let s1 : stream := { r.2.2.1 with w := { r.2.2.1.w with active := false } }
    let s2 : stream := { s1 with w := { s1.w with data := none } }
    let k2 := k1.emit (Event.store Slot.w_data none)
    (same_thread T r.2.1, s2, lem_queue k2 (same_thread T r.2.1) r.1)

/-- Every argument from stack index 2 on is a string (`luaL_checklstring`,
`luaL_checkstring`); numbers, which Lua would convert, are left out. -/
def checkstrings (T : lua_State) : Bool :=
  2 ≤ T.stack.length ∧ (T.stack.drop 1).all (fun v => match v with
    | Val.string _ => true
    | _ => false)

/-- The method `stream_write`, called as `stream:write(str, ...)` with the
stream at stack index 1 and well-typed arguments. -/
def stream_write (T : lua_State) (s : stream) (k : Kernel) :
    Int × lua_State × stream × Kernel :=
  let out := lua_tolstring T 2
  let top := lua_gettop T
  if s.w.fd < 0 then
    ((io_closed T).1, (io_closed T).2, s, k)
  else if s.w.data ≠ none then
    ((io_busy T).1, (io_busy T).2, s, k)
  else
    let s1 : stream := { s with out := out, idx := 2 }
    let r := stream__write T s1 k
    if r.1 > 0 then
      r
    else
      let s2 : stream := { r.2.2.1 with w := { r.2.2.1.w with data := some T.id } }
      let k2 := r.2.2.2.emit (Event.store Slot.w_data (some T.id))
      let s3 : stream := { s2 with w := { s2.w with cb := some Callback.stream_write_cb } }
      let s4 : stream := { s3 with w := { s3.w with active := true } }
      let k4 := k2.emit (Event.ev_io_start Callback.stream_write_cb)
      (lua_yield r.2.1 top, r.2.1, s4, k4)

/-! ## Corking -/

/-- The function `stream_setcork`. -/
def stream_setcork (T : lua_State) (s : stream) (k : Kernel) (state : Int) :
    Int × lua_State × stream × Kernel :=
  if s.w.fd < 0 then
    ((io_closed T).1, (io_closed T).2, s, k)
  else if s.w.data ≠ none then
    ((io_busy T).1, (io_busy T).2, s, k)
  else
    let c := sys_setsockopt k s.w.fd state
    if c.1 ≠ 0 then
      ((io_strerror c.2 T c.2.errno).1, (io_strerror c.2 T c.2.errno).2, s, c.2)
    else
      (1, lua_pushboolean T 1, s, c.2)

def stream_cork (T : lua_State) (s : stream) (k : Kernel) :
    Int × lua_State × stream × Kernel :=
  stream_setcork T s k 1

def stream_uncork (T : lua_State) (s : stream) (k : Kernel) :
    Int × lua_State × stream × Kernel :=
  stream_setcork T s k 0

/-! ## The read path

`LEM_INPUTBUF_SIZE` is defined in `lem-io.h`, which is not part of the sources
at hand; the functions that use it take it as their first argument.  The
cursors of the buffer are natural numbers: the subtraction
`LEM_INPUTBUF_SIZE - s->buf.end` is the C one as long as `end` does not exceed
the capacity. -/

/-- The bytes `data` stored into the array `buf` from position `pos` on. -/
def store_bytes (buf : LStr) (pos : Nat) (data : LStr) : LStr :=
  buf.take pos ++ data ++ buf.drop (pos + data.length)

/-- The input buffer after a `read` has stored `data` behind `end` and the
code has run `s->buf.end += bytes`. -/
def inputbuf_add (b : lem_inputbuf) (data : LStr) (bytes : Int) : lem_inputbuf :=
  { b with buf := store_bytes b.buf b.end_ data, end_ := b.end_ + bytes.toNat }

/-- The end of `stream__readp` once the parser's destroy callback has had its
turn: the stack is cleared and the error pair pushed. -/
def stream__readp_fail (T : lua_State) (s : stream) (k : Kernel)
    (res : lem_preason) (err : Nat) : Int × lua_State × stream × Kernel :=
  let T0 := lua_settop T 0
  if res = lem_preason.LEM_PCLOSED then
    ((io_closed T0).1, (io_closed T0).2, s, k)
  else
    ((io_strerror k T0 err).1, (io_strerror k T0 err).2, s, k)

/-- The code of `stream__readp` after its loop: `bytes` is the result of the
last `read`. -/
def stream__readp_exit (p : lem_parser_t) (T : lua_State) (s : stream) (k : Kernel)
    (bytes : Int) : Int × lua_State × stream × Kernel :=
  let err := k.errno
  if bytes < 0 ∧ err = EAGAIN then
    (0, T, s, k)
  else
    let res :=
      if bytes = 0 ∨ err = ECONNRESET ∨ err = EPIPE then lem_preason.LEM_PCLOSED
      else lem_preason.LEM_PERROR
    match p.destroy with
    | some destroy =>
      let d := destroy T s.buf res
      let k1 := (k.emit (Event.destroy res d.1)).emit (Event.buf d.2.2.start d.2.2.end_)
      let s1 : stream := { s with buf := d.2.2 }
      if d.1 > 0 then
        (d.1, d.2.1, s1, k1)
      else
        stream__readp_fail d.2.1 s1 k1 res err
    | none => stream__readp_fail T s k res err

/-- The loop of `stream__readp` for the parser `p = s->p`.  Every turn of the
loop uses up one outcome of `k.reads`, so `fuel` larger than the length of that
list is never used up. -/
def stream__readp_loop (LEM_INPUTBUF_SIZE : Nat) (p : lem_parser_t) :
    Nat → lua_State → stream → Kernel → Int × lua_State × stream × Kernel
  | 0, T, s, k => (0, T, s, k)
  | fuel + 1, T, s, k =>
    let rd := sys_read k s.r.fd (LEM_INPUTBUF_SIZE - s.buf.end_)
    if rd.1 > 0 then
      let b1 := inputbuf_add s.buf rd.2.1 rd.1
      let k1 := rd.2.2.emit (Event.buf b1.start b1.end_)
      let pr := p.process T b1
      let k2 := (k1.emit (Event.process pr.1)).emit (Event.buf pr.2.2.start pr.2.2.end_)
      let s2 : stream := { s with buf := pr.2.2 }
      if pr.1 > 0 then
        (pr.1, pr.2.1, s2, k2)
      else
        stream__readp_loop LEM_INPUTBUF_SIZE p fuel pr.2.1 s2 k2
    else
      stream__readp_exit p T s rd.2.2 rd.1

/-- The function `stream__readp`.  It reads the parser through `s->p`, which
`stream_readp` has set before the first call. -/
def stream__readp (LEM_INPUTBUF_SIZE : Nat) (T : lua_State) (s : stream) (k : Kernel) :
    Int × lua_State × stream × Kernel :=
  match s.p with
  | some p => stream__readp_loop LEM_INPUTBUF_SIZE p (k.reads.length + 1) T s k
  | none => (0, T, s, k)

/-- The callback `stream_readp_cb`; `T` is the coroutine that `s.r.data`
points to. -/
def stream_readp_cb (LEM_INPUTBUF_SIZE : Nat) (T : lua_State) (s : stream) (k : Kernel) :
    lua_State × stream × Kernel :=
  let r := stream__readp LEM_INPUTBUF_SIZE T s k
  if r.1 = 0 then
    (same_thread T r.2.1, r.2.2.1, r.2.2.2)
  else
    let k1 := r.2.2.2.emit (Event.ev_io_stop Callback.stream_readp_cb)
    let s1 : stream := { r.2.2.1 with r := { r.2.2.1.r with active := false } }
    let s2 : stream := { s1 with r := { s1.r with data := none } }
    let k2 := k1.emit (Event.store Slot.r_data none)
    (same_thread T r.2.1, s2, lem_queue k2 (same_thread T r.2.1) r.1)

/-- The step `if (p->init) p->init(T, &s->buf)` of `stream_readp`. -/
def stream_readp_init (p : lem_parser_t) (T : lua_State) (s : stream) (k : Kernel) :
    lua_State × stream × Kernel :=
  match p.init with
  | some init =>
    let i := init T s.buf
    (i.1, { s with buf := i.2 },
      (k.emit Event.init).emit (Event.buf i.2.start i.2.end_))
  | none => (T, s, k)

/-- The method `stream_readp`, called as `stream:readp(parser)` with the
stream at stack index 1 and the parser `p` at stack index 2. -/
def stream_readp (LEM_INPUTBUF_SIZE : Nat) (T : lua_State) (p : lem_parser_t)
    (s : stream) (k : Kernel) : Int × lua_State × stream × Kernel :=
  if s.r.fd < 0 then
    ((io_closed T).1, (io_closed T).2, s, k)
  else if s.r.data ≠ none then
    ((io_busy T).1, (io_busy T).2, s, k)
  else
    let i := stream_readp_init p T s k
    let pr := p.process i.1 i.2.1.buf
    let k1 := (i.2.2.emit (Event.process pr.1)).emit (Event.buf pr.2.2.start pr.2.2.end_)
    let s1 : stream := { i.2.1 with buf := pr.2.2 }
    if pr.1 > 0 then
      (pr.1, pr.2.1, s1, k1)
    else
      let s2 : stream := { s1 with p := some p }
      let r := stream__readp LEM_INPUTBUF_SIZE pr.2.1 s2 k1
      if r.1 > 0 then
        r
      else
        let s3 : stream := { r.2.2.1 with r := { r.2.2.1.r with data := some T.id } }
        let k3 := r.2.2.2.emit (Event.store Slot.r_data (some T.id))
        let s4 : stream := { s3 with r := { s3.r with cb := some Callback.stream_readp_cb } }
        let s5 : stream := { s4 with r := { s4.r with active := true } }
        let k5 := k3.emit (Event.ev_io_start Callback.stream_readp_cb)
        (lua_yield r.2.1 (lua_gettop r.2.1), r.2.1, s5, k5)

/-! ## Zero-copy transfer -/

/-- The two failure branches of `stream_sendfile_work`: the result code is set
from `errno`, the descriptor closed and both directions marked closed. -/
def stream_sendfile_abort (f : file) (s : stream) (k : Kernel) : file × stream × Kernel :=
  let c := sys_close k s.w.fd
  ({ f with ret := k.errno },
   { s with r := { s.r with fd := -1 }, w := { s.w with fd := -1 } },
   c.2)

/-- The part of `stream_sendfile_work` between the two mode switches, which the
preprocessor picks by platform: the `sendfile` call and what it leaves in the
file.  On FreeBSD the bytes sent come back in the local `written` and are stored
in `f->sendfile.size` on success; on macOS the call itself stores them in
`f->sendfile.size`, which is passed by address; on Linux the call returns them
and advances the offset, which is passed by address. -/
def stream_sendfile_call (f : file) (s : stream) (k : Kernel) : file × Kernel :=
  match k.platform with
  | Platform.freebsd =>
    let sf := sys_sendfile_bsd k f.fd s.w.fd f.sendfile_offset f.sendfile_size
    if sf.1 = 0 then
      ({ f with ret := 0, sendfile_size := sf.2.1 }, sf.2.2)
    else
      ({ f with ret := sf.2.2.errno }, sf.2.2)
  | Platform.apple =>
    let sf := sys_sendfile_bsd k f.fd s.w.fd f.sendfile_offset f.sendfile_size
    if sf.1 = 0 then
      ({ f with ret := 0, sendfile_size := sf.2.1 }, sf.2.2)
    else
      ({ f with ret := sf.2.2.errno, sendfile_size := sf.2.1 }, sf.2.2)
  | Platform.linux =>
    let sf := sys_sendfile k s.w.fd f.fd f.sendfile_offset f.sendfile_size
    if sf.1 ≥ 0 then
      ({ f with ret := 0, sendfile_size := sf.1, sendfile_offset := f.sendfile_offset + sf.1 },
        sf.2)
    else
      ({ f with ret := sf.2.errno }, sf.2)

/-- The function `stream_sendfile_work`, with each of its three preprocessor
branches; `s` is the stream that `f->sendfile.stream` points to. -/
def stream_sendfile_work (f : file) (s : stream) (k : Kernel) : file × stream × Kernel :=
  let c := sys_fcntl k s.w.fd false
  if c.1 ≠ 0 then
    stream_sendfile_abort f s c.2
  else
    let sf := stream_sendfile_call f s c.2
    let c2 := sys_fcntl sf.2 s.w.fd true
    if c2.1 ≠ 0 then
      stream_sendfile_abort sf.1 s c2.2
    else
      (sf.1, s, c2.2)

/-- The function `stream_sendfile_reap`; `T` is the coroutine that `f->a.T`
points to and `s` the stream that `f->sendfile.stream` points to. -/
def stream_sendfile_reap (T : lua_State) (f : file) (s : stream) (k : Kernel) :
    lua_State × file × stream × Kernel :=
  let r : Int × lua_State :=
    if f.ret = 0 then (1, lua_pushnumber T f.sendfile_size) else io_strerror k T f.ret
  let f1 : file := { f with a_T := none }
  let k1 := k.emit (Event.store Slot.a_T none)
  let s1 : stream := { s with w := { s.w with data := none } }
  let k2 := k1.emit (Event.store Slot.w_data none)
  (r.2, f1, s1, lem_queue k2 r.2 r.1)

/-- The inline function `lem_async_do` of `lem.h`: the job is marked with its
coroutine and handed to `lem_async_put`.  The `work` and `reap` pointers are
always those of the zero-copy transfer here. -/
def lem_async_do (f : file) (T : lua_State) (k : Kernel) : file × Kernel :=
  ({ f with a_T := some T.id },
   ((k.emit (Event.store Slot.a_T (some T.id))).emit (Event.lem_async_put T.id)))

/-- The method `stream_sendfile`, called as `stream:sendfile(file, size, offset)`;
`sid` is the address of the stream, `size` and `offset` the decoded numbers. -/
def stream_sendfile (T : lua_State) (sid : Nat) (s : stream) (f : file)
    (size offset : Int) (k : Kernel) : Int × lua_State × stream × file × Kernel :=
  if s.w.fd < 0 then
    ((io_closed T).1, (io_closed T).2, s, f, k)
  else if s.w.data ≠ none then
    ((io_busy T).1, (io_busy T).2, s, f, k)
  else if f.fd < 0 then
    (2, lua_pushliteral (lua_pushnil T) "file closed", s, f, k)
  else if f.a_T ≠ none then
    (2, lua_pushliteral (lua_pushnil T) "file busy", s, f, k)
  else
    let s1 : stream := { s with w := { s.w with data := some T.id } }
    let k1 := k.emit (Event.store Slot.w_data (some T.id))
    let f1 : file :=
      { f with sendfile_stream := some sid, sendfile_size := size, sendfile_offset := offset }
    let a := lem_async_do f1 T k1
    let T1 := lua_settop T 2
    (lua_yield T1 2, T1, s1, a.1, a.2)

/-! ## Reading the trace -/

/-- The events that were added to the trace between the kernel states `k` and
`k1`. -/
def emitted (k k1 : Kernel) : List Event := k1.trace.drop k.trace.length

/-- The event is a `write` that took at least one byte. -/
def Event.posWrite : Event → Prop
  | Event.write _ _ ret _ => 0 < ret
  | _ => False

/-- How one run of the loop of `stream__write` ends, with `evs` the events it
added: either with success after writes that all took bytes, or at the first
`write` that took none, which either reports `EAGAIN` (the run is pending) or
is fatal (the descriptor is closed and the error pair returned). -/
def WriteStops (T : lua_State) (s : stream) (k : Kernel)
    (r : Int × lua_State × stream × Kernel) (evs : List Event) : Prop :=
  (r.1 = 1 ∧ r.2.1 = lua_pushboolean T 1 ∧ r.2.2.1.r.fd = s.r.fd ∧ r.2.2.1.w.fd = s.w.fd ∧
    ∀ e ∈ evs, e.posWrite) ∨
  (∃ pre buf ret err, (∀ e ∈ pre, e.posWrite) ∧ ret ≤ 0 ∧
    ((ret < 0 ∧ err = EAGAIN ∧ evs = pre ++ [Event.write s.w.fd buf ret err] ∧
        r.1 = 0 ∧ r.2.1 = T ∧ r.2.2.1.r.fd = s.r.fd ∧ r.2.2.1.w.fd = s.w.fd) ∨
     (¬ (ret < 0 ∧ err = EAGAIN) ∧
        (∃ cret, evs = pre ++ [Event.write s.w.fd buf ret err, Event.close s.w.fd cret]) ∧
        r.2.2.1.r.fd = -1 ∧ r.2.2.1.w.fd = -1 ∧
        (r.1, r.2.1) =
          if ret = 0 ∨ err = ECONNRESET ∨ err = EPIPE then io_closed T
          else io_strerror k T err)))

/-- The event is a call of the parser's destroy callback. -/
def Event.isDestroy : Event → Bool
  | Event.destroy _ _ => true
  | _ => false

/-- The event is a `read` that delivered no byte (end of file or a failure). -/
def Event.isReadStop : Event → Bool
  | Event.read _ _ ret _ => decide (ret ≤ 0)
  | _ => false

/-- The reason `stream__readp` gives the parser for the end of the stream,
from the result `bytes` of the last `read` and the `errno` it left. -/
def read_reason (bytes : Int) (err : Nat) : lem_preason :=
  if bytes = 0 ∨ err = ECONNRESET ∨ err = EPIPE then lem_preason.LEM_PCLOSED
  else lem_preason.LEM_PERROR

/-- The diagnostic string that goes with a reason. -/
def reason_text (k : Kernel) (res : lem_preason) (err : Nat) : LStr :=
  if res = lem_preason.LEM_PCLOSED then "closed".toList else k.strerror err

/-- How one run of the loop of `stream__readp` ends: either the parser's
`process` produced a result after a `read` that delivered bytes, or a `read`
delivered none and the code after the loop ran from the state `T1`, `s1`, `k1`
reached by then.  Before that point the run called no destroy callback and
every `read` delivered bytes. -/
def ReadStops (p : lem_parser_t) (s : stream) (k : Kernel)
    (r : Int × lua_State × stream × Kernel) : Prop :=
  (0 < r.1 ∧ ∃ evs, r.2.2.2.trace = k.trace ++ evs ∧
    ∀ e ∈ evs, e.isDestroy = false ∧ e.isReadStop = false) ∨
  (∃ pre T1 s1 k1 cnt bytes, bytes ≤ 0 ∧
    (∀ e ∈ pre, e.isDestroy = false ∧ e.isReadStop = false) ∧
    k1.trace = k.trace ++ pre ++ [Event.read s.r.fd cnt bytes k1.errno] ∧
    k1.strerror = k.strerror ∧ s1.r = s.r ∧ s1.w = s.w ∧
    r = stream__readp_exit p T1 s1 k1 bytes)

/-- The invariant of the input buffer for the capacity `cap`. -/
def buf_ok (cap : Nat) (b : lem_inputbuf) : Prop :=
  b.start ≤ b.end_ ∧ b.end_ ≤ cap

/-- The callbacks of the parser keep the invariant of the input buffer. -/
def parser_keeps (cap : Nat) (p : lem_parser_t) : Prop :=
  (∀ f, p.init = some f → ∀ T b, buf_ok cap b → buf_ok cap (f T b).2) ∧
  (∀ T b, buf_ok cap b → buf_ok cap (p.process T b).2.2) ∧
  (∀ d, p.destroy = some d → ∀ T b res, buf_ok cap b → buf_ok cap (d T b res).2.2)

/-- The cursors recorded by a `buf` event satisfy the invariant. -/
def Event.bufOk (cap : Nat) : Event → Prop
  | Event.buf start end_ => start ≤ end_ ∧ end_ ≤ cap
  | _ => True

/-- The trace of `k1` is the trace of `k` followed by events that all satisfy
`P`. -/
def Extends (P : Event → Prop) (k k1 : Kernel) : Prop :=
  ∃ evs, k1.trace = k.trace ++ evs ∧ ∀ e ∈ evs, P e

/-! ## The event loop: streams, files and jobs together

The functions above work on one stream.  The system below puts them in their
place: a heap of streams and files (an address is an index), the stacks of the
suspended coroutines, and the jobs of the async bridge.  One step is one run of
a C function on the event-loop thread, or one run of `stream_sendfile_work` on
a worker thread. -/

/-- The state of the whole system.  `queue` holds the jobs handed to
`lem_async_put` and not yet worked on, `done` the jobs worked on and not yet
reaped; a job is named by the address of its file, in which the
`struct lem_async` is embedded. -/
structure Sys where
  streams : List stream
  files : List file
  threads : Nat → List Val
  queue : List Nat
  done : List Nat
  k : Kernel

/-- What makes a step: a call of a method by a running coroutine, a readiness
callback fired by libev, or the work or reap function of a job. -/
inductive Label
  | new (fd : Int) (undef : LStr)
  | fopen (fd : Int)
  | close (T : lua_State) (sid : Nat)
  | readp (T : lua_State) (sid : Nat) (p : lem_parser_t)
  | write (T : lua_State) (sid : Nat)
  | cork (T : lua_State) (sid : Nat)
  | uncork (T : lua_State) (sid : Nat)
  | sendfile (T : lua_State) (sid fid : Nat) (size offset : Int)
  | readp_cb (sid : Nat)
  | write_cb (sid : Nat)
  | work (fid : Nat)
  | reap (fid : Nat)

def Sys.init (k : Kernel) : Sys :=
  { streams := [], files := [], threads := fun _ => [], queue := [], done := [], k := k }

/-- The jobs in flight: put and not yet reaped. -/
def Sys.jobs (st : Sys) : List Nat := st.queue ++ st.done

/-- The coroutine `t` is suspended: some waiter slot holds it. -/
def Sys.suspended (st : Sys) (t : Nat) : Bool :=
  st.streams.any (fun s => s.r.data == some t || s.w.data == some t) ||
  st.files.any (fun f => f.a_T == some t)

/-- The stack of a coroutine is kept while it is suspended. -/
def park (threads : Nat → List Val) (T : lua_State) : Nat → List Val :=
  fun t => if t = T.id then T.stack else threads t

/-- Modelled from the spec: `file.c` is not part of the sources at hand; a File
is created around a descriptor, with no job outstanding. -/
def file_new (fd : Int) : file :=
  { fd := fd, a_T := none, ret := 0, sendfile_stream := none,
    sendfile_size := 0, sendfile_offset := 0 }

/-- A running coroutine calls a method of the stream at address `sid`. -/
def Sys.call (st : Sys) (sid : Nat) (T : lua_State)
    (op : stream → Kernel → Int × lua_State × stream × Kernel) : Option Sys :=
  match st.streams[sid]? with
  | none => none
  | some s =>
    if st.suspended T.id then none
    else
      let r := op s st.k
      some { st with streams := st.streams.set sid r.2.2.1, k := r.2.2.2,
                     threads := if r.1 = LUA_YIELD then park st.threads (same_thread T r.2.1) else st.threads }

/-- One step of the system; `none` when the step cannot be taken in the state
(no such object, the caller is suspended, the watcher is not started, the job
is not where the step needs it). -/
def step (LEM_INPUTBUF_SIZE : Nat) : Label → Sys → Option Sys
  | Label.new fd undef, st =>
    some { st with streams := st.streams ++ [stream_new fd undef] }
  | Label.fopen fd, st =>
    some { st with files := st.files ++ [file_new fd] }
  | Label.close T sid, st => st.call sid T (stream_close T)
  | Label.readp T sid p, st => st.call sid T (stream_readp LEM_INPUTBUF_SIZE T p)
  | Label.write T sid, st =>
    if checkstrings T then st.call sid T (stream_write T) else none
  | Label.cork T sid, st => st.call sid T (stream_cork T)
  | Label.uncork T sid, st => st.call sid T (stream_uncork T)
  | Label.sendfile T sid fid size offset, st =>
    match st.streams[sid]?, st.files[fid]? with
    | some s, some f =>
      if st.suspended T.id then none
      else
        let r := stream_sendfile T sid s f size offset st.k
        some { st with streams := st.streams.set sid r.2.2.1,
                       files := st.files.set fid r.2.2.2.1,
                       k := r.2.2.2.2,
                       queue := if r.1 = LUA_YIELD then st.queue ++ [fid] else st.queue,
                       threads := if r.1 = LUA_YIELD then park st.threads (same_thread T r.2.1)
                                  else st.threads }
    | _, _ => none
  | Label.readp_cb sid, st =>
    match st.streams[sid]? with
    | some s =>
      match s.r.data with
      | some t =>
        if s.r.active ∧ s.r.cb = some Callback.stream_readp_cb then
          let r := stream_readp_cb LEM_INPUTBUF_SIZE { id := t, stack := st.threads t } s st.k
          some { st with streams := st.streams.set sid r.2.1, k := r.2.2,
                         threads := park st.threads r.1 }
        else none
      | none => none
    | none => none
  | Label.write_cb sid, st =>
    match st.streams[sid]? with
    | some s =>
      match s.w.data with
      | some t =>
        if s.w.active ∧ s.w.cb = some Callback.stream_write_cb then
          let r := stream_write_cb { id := t, stack := st.threads t } s st.k
          some { st with streams := st.streams.set sid r.2.1, k := r.2.2,
                         threads := park st.threads r.1 }
        else none
      | none => none
    | none => none
  | Label.work fid, st =>
    if fid ∈ st.queue then
      match st.files[fid]? with
      | some f =>
        match f.sendfile_stream with
        | some sid =>
          match st.streams[sid]? with
          | some s =>
            let r := stream_sendfile_work f s st.k
            some { st with files := st.files.set fid r.1,
                           streams := st.streams.set sid r.2.1,
                           k := r.2.2,
                           queue := st.queue.erase fid,
                           done := st.done ++ [fid] }
          | none => none
        | none => none
      | none => none
    else none
  | Label.reap fid, st =>
    if fid ∈ st.done then
      match st.files[fid]? with
      | some f =>
        match f.sendfile_stream, f.a_T with
        | some sid, some t =>
          match st.streams[sid]? with
          | some s =>
            let r := stream_sendfile_reap { id := t, stack := st.threads t } f s st.k
            some { st with files := st.files.set fid r.2.1,
                           streams := st.streams.set sid r.2.2.1,
                           k := r.2.2.2,
                           done := st.done.erase fid,
                           threads := park st.threads r.1 }
          | none => none
        | _, _ => none
      | none => none
    else none

/-- The states the system can be in: those reached from an empty heap by steps. -/
inductive Reachable (LEM_INPUTBUF_SIZE : Nat) : Sys → Prop
  | init (k : Kernel) : Reachable LEM_INPUTBUF_SIZE (Sys.init k)
  | step (l : Label) (st st1 : Sys) :
      Reachable LEM_INPUTBUF_SIZE st → step LEM_INPUTBUF_SIZE l st = some st1 →
      Reachable LEM_INPUTBUF_SIZE st1

/-- The steps of a list taken one after the other. -/
def run (LEM_INPUTBUF_SIZE : Nat) : List Label → Sys → Option Sys
  | [], st => some st
  | l :: ls, st =>
    match step LEM_INPUTBUF_SIZE l st with
    | some st1 => run LEM_INPUTBUF_SIZE ls st1
    | none => none

/-- The stream that the job of the file at `fid` writes to. -/
def job_stream (files : List file) (fid : Nat) : Option Nat :=
  match files[fid]? with
  | some f => f.sendfile_stream
  | none => none

/-- The invariant of the jobs in flight `jobs` over the heap `streams`, `files`:
no file has two jobs; the file of a job and the stream it writes to are both
marked with the same coroutine, and the write watcher of that stream is not
started; two jobs write to two streams; and a started write watcher has a
waiter. -/
structure JobsInv (streams : List stream) (files : List file) (jobs : List Nat) : Prop where
  count : ∀ fid, jobs.count fid ≤ 1
  job : ∀ fid ∈ jobs, ∃ (f : file) (t sid : Nat) (s : stream),
    files[fid]? = some f ∧ f.a_T = some t ∧
    f.sendfile_stream = some sid ∧ streams[sid]? = some s ∧ s.w.data = some t ∧
    s.w.active = false
  inj : ∀ fid1 ∈ jobs, ∀ fid2 ∈ jobs,
    job_stream files fid1 = job_stream files fid2 → fid1 = fid2
  active : ∀ (sid : Nat) (s : stream), streams[sid]? = some s → s.w.active = true →
    s.w.data ≠ none

/-- The invariant of the system. -/
def Sys.Inv (st : Sys) : Prop := JobsInv st.streams st.files st.jobs

/-- The two streams agree on what the event loop looks at besides the
descriptors: the waiter slots, the callbacks and whether the watchers are
started. -/
def same_waiters (s s1 : stream) : Prop :=
  s1.r.data = s.r.data ∧ s1.r.active = s.r.active ∧ s1.r.cb = s.r.cb ∧
  s1.w.data = s.w.data ∧ s1.w.active = s.w.active ∧ s1.w.cb = s.w.cb

/-- The event is a system call, a parser callback or a record of the cursors:
it is no call into libev or the scheduler and no store to a waiter slot. -/
def Event.plain : Event → Bool
  | Event.ev_io_start _ => false
  | Event.ev_io_stop _ => false
  | Event.store _ _ => false
  | Event.lem_queue _ _ _ => false
  | Event.lem_async_put _ => false
  | _ => true

/-- How the waiter slots of the stream at `sid` can differ between the state
`st`, where the stream is `s`, and the state `st1` after the step `l`, where it
is `s1`.  The read waiter changes only when a call of `stream_readp` on an idle
stream stores its caller and starts the watcher, or when `stream_readp_cb`
clears the slot, stops the watcher and hands that coroutine to `lem_queue` as
its last action.  The write waiter changes only when `stream_write` or
`stream_sendfile` on an idle stream stores its caller, or when
`stream_write_cb`, or the reap function of the job that writes to the stream,
clears the slot and hands that coroutine to `lem_queue` as its last action. -/
def WaiterChange (l : Label) (st st1 : Sys) (sid : Nat) (s s1 : stream) : Prop :=
  (s1.r.data ≠ s.r.data →
    (∃ T p, l = Label.readp T sid p ∧ s.r.data = none ∧ s1.r.data = some T.id ∧
      s1.r.active = true) ∨
    (∃ t n vals, l = Label.readp_cb sid ∧ s.r.data = some t ∧ s1.r.data = none ∧
      s1.r.active = false ∧ st1.k.trace.getLast? = some (Event.lem_queue t n vals))) ∧
  (s1.w.data ≠ s.w.data →
    (∃ T, l = Label.write T sid ∧ s.w.data = none ∧ s1.w.data = some T.id) ∨
    (∃ T fid size offset, l = Label.sendfile T sid fid size offset ∧ s.w.data = none ∧
      s1.w.data = some T.id) ∨
    (∃ t n vals, l = Label.write_cb sid ∧ s.w.data = some t ∧ s1.w.data = none ∧
      s1.w.active = false ∧ st1.k.trace.getLast? = some (Event.lem_queue t n vals)) ∨
    (∃ fid t n vals, l = Label.reap fid ∧ job_stream st.files fid = some sid ∧
      s.w.data = some t ∧ s1.w.data = none ∧
      st1.k.trace.getLast? = some (Event.lem_queue t n vals)))

/-- The bytes that an accepted `write` took from the buffer it was offered. -/
def Event.taken : Event → LStr
  | Event.write _ data ret _ => data.take ret.toNat
  | _ => []

/-- The bytes taken by the `write` calls of a trace, in order. -/
def written : List Event → LStr
  | [] => []
  | e :: es => e.taken ++ written es

/-- The argument strings one after the other. -/
def concat_args : List LStr → LStr
  | [] => []
  | a :: rest => a ++ concat_args rest

/-- The outcome lets a `write` take between 1 and `K` bytes, or reports
`EAGAIN`. -/
def SysRet.accepting (K : Nat) : SysRet → Prop
  | SysRet.ok n => 1 ≤ n ∧ n ≤ K
  | SysRet.fail e => e = EAGAIN

/-- The outcome lets a `write` take bytes. -/
def SysRet.isOk : SysRet → Bool
  | SysRet.ok _ => true
  | SysRet.fail _ => false

/-- The readiness callback `stream_write_cb` fired up to `n` times, as long as
the write watcher is started; `T` is the suspended coroutine. -/
def write_retry : Nat → lua_State → stream → Kernel → lua_State × stream × Kernel
  | 0, T, s, k => (T, s, k)
  | n + 1, T, s, k =>
    if s.w.active then
      write_retry n (stream_write_cb T s k).1 (stream_write_cb T s k).2.1
        (stream_write_cb T s k).2.2
    else (T, s, k)

/-- The call `stream:write(...)` followed by up to `n` firings of the readiness
callback. -/
def write_session (T : lua_State) (s : stream) (k : Kernel) (n : Nat) :
    lua_State × stream × Kernel :=
  write_retry n (same_thread T (stream_write T s k).2.1) (stream_write T s k).2.2.1
    (stream_write T s k).2.2.2

/-- The write was reported as done: either the call itself returned the single
value true, or the last thing that happened is that the coroutine was handed to
`lem_queue` with the single value true. -/
def write_reported (T : lua_State) (s : stream) (k : Kernel) (n : Nat) : Prop :=
  ((stream_write T s k).1 = 1 ∧
    results 1 (stream_write T s k).2.1 = [Val.boolean true]) ∨
  (write_session T s k n).2.2.trace.getLast? =
    some (Event.lem_queue T.id 1 [Val.boolean true])

/-- The place of a write in its arguments `args`: the stream is at argument `i`
(stack index `i + 2`) and `out` is what is left of it, not empty. -/
def WritePos (args : List LStr) (i : Nat) (s : stream) : Prop :=
  i < args.length ∧ s.idx = i + 2 ∧ s.out ≠ [] ∧
  ∃ donepart, args[i]? = some (donepart ++ s.out)

/-- The bytes still to be written at a place. -/
def remaining (args : List LStr) (i : Nat) (s : stream) : LStr :=
  s.out ++ concat_args (args.drop (i + 1))

/-- The event hands a coroutine to `lem_queue` with one value, the way a write
reports success. -/
def Event.reportsOne : Event → Prop
  | Event.lem_queue _ nargs _ => nargs = 1
  | _ => False

/-- The write has not got past argument `i` (stack index `i + 2`), and once it
is at that argument nothing is left of it to write. -/
def BeforeEmpty (i : Nat) (s : stream) : Prop :=
  s.idx ≤ i + 2 ∧ (s.idx = i + 2 → s.out = [])

/-! ## A read into a full input buffer -/

/-- The event brings the parser no new bytes: it is no call of `process`, and
if it is a `read` it asked for 0 bytes and delivered none. -/
def Event.noInput : Event → Bool
  | Event.read _ count ret _ => decide (count = 0 ∧ ret ≤ 0)
  | Event.process _ => false
  | _ => true

/-- The readiness callback `stream_readp_cb` fired up to `n` times, as long as
the read watcher is started; `T` is the suspended coroutine. -/
def readp_retry (LEM_INPUTBUF_SIZE : Nat) :
    Nat → lua_State → stream → Kernel → lua_State × stream × Kernel
  | 0, T, s, k => (T, s, k)
  | n + 1, T, s, k =>
    if s.r.active then
      readp_retry LEM_INPUTBUF_SIZE n (stream_readp_cb LEM_INPUTBUF_SIZE T s k).1
        (stream_readp_cb LEM_INPUTBUF_SIZE T s k).2.1
        (stream_readp_cb LEM_INPUTBUF_SIZE T s k).2.2
    else (T, s, k)

/-- The call `stream:readp(p)` followed by up to `n` firings of the readiness
callback. -/
def readp_session (LEM_INPUTBUF_SIZE : Nat) (T : lua_State) (p : lem_parser_t)
    (s : stream) (k : Kernel) (n : Nat) : lua_State × stream × Kernel :=
  readp_retry LEM_INPUTBUF_SIZE n
    (same_thread T (stream_readp LEM_INPUTBUF_SIZE T p s k).2.1)
    (stream_readp LEM_INPUTBUF_SIZE T p s k).2.2.1
    (stream_readp LEM_INPUTBUF_SIZE T p s k).2.2.2

/-! ## Inputs used by the witnesses -/

/-- A Linux kernel with nothing decided: every `read` and `write` reports
`EAGAIN`. -/
def kernel0 : Kernel where
  platform := Platform.linux
  errno := 0
  nonblock := fun _ => true
  strerror := fun e => if e = EPIPE then "Broken pipe".toList else "Unknown error".toList
  reads := []
  writes := []
  closes := []
  setsockopts := []
  fcntls := []
  sendfiles := []
  trace := []

/-- A fresh stream on descriptor 3. -/
def stream0 : stream := stream_new 3 []

/-- A coroutine calling `stream:write("ab")` with the stream at address 1. -/
def T_ab : lua_State := { id := 7, stack := [Val.userdata 1, Val.string "ab".toList] }

/-- The first `write` takes one byte, the second fails with `EPIPE`. -/
def kernel_epipe : Kernel := { kernel0 with writes := [SysRet.ok 1, SysRet.fail EPIPE] }

/-- A parser in the style of the built-in `available`: `process` hands back
the buffered bytes as one string and empties the buffer, and is pending while
nothing is buffered; it has an `init` that changes nothing and no `destroy`. -/
def parser_example : lem_parser_t where
  init := some (fun T b => (T, b))
  process := fun T b =>
    if b.start < b.end_ then
      (1, lua_pushstring T ((b.buf.drop b.start).take (b.end_ - b.start)),
        { b with start := 0, end_ := 0 })
    else (0, T, b)
  destroy := none

/-- An open file on descriptor 5 with no job outstanding. -/
def file0 : file :=
  { fd := 5, a_T := none, ret := 0, sendfile_stream := none,
    sendfile_size := 0, sendfile_offset := 0 }

/-- The stream `stream0` after `stream:close()`. -/
def stream_closed0 : stream := (stream_close T_ab stream0 kernel0).2.2.1

/-- A parser in the style of the built-in `*a`: `process` always asks for more,
and `destroy` hands back the buffered bytes when the peer has closed. -/
def parser_all_example : lem_parser_t where
  init := none
  process := fun T b => (0, T, b)
  destroy := some (fun T b res =>
    if res = lem_preason.LEM_PCLOSED then
      (1, lua_pushstring T ((b.buf.drop b.start).take (b.end_ - b.start)),
        { b with start := 0, end_ := 0 })
    else (0, T, b))

/-- The first `read` delivers "hi", the second reports end of file. -/
def kernel_eof : Kernel := { kernel0 with reads := [ReadRet.data "hi".toList, ReadRet.data []] }

/-- A coroutine calling `stream:readp(parser)` with the stream at address 1
and the parser at address 2. -/
def T_rd : lua_State := { id := 8, stack := [Val.userdata 1, Val.userdata 2] }

/-- One `read` delivers "hi"; after that the descriptor would block. -/
def kernel_hi : Kernel := { kernel0 with reads := [ReadRet.data "hi".toList] }

/-- Two reads deliver "ab" and "cd". -/
def kernel_two : Kernel :=
  { kernel0 with reads := [ReadRet.data "ab".toList, ReadRet.data "cd".toList] }

/-- A first call `stream:readp(parser_example)` on the fresh stream. -/
def readp_call1 : Int × lua_State × stream × Kernel :=
  stream_readp 4096 T_rd parser_example stream0 kernel_two

/-- A second call with the same parser, on the stream and kernel that the
first call left. -/
def readp_call2 : Int × lua_State × stream × Kernel :=
  stream_readp 4096 T_rd parser_example readp_call1.2.2.1 readp_call1.2.2.2

/-- An open, idle stream with the two bytes "hi" in its input buffer. -/
def stream_buffered : stream :=
  { stream0 with buf := { start := 0, end_ := 2, buf := "hi".toList } }

/-- The first `write` fails with `EPIPE`. -/
def kernel_wfail : Kernel := { kernel0 with writes := [SysRet.fail EPIPE] }

/-- A third coroutine calling `stream:readp(parser)`. -/
def T_rd2 : lua_State := { id := 9, stack := [Val.userdata 1, Val.userdata 2] }

/-- A stream is made; coroutine 8 reads and is suspended (nothing to read yet);
coroutine 7 writes "ab" and the write fails with `EPIPE`. -/
def labels_read_then_write : List Label :=
  [Label.new 3 [], Label.readp T_rd 0 parser_example, Label.write T_ab 0]

/-- The first `fcntl` fails with `EBADF`. -/
def kernel_fcntl_fail : Kernel := { kernel0 with fcntls := [SysRet.fail 9] }

/-- A coroutine calling `stream:sendfile(file, 10)`. -/
def T_sf : lua_State :=
  { id := 6, stack := [Val.userdata 1, Val.userdata 3, Val.number 10] }

/-- A stream and a file are made; coroutine 6 asks for a transfer of 10 bytes;
the work function runs and its first mode switch fails. -/
def labels_sendfile_fails : List Label :=
  [Label.new 3 [], Label.fopen 5, Label.sendfile T_sf 0 0 10 0, Label.work 0]

/-- The stream `stream0` with coroutine 8 suspended in a read. -/
def stream_reading : stream :=
  (stream_readp 4096 T_rd parser_example stream0 kernel0).2.2.1

/-- The stream `stream0` with coroutine 7 suspended in a write. -/
def stream_writing : stream := (stream_write T_ab stream0 kernel0).2.2.1

/-- The first `read` would block, the second delivers "hi". -/
def kernel_later : Kernel :=
  { kernel0 with reads := [ReadRet.fail EAGAIN, ReadRet.data "hi".toList] }

/-- A stream is made and coroutine 8 calls `stream:readp(parser_example)`. -/
def labels_waiting : List Label := [Label.new 3 [], Label.readp T_rd 0 parser_example]

/-- A stream is made and coroutine 8 is suspended in a read on it. -/
def sys_waiting : Sys :=
  (run 4096 labels_waiting (Sys.init kernel_later)).getD (Sys.init kernel0)

/-- The state after the readiness callback has run in `sys_waiting`. -/
def sys_resumed : Sys :=
  (step 4096 (Label.readp_cb 0) sys_waiting).getD (Sys.init kernel0)

/-- A stream and a file are made. -/
def labels_fresh : List Label := [Label.new 3 [], Label.fopen 5]

/-- A stream and a file are made; no method has been called yet. -/
def sys_fresh : Sys :=
  (run 4096 labels_fresh (Sys.init kernel0)).getD (Sys.init kernel0)

/-- The state after coroutine 6 has asked for a transfer in `sys_fresh`. -/
def sys_job : Sys :=
  (step 4096 (Label.sendfile T_sf 0 0 10 0) sys_fresh).getD (Sys.init kernel0)

/-- A coroutine calling `stream:write("ab", "")`. -/
def T_ab_empty : lua_State :=
  { id := 7, stack := [Val.userdata 1, Val.string "ab".toList, Val.string []] }

/-- Every `write` takes one byte at most. -/
def kernel_bytewise : Kernel :=
  { kernel0 with writes := [SysRet.ok 1, SysRet.ok 1, SysRet.ok 1, SysRet.ok 1] }

/-- A coroutine calling `stream:write("ab", "c")`. -/
def T_ab_c : lua_State :=
  { id := 7, stack := [Val.userdata 1, Val.string "ab".toList, Val.string "c".toList] }

/-- The descriptor takes one byte, would block, and then takes one byte at a
time. -/
def kernel_slow : Kernel :=
  { kernel0 with writes := [SysRet.ok 1, SysRet.fail EAGAIN, SysRet.ok 1, SysRet.ok 1] }

/-- A parser in the style of the built-in `*l`: `process` hands back the
buffered bytes up to the first newline and moves `start` past it, and is pending
while no newline is buffered; it has no `init` and no `destroy`. -/
def parser_line_example : lem_parser_t where
  init := none
  process := fun T b =>
    if ((b.buf.drop b.start).take (b.end_ - b.start)).takeWhile
        (fun c => c != Char.ofNat 10) =
        (b.buf.drop b.start).take (b.end_ - b.start) then (0, T, b)
    else
      (1, lua_pushstring T (((b.buf.drop b.start).take (b.end_ - b.start)).takeWhile
          (fun c => c != Char.ofNat 10)),
        { b with start := b.start + (((b.buf.drop b.start).take
            (b.end_ - b.start)).takeWhile (fun c => c != Char.ofNat 10)).length + 1 })
  destroy := none

/-- The stream that `stream:readp(parser_line_example)` leaves when the input
buffer holds 2 bytes and the peer has sent "hi": the buffer is full, no newline
has come, and coroutine 8 is suspended in the read. -/
def stream_full : stream :=
  (stream_readp 2 T_rd parser_line_example stream0 kernel_hi).2.2.1

/-- The peer has sent "more": the next `read` has these bytes to take from. -/
def kernel_more : Kernel := { kernel0 with reads := [ReadRet.data "more".toList] }

/-- The peer sends "hi" and then "more". -/
def kernel_hi_more : Kernel :=
  { kernel0 with reads := [ReadRet.data "hi".toList, ReadRet.data "more".toList] }

theorem results_pair (T : lua_State) (a b : Val) :
    results 2 (lua_push (lua_push T a) b) = [a, b] := by
  simp [results, lua_push]

theorem results_one (T : lua_State) (a : Val) :
    results 1 (lua_push T a) = [a] := by
  simp [results, lua_push]

/-! ## Extending the trace -/

theorem emitted_of_append {k k1 : Kernel} {evs : List Event}
    (h : k1.trace = k.trace ++ evs) : emitted k k1 = evs := by
  simp [emitted, h]

theorem Extends.refl (P : Event → Prop) (k : Kernel) : Extends P k k :=
  ⟨[], by simp, by simp⟩

theorem Extends.same (P : Event → Prop) {k k1 : Kernel} (h : k1.trace = k.trace) :
    Extends P k k1 :=
  ⟨[], by simp [h], by simp⟩

theorem Extends.trans {P : Event → Prop} {k k1 k2 : Kernel}
    (h1 : Extends P k k1) (h2 : Extends P k1 k2) : Extends P k k2 := by
  obtain ⟨e1, a1, b1⟩ := h1
  obtain ⟨e2, a2, b2⟩ := h2
  refine ⟨e1 ++ e2, by rw [a2, a1]; simp, ?_⟩
  intro e he
  rcases List.mem_append.1 he with h | h
  · exact b1 e h
  · exact b2 e h

theorem Extends.emit {P : Event → Prop} (k : Kernel) (e : Event) (h : P e) :
    Extends P k (k.emit e) :=
  ⟨[e], rfl, by simpa using h⟩

theorem Extends.of_trace {P : Event → Prop} {k k1 : Kernel} (evs : List Event)
    (h : k1.trace = k.trace ++ evs) (hP : ∀ e ∈ evs, P e) : Extends P k k1 :=
  ⟨evs, h, hP⟩

theorem Extends.emitted {P : Event → Prop} {k k1 : Kernel} (h : Extends P k k1) :
    ∀ e ∈ emitted k k1, P e := by
  obtain ⟨evs, a, b⟩ := h
  rw [emitted_of_append a]
  exact b

/-! ## C3: a closed stream rejects every operation -/

/-- The three places that close a stream leave both descriptors at -1:
`stream_close` once it has passed its checks, the fatal branch of
`stream__write`, and the failure branches of `stream_sendfile_work`. -/
theorem closing_paths_close (T : lua_State) (s : stream) (f : file) (k : Kernel)
    (bytes : Int) :
    (0 ≤ s.r.fd → s.r.data = none → s.w.data = none →
      (stream_close T s k).2.2.1.r.fd = -1 ∧ (stream_close T s k).2.2.1.w.fd = -1) ∧
    (¬ (bytes < 0 ∧ k.errno = EAGAIN) →
      (stream__write_exit T s k bytes).2.2.1.r.fd = -1 ∧
      (stream__write_exit T s k bytes).2.2.1.w.fd = -1) ∧
    ((stream_sendfile_abort f s k).2.1.r.fd = -1 ∧
      (stream_sendfile_abort f s k).2.1.w.fd = -1) := by
  refine ⟨?_, ?_, ?_⟩
  · intro h1 h2 h3
    have : ¬ s.r.fd < 0 := by omega
    unfold stream_close
    simp only [this, if_false, h2, h3]
    constructor <;> (simp; split <;> rfl)
  · intro h
    unfold stream__write_exit
    simp only [h, if_false]
    constructor <;> (split <;> rfl)
  · exact ⟨rfl, rfl⟩

/-- C3: on a stream whose two descriptors hold the closed sentinel (a negative
number), each of `stream_close`, `stream_readp`, `stream_write`, `stream_cork`,
`stream_uncork` and `stream_sendfile` returns 2 values, which are nil and
"closed", and hands back the stream, the file and the kernel as they were:
no system call, no parser callback, no field changed. -/
theorem closed_stream_rejects (L : Nat) (T : lua_State) (p : lem_parser_t) (s : stream)
    (sid : Nat) (f : file) (size offset : Int) (k : Kernel)
    (hr : s.r.fd < 0) (hw : s.w.fd < 0) :
    stream_close T s k = (2, (io_closed T).2, s, k) ∧
    stream_readp L T p s k = (2, (io_closed T).2, s, k) ∧
    stream_write T s k = (2, (io_closed T).2, s, k) ∧
    stream_cork T s k = (2, (io_closed T).2, s, k) ∧
    stream_uncork T s k = (2, (io_closed T).2, s, k) ∧
    stream_sendfile T sid s f size offset k = (2, (io_closed T).2, s, f, k) ∧
    results 2 (io_closed T).2 = [Val.nil, Val.string "closed".toList] := by
  refine ⟨?_, ?_, ?_, ?_, ?_, ?_, ?_⟩
  · simp [stream_close, hr, io_closed]
  · simp [stream_readp, hr, io_closed]
  · simp [stream_write, hw, io_closed]
  · simp [stream_cork, stream_setcork, hw, io_closed]
  · simp [stream_uncork, stream_setcork, hw, io_closed]
  · simp [stream_sendfile, hw, io_closed]
  · simp [io_closed, lua_pushliteral, lua_pushnil, results_pair]

/-- C3, at a concrete input: the stream closed by `stream:close()`. -/
theorem closed_stream_rejects_witness :
    stream_closed0.r.fd < 0 ∧ stream_closed0.w.fd < 0 ∧
    stream_readp 4096 T_ab parser_example stream_closed0 kernel0 =
      (2, (io_closed T_ab).2, stream_closed0, kernel0) ∧
    stream_write T_ab stream_closed0 kernel0 =
      (2, (io_closed T_ab).2, stream_closed0, kernel0) :=
  ⟨by decide, by decide,
    (closed_stream_rejects 4096 T_ab parser_example stream_closed0 1 file0 0 0 kernel0
      (by decide) (by decide)).2.1,
    (closed_stream_rejects 4096 T_ab parser_example stream_closed0 1 file0 0 0 kernel0
      (by decide) (by decide)).2.2.1⟩

/-! ## C4: how `stream__write` ends -/

/-- The code after the loop of `stream__write`, by cases. -/
theorem stream__write_exit_spec (T : lua_State) (s : stream) (k : Kernel) (bytes : Int) :
    (bytes < 0 ∧ k.errno = EAGAIN → stream__write_exit T s k bytes = (0, T, s, k)) ∧
    (¬ (bytes < 0 ∧ k.errno = EAGAIN) →
      ∃ cret, (stream__write_exit T s k bytes).2.2.2.trace = k.trace ++ [Event.close s.w.fd cret] ∧
        (stream__write_exit T s k bytes).2.2.2.strerror = k.strerror ∧
        (stream__write_exit T s k bytes).2.2.1.r.fd = -1 ∧
        (stream__write_exit T s k bytes).2.2.1.w.fd = -1 ∧
        ((stream__write_exit T s k bytes).1, (stream__write_exit T s k bytes).2.1) =
          if bytes = 0 ∨ k.errno = ECONNRESET ∨ k.errno = EPIPE then io_closed T
          else io_strerror k T k.errno) := by
  constructor
  · intro h
    simp [stream__write_exit, h]
  · intro h
    have hc : ∃ cret, (sys_close k s.w.fd).2.trace = k.trace ++ [Event.close s.w.fd cret] ∧
        (sys_close k s.w.fd).2.strerror = k.strerror := by
      unfold sys_close
      split
      · exact ⟨0, rfl, rfl⟩
      · exact ⟨0, rfl, rfl⟩
      · exact ⟨-1, rfl, rfl⟩
    obtain ⟨cret, hc1, hc2⟩ := hc
    refine ⟨cret, ?_⟩
    unfold stream__write_exit
    simp only [h, if_false]
    by_cases hcl : bytes = 0 ∨ k.errno = ECONNRESET ∨ k.errno = EPIPE
    · simp [hcl, hc1, hc2]
    · simp [hcl, hc1, hc2, io_strerror]

/-- What one `write` does to the kernel. -/
theorem sys_write_cases (k : Kernel) (fd : Int) (buf : LStr) :
    ∃ err, (sys_write k fd buf).2.trace = k.trace ++ [Event.write fd buf (sys_write k fd buf).1 err] ∧
      ((sys_write k fd buf).1 < 0 → err = (sys_write k fd buf).2.errno) ∧
      ((sys_write k fd buf).1 = 0 → err = (sys_write k fd buf).2.errno) ∧
      (sys_write k fd buf).2.strerror = k.strerror ∧
      (sys_write k fd buf).2.writes.length = k.writes.length - 1 ∧
      (0 < (sys_write k fd buf).1 → 0 < k.writes.length) ∧
      (sys_write k fd buf).1 ≤ buf.length := by
  unfold sys_write
  split
  next h => exact ⟨EAGAIN, by simp [h]; omega⟩
  next n rest h => exact ⟨k.errno, by simp [h]⟩
  next e rest h => exact ⟨e, by simp [h]; omega⟩

/-- Every run of the loop of `stream__write` ends in one of the ways of
`WriteStops`. -/
theorem stream__write_loop_spec (T : lua_State) :
    ∀ (fuel : Nat) (s : stream) (k : Kernel), k.writes.length < fuel →
      ∃ evs, (stream__write_loop T fuel s k).2.2.2.trace = k.trace ++ evs ∧
        WriteStops T s k (stream__write_loop T fuel s k) evs := by
  intro fuel
  induction fuel with
  | zero => intro s k h; omega
  | succ n ih =>
    intro s k h
    obtain ⟨err, htr, herr, herr0, hse, hlen, hpos, -⟩ := sys_write_cases k s.w.fd s.out
    unfold stream__write_loop
    by_cases hw : (sys_write k s.w.fd s.out).1 > 0
    · have hfuel : (sys_write k s.w.fd s.out).2.writes.length < n := by
        have := hpos hw
        omega
      have hev : (Event.write s.w.fd s.out (sys_write k s.w.fd s.out).1 err).posWrite := hw
      simp only [hw, if_true]
      -- the ways the body of the loop can go on
      have key : ∀ s1 : stream, s1.w.fd = s.w.fd → s1.r.fd = s.r.fd →
          ∃ evs, (stream__write_loop T n s1 (sys_write k s.w.fd s.out).2).2.2.2.trace
              = k.trace ++ evs ∧
            WriteStops T s k (stream__write_loop T n s1 (sys_write k s.w.fd s.out).2) evs := by
        intro s1 hwfd hrfd
        obtain ⟨evs, h1, h2⟩ := ih s1 _ hfuel
        refine ⟨Event.write s.w.fd s.out (sys_write k s.w.fd s.out).1 err :: evs, ?_, ?_⟩
        · rw [h1, htr]; simp
        · rcases h2 with ⟨a, b, c, d, e⟩ | ⟨pre, buf, ret, err1, hpre, hret, h3⟩
          · left
            refine ⟨a, b, c.trans hrfd, d.trans hwfd, ?_⟩
            intro x hx
            rcases List.mem_cons.1 hx with rfl | hx
            · exact hev
            · exact e x hx
          · right
            refine ⟨Event.write s.w.fd s.out (sys_write k s.w.fd s.out).1 err :: pre,
              buf, ret, err1, ?_, hret, ?_⟩
            · intro x hx
              rcases List.mem_cons.1 hx with rfl | hx
              · exact hev
              · exact hpre x hx
            · rcases h3 with ⟨a, b, c, d, e, f, g⟩ | ⟨a, ⟨cret, c⟩, d, e, f⟩
              · left
                exact ⟨a, b, by rw [c, hwfd]; simp, d, e, f.trans hrfd, g.trans hwfd⟩
              · right
                refine ⟨a, ⟨cret, by rw [c, hwfd]; simp⟩, d, e, ?_⟩
                rw [f]
                simp [io_strerror, hse]
      split
      · split
        · refine ⟨[Event.write s.w.fd s.out (sys_write k s.w.fd s.out).1 err], htr,
            Or.inl ⟨rfl, rfl, rfl, rfl, ?_⟩⟩
          intro x hx
          rcases List.mem_singleton.1 hx with rfl
          exact hev
        · exact key _ rfl rfl
      · exact key _ rfl rfl
    · simp only [hw, if_false]
      have hle : (sys_write k s.w.fd s.out).1 ≤ 0 := by omega
      have herr2 : err = (sys_write k s.w.fd s.out).2.errno := by
        rcases lt_or_eq_of_le hle with h1 | h1
        · exact herr h1
        · exact herr0 h1
      subst herr2
      obtain ⟨hA, hB⟩ := stream__write_exit_spec T s (sys_write k s.w.fd s.out).2
        (sys_write k s.w.fd s.out).1
      by_cases hag : (sys_write k s.w.fd s.out).1 < 0 ∧ (sys_write k s.w.fd s.out).2.errno = EAGAIN
      · rw [hA hag]
        exact ⟨[Event.write s.w.fd s.out (sys_write k s.w.fd s.out).1 _], htr,
          Or.inr ⟨[], s.out, _, _, by simp, hle,
            Or.inl ⟨hag.1, hag.2, rfl, rfl, rfl, rfl, rfl⟩⟩⟩
      · obtain ⟨cret, h1, h2, h3, h4, h5⟩ := hB hag
        refine ⟨[Event.write s.w.fd s.out (sys_write k s.w.fd s.out).1 _,
            Event.close s.w.fd cret], ?_,
          Or.inr ⟨[], s.out, _, _, by simp, hle, Or.inr ⟨hag, ⟨cret, rfl⟩, h3, h4, ?_⟩⟩⟩
        · rw [h1, htr]; simp
        · rw [h5]
          simp [io_strerror, hse]

/-- C4: take a call of `stream__write` in which some `write` returned `ret ≤ 0`,
leaving `errno = err`.  If that was a failure with `EAGAIN`, the call returns 0
(pending) and both descriptors are as before.  In every other case both
descriptors end as -1, and the call returns the pair of `io_closed` when the
`write` returned 0 or failed with `ECONNRESET` or `EPIPE`, and the pair of
`io_strerror` for `err` otherwise. -/
theorem stream__write_fatal_closes (T : lua_State) (s : stream) (k : Kernel)
    (fd : Int) (buf : LStr) (ret : Int) (err : Nat)
    (hev : Event.write fd buf ret err ∈ emitted k (stream__write T s k).2.2.2)
    (hret : ret ≤ 0) :
    (ret < 0 ∧ err = EAGAIN →
      (stream__write T s k).1 = 0 ∧
      (stream__write T s k).2.2.1.r.fd = s.r.fd ∧
      (stream__write T s k).2.2.1.w.fd = s.w.fd) ∧
    (¬ (ret < 0 ∧ err = EAGAIN) →
      (stream__write T s k).2.2.1.r.fd = -1 ∧
      (stream__write T s k).2.2.1.w.fd = -1 ∧
      ((stream__write T s k).1, (stream__write T s k).2.1) =
        if ret = 0 ∨ err = ECONNRESET ∨ err = EPIPE then io_closed T
        else io_strerror k T err) := by
  obtain ⟨evs, htr, hst⟩ := stream__write_loop_spec T (k.writes.length + 1) s k (by omega)
  have hem : emitted k (stream__write T s k).2.2.2 = evs := emitted_of_append htr
  rw [hem] at hev
  have hnp : ¬ (Event.write fd buf ret err).posWrite := by
    simp [Event.posWrite]; exact hret
  change WriteStops T s k (stream__write T s k) evs at hst
  rcases hst with ⟨-, -, -, -, hall⟩ | ⟨pre, buf1, ret1, err1, hpre, -, h3⟩
  · exact absurd (hall _ hev) hnp
  · rcases h3 with ⟨a, b, c, d, e, f, g⟩ | ⟨a, ⟨cret, c⟩, d, e, f⟩
    · rw [c] at hev
      rcases List.mem_append.1 hev with h | h
      · exact absurd (hpre _ h) hnp
      · simp at h
        obtain ⟨-, -, rfl, rfl⟩ := h
        exact ⟨fun _ => ⟨d, f, g⟩, fun h => absurd ⟨a, b⟩ h⟩
    · rw [c] at hev
      rcases List.mem_append.1 hev with h | h
      · exact absurd (hpre _ h) hnp
      · simp at h
        obtain ⟨-, -, rfl, rfl⟩ := h
        exact ⟨fun h => absurd h a, fun _ => ⟨d, e, f⟩⟩

/-- C4, at a concrete input: `stream:write("ab")` where the first `write` takes
one byte and the second fails with `EPIPE`. -/
theorem stream__write_fatal_closes_witness :
    (stream__write T_ab { stream0 with out := "ab".toList, idx := 2 } kernel_epipe).2.2.1.r.fd = -1 ∧
    (stream__write T_ab { stream0 with out := "ab".toList, idx := 2 } kernel_epipe).2.2.1.w.fd = -1 ∧
    ((stream__write T_ab { stream0 with out := "ab".toList, idx := 2 } kernel_epipe).1,
      (stream__write T_ab { stream0 with out := "ab".toList, idx := 2 } kernel_epipe).2.1) =
        io_closed T_ab := by
  have h := (stream__write_fatal_closes T_ab { stream0 with out := "ab".toList, idx := 2 }
    kernel_epipe 3 "b".toList (-1) EPIPE (by decide) (by decide)).2 (by decide)
  simpa using h

/-! ## C5: how `stream__readp` ends -/

/-- What one `read` does to the kernel. -/
theorem sys_read_cases (k : Kernel) (fd : Int) (count : Nat) :
    (sys_read k fd count).2.2.trace =
      k.trace ++ [Event.read fd count (sys_read k fd count).1 (sys_read k fd count).2.2.errno] ∧
    (sys_read k fd count).2.2.strerror = k.strerror ∧
    (sys_read k fd count).2.2.reads.length = k.reads.length - 1 ∧
    (0 < (sys_read k fd count).1 → 0 < k.reads.length) ∧
    (sys_read k fd count).1 ≤ count ∧ -1 ≤ (sys_read k fd count).1 := by
  unfold sys_read
  split
  next h => simp [h]; omega
  next n rest h =>
    simp [h]
    omega
  next e rest h => simp [h]; omega

/-- The error pair at the end of `stream__readp`. -/
theorem stream__readp_fail_spec (T : lua_State) (s : stream) (k : Kernel)
    (res : lem_preason) (err : Nat) :
    stream__readp_fail T s k res err =
      (2, lua_push (lua_push (lua_settop T 0) Val.nil) (Val.string (reason_text k res err)),
        s, k) := by
  unfold stream__readp_fail reason_text
  by_cases h : res = lem_preason.LEM_PCLOSED
  · simp [h, io_closed, lua_pushliteral, lua_pushnil]
  · simp [h, io_strerror, lua_pushstring, lua_pushnil]


/-- The code after the loop of `stream__readp`, by cases. -/
theorem stream__readp_exit_spec (p : lem_parser_t) (T : lua_State) (s : stream) (k : Kernel)
    (bytes : Int) :
    (bytes < 0 ∧ k.errno = EAGAIN → stream__readp_exit p T s k bytes = (0, T, s, k)) ∧
    (¬ (bytes < 0 ∧ k.errno = EAGAIN) →
      (p.destroy = none →
        stream__readp_exit p T s k bytes =
          (2, lua_push (lua_push (lua_settop T 0) Val.nil)
                (Val.string (reason_text k (read_reason bytes k.errno) k.errno)), s, k)) ∧
      (∀ d, p.destroy = some d →
        (stream__readp_exit p T s k bytes).2.2.2.trace = k.trace ++
          [Event.destroy (read_reason bytes k.errno) (d T s.buf (read_reason bytes k.errno)).1,
           Event.buf (d T s.buf (read_reason bytes k.errno)).2.2.start
             (d T s.buf (read_reason bytes k.errno)).2.2.end_] ∧
        (stream__readp_exit p T s k bytes).2.2.1.buf =
          (d T s.buf (read_reason bytes k.errno)).2.2 ∧
        (0 < (d T s.buf (read_reason bytes k.errno)).1 →
          (stream__readp_exit p T s k bytes).1 = (d T s.buf (read_reason bytes k.errno)).1 ∧
          (stream__readp_exit p T s k bytes).2.1 =
            (d T s.buf (read_reason bytes k.errno)).2.1) ∧
        (¬ 0 < (d T s.buf (read_reason bytes k.errno)).1 →
          (stream__readp_exit p T s k bytes).1 = 2 ∧
          (stream__readp_exit p T s k bytes).2.1 =
            lua_push (lua_push (lua_settop (d T s.buf (read_reason bytes k.errno)).2.1 0) Val.nil)
              (Val.string (reason_text k (read_reason bytes k.errno) k.errno))))) := by
  constructor
  · intro h
    simp [stream__readp_exit, h]
  · intro h
    constructor
    · intro hd
      unfold stream__readp_exit
      simp only [h, if_false, hd]
      rw [stream__readp_fail_spec]
      rfl
    · intro d hd
      unfold stream__readp_exit
      simp only [h, if_false, hd]
      by_cases hpos : 0 < (d T s.buf (read_reason bytes k.errno)).1
      · have hpos2 : 0 < (d T s.buf (if bytes = 0 ∨ k.errno = ECONNRESET ∨ k.errno = EPIPE
            then lem_preason.LEM_PCLOSED else lem_preason.LEM_PERROR)).1 := hpos
        simp [hpos, hpos2, Kernel.emit, read_reason]
      · have hpos2 : ¬ 0 < (d T s.buf (if bytes = 0 ∨ k.errno = ECONNRESET ∨ k.errno = EPIPE
            then lem_preason.LEM_PCLOSED else lem_preason.LEM_PERROR)).1 := hpos
        simp only [gt_iff_lt, hpos2, if_false, stream__readp_fail_spec]
        simp [hpos, Kernel.emit, read_reason, reason_text]
        intro hh
        exact absurd hh hpos2


/-- A run that stops as `ReadStops` says still does so after more turns of the
loop in front of it. -/
theorem ReadStops.prepend {p : lem_parser_t} {s s2 : stream} {k k2 : Kernel}
    {r : Int × lua_State × stream × Kernel} (evs0 : List Event)
    (h1 : k2.trace = k.trace ++ evs0)
    (hcalm : ∀ e ∈ evs0, e.isDestroy = false ∧ e.isReadStop = false)
    (hse : k2.strerror = k.strerror) (hr : s2.r = s.r) (hw : s2.w = s.w)
    (h : ReadStops p s2 k2 r) : ReadStops p s k r := by
  rcases h with ⟨hpos, evs, h2, h3⟩ | ⟨pre, T1, s1, k1, cnt, bytes, hb, hpre, h2, h3, h4, h5, h6⟩
  · left
    refine ⟨hpos, evs0 ++ evs, by rw [h2, h1]; simp, ?_⟩
    intro e he
    rcases List.mem_append.1 he with he | he
    · exact hcalm e he
    · exact h3 e he
  · right
    refine ⟨evs0 ++ pre, T1, s1, k1, cnt, bytes, hb, ?_, by rw [h2, h1, hr]; simp,
      h3.trans hse, h4.trans hr, h5.trans hw, h6⟩
    intro e he
    rcases List.mem_append.1 he with he | he
    · exact hcalm e he
    · exact hpre e he

/-- Every run of the loop of `stream__readp` ends in one of the ways of
`ReadStops`. -/
theorem stream__readp_loop_spec (cap : Nat) (p : lem_parser_t) :
    ∀ (fuel : Nat) (T : lua_State) (s : stream) (k : Kernel), k.reads.length < fuel →
      ReadStops p s k (stream__readp_loop cap p fuel T s k) := by
  intro fuel
  induction fuel with
  | zero => intro T s k h; omega
  | succ n ih =>
    intro T s k h
    obtain ⟨htr, hse, hlen, hpos, -, -⟩ := sys_read_cases k s.r.fd (cap - s.buf.end_)
    unfold stream__readp_loop
    by_cases hw : (sys_read k s.r.fd (cap - s.buf.end_)).1 > 0
    · simp only [hw, if_true]
      have hfuel : (sys_read k s.r.fd (cap - s.buf.end_)).2.2.reads.length < n := by
        have := hpos hw
        omega
      have hcalm : (Event.read s.r.fd (cap - s.buf.end_) (sys_read k s.r.fd (cap - s.buf.end_)).1
          (sys_read k s.r.fd (cap - s.buf.end_)).2.2.errno).isReadStop = false := by
        simp [Event.isReadStop]; omega
      have htr2 : ∀ a b c : Event,
          ((((sys_read k s.r.fd (cap - s.buf.end_)).2.2.emit a).emit b).emit c).trace =
            k.trace ++ [Event.read s.r.fd (cap - s.buf.end_)
              (sys_read k s.r.fd (cap - s.buf.end_)).1
              (sys_read k s.r.fd (cap - s.buf.end_)).2.2.errno, a, b, c] := by
        intro a b c
        simp [Kernel.emit, htr]
      have hcalm4 : ∀ (a b c d : Nat) (x : Int), ∀ e ∈
          [Event.read s.r.fd (cap - s.buf.end_) (sys_read k s.r.fd (cap - s.buf.end_)).1
            (sys_read k s.r.fd (cap - s.buf.end_)).2.2.errno,
           Event.buf a b, Event.process x, Event.buf c d],
          e.isDestroy = false ∧ e.isReadStop = false := by
        intro a b c d x e he
        simp at he
        rcases he with rfl | rfl | rfl | rfl
        · exact ⟨rfl, hcalm⟩
        · exact ⟨rfl, rfl⟩
        · exact ⟨rfl, rfl⟩
        · exact ⟨rfl, rfl⟩
      split
      · next hp =>
        left
        exact ⟨hp, _, htr2 _ _ _, hcalm4 _ _ _ _ _⟩
      · next hp =>
        exact ReadStops.prepend _ (htr2 _ _ _) (hcalm4 _ _ _ _ _)
          (by simpa [Kernel.emit] using hse) rfl rfl
          (ih _ _ _ (by simpa [Kernel.emit] using hfuel))
    · simp only [hw, if_false]
      right
      exact ⟨[], T, s, _, _, _, by omega, by simp, by simpa using htr, hse, rfl, rfl, rfl⟩


/-- C5: take a run of `stream__readp` (with `s->p = p`) in which some `read`
returned `ret ≤ 0`, leaving `errno = err`.  If that was a failure with `EAGAIN`,
the run returns 0 (pending) and calls no destroy callback.  Otherwise the reason
is `LEM_PCLOSED` when `ret = 0` or `err` is `ECONNRESET` or `EPIPE`, and
`LEM_PERROR` for any other error.  Without a destroy callback the run calls
none and returns nil and the text of the reason ("closed", or the OS error
text).  With a destroy callback `d`, the run calls it exactly once, with that
reason; when `d` returns more than 0 values the run returns what `d` returned,
and otherwise it returns nil and the text of the reason. -/
theorem stream__readp_end (cap : Nat) (T : lua_State) (s : stream) (k : Kernel)
    (p : lem_parser_t) (hp : s.p = some p)
    (fd : Int) (cnt : Nat) (ret : Int) (err : Nat)
    (hev : Event.read fd cnt ret err ∈ emitted k (stream__readp cap T s k).2.2.2)
    (hret : ret ≤ 0) :
    (ret < 0 ∧ err = EAGAIN →
      (stream__readp cap T s k).1 = 0 ∧
      ∀ e ∈ emitted k (stream__readp cap T s k).2.2.2, e.isDestroy = false) ∧
    (¬ (ret < 0 ∧ err = EAGAIN) →
      (p.destroy = none →
        (∀ e ∈ emitted k (stream__readp cap T s k).2.2.2, e.isDestroy = false) ∧
        (stream__readp cap T s k).1 = 2 ∧
        results 2 (stream__readp cap T s k).2.1 =
          [Val.nil, Val.string (reason_text k (read_reason ret err) err)]) ∧
      (∀ d, p.destroy = some d → ∃ T1 b1,
        (emitted k (stream__readp cap T s k).2.2.2).filter Event.isDestroy =
          [Event.destroy (read_reason ret err) (d T1 b1 (read_reason ret err)).1] ∧
        (0 < (d T1 b1 (read_reason ret err)).1 →
          (stream__readp cap T s k).1 = (d T1 b1 (read_reason ret err)).1 ∧
          (stream__readp cap T s k).2.1 = (d T1 b1 (read_reason ret err)).2.1) ∧
        (¬ 0 < (d T1 b1 (read_reason ret err)).1 →
          (stream__readp cap T s k).1 = 2 ∧
          results 2 (stream__readp cap T s k).2.1 =
            [Val.nil, Val.string (reason_text k (read_reason ret err) err)]))) := by
  have hstop : (Event.read fd cnt ret err).isReadStop = true := by
    simp [Event.isReadStop, hret]
  have hspec := stream__readp_loop_spec cap p (k.reads.length + 1) T s k (by omega)
  have hdef : stream__readp cap T s k = stream__readp_loop cap p (k.reads.length + 1) T s k := by
    simp [stream__readp, hp]
  rw [← hdef] at hspec
  rcases hspec with ⟨-, evs, h2, h3⟩ | ⟨pre, T1, s1, k1, cnt1, bytes, hb, hpre, h2, h3, h4, h5, h6⟩
  · rw [emitted_of_append h2] at hev
    have := (h3 _ hev).2
    rw [hstop] at this
    exact absurd this (by simp)
  · have hprefilter : pre.filter Event.isDestroy = [] := by
      rw [List.filter_eq_nil_iff]
      intro e he
      simp [(hpre e he).1]
    obtain ⟨hA, hB⟩ := stream__readp_exit_spec p T1 s1 k1 bytes
    by_cases hag : bytes < 0 ∧ k1.errno = EAGAIN
    · -- the run is pending
      have hr : stream__readp cap T s k = (0, T1, s1, k1) := by rw [h6, hA hag]
      have hem : emitted k (stream__readp cap T s k).2.2.2
          = pre ++ [Event.read s.r.fd cnt1 bytes k1.errno] := by
        apply emitted_of_append
        rw [hr]; simp [h2]
      rw [hem] at hev ⊢
      have hsame : ret = bytes ∧ err = k1.errno := by
        rcases List.mem_append.1 hev with h | h
        · have := (hpre _ h).2
          rw [hstop] at this
          exact absurd this (by simp)
        · simp at h
          exact ⟨h.2.2.1, h.2.2.2⟩
      obtain ⟨rfl, rfl⟩ := hsame
      refine ⟨fun _ => ⟨by rw [hr], ?_⟩, fun h => absurd hag h⟩
      intro e he
      rcases List.mem_append.1 he with h | h
      · exact (hpre _ h).1
      · simp at h
        subst h
        rfl
    · obtain ⟨hnone, hsome⟩ := hB hag
      cases hd : p.destroy with
      | none =>
        have hr := hnone hd
        rw [← h6] at hr
        have hem : emitted k (stream__readp cap T s k).2.2.2
            = pre ++ [Event.read s.r.fd cnt1 bytes k1.errno] := by
          apply emitted_of_append
          rw [hr]; simp [h2]
        rw [hem] at hev ⊢
        have hsame : ret = bytes ∧ err = k1.errno := by
          rcases List.mem_append.1 hev with h | h
          · have := (hpre _ h).2
            rw [hstop] at this
            exact absurd this (by simp)
          · simp at h
            exact ⟨h.2.2.1, h.2.2.2⟩
        obtain ⟨rfl, rfl⟩ := hsame
        refine ⟨fun h => absurd h hag, fun _ => ⟨fun _ => ⟨?_, by rw [hr], ?_⟩, ?_⟩⟩
        · intro e he
          rcases List.mem_append.1 he with h | h
          · exact (hpre _ h).1
          · simp at h
            subst h
            rfl
        · rw [hr]
          simp [results_pair, reason_text, h3]
        · intro d hd2
          simp at hd2
      | some d =>
        obtain ⟨htr, -, hpos, hneg⟩ := hsome d hd
        rw [← h6] at htr hpos hneg
        have hem : emitted k (stream__readp cap T s k).2.2.2
            = pre ++ [Event.read s.r.fd cnt1 bytes k1.errno,
                Event.destroy (read_reason bytes k1.errno)
                  (d T1 s1.buf (read_reason bytes k1.errno)).1,
                Event.buf (d T1 s1.buf (read_reason bytes k1.errno)).2.2.start
                  (d T1 s1.buf (read_reason bytes k1.errno)).2.2.end_] := by
          apply emitted_of_append
          rw [htr, h2]; simp
        rw [hem] at hev ⊢
        have hsame : ret = bytes ∧ err = k1.errno := by
          rcases List.mem_append.1 hev with h | h
          · have := (hpre _ h).2
            rw [hstop] at this
            exact absurd this (by simp)
          · simp at h
            exact ⟨h.2.2.1, h.2.2.2⟩
        obtain ⟨rfl, rfl⟩ := hsame
        refine ⟨fun h => absurd h hag, fun _ => ⟨fun h => by simp at h, ?_⟩⟩
        intro d2 hd2
        simp at hd2
        subst hd2
        refine ⟨T1, s1.buf, ?_, hpos, ?_⟩
        · rw [List.filter_append, hprefilter]
          simp [List.filter, Event.isDestroy]
        · intro hn
          obtain ⟨h7, h8⟩ := hneg hn
          refine ⟨h7, ?_⟩
          rw [h8]
          simp [results_pair, reason_text, h3]

/-- C5, at a concrete input: the peer closes after "hi" and the parser's destroy
callback hands the two bytes back. -/
theorem stream__readp_end_witness :
    ∃ T1 b1,
      (emitted kernel_eof
          (stream__readp 4096 T_rd { stream0 with p := some parser_all_example }
            kernel_eof).2.2.2).filter Event.isDestroy =
        [Event.destroy lem_preason.LEM_PCLOSED 1] ∧
      (stream__readp 4096 T_rd { stream0 with p := some parser_all_example } kernel_eof).1 = 1 ∧
      (stream__readp 4096 T_rd { stream0 with p := some parser_all_example } kernel_eof).2.1 =
        ((fun T b res =>
            if res = lem_preason.LEM_PCLOSED then
              (1, lua_pushstring T ((b.buf.drop b.start).take (b.end_ - b.start)),
                { b with start := 0, end_ := 0 })
            else (0, T, b)) T1 b1 lem_preason.LEM_PCLOSED :
          Int × lua_State × lem_inputbuf).2.1 := by
  obtain ⟨T1, b1, h1, h2, -⟩ :=
    (stream__readp_end 4096 T_rd { stream0 with p := some parser_all_example } kernel_eof
      parser_all_example rfl 3 4094 0 0 (by decide) (by decide)).2 (by decide) |>.2 _ rfl
  refine ⟨T1, b1, ?_, ?_, ?_⟩
  · simpa [read_reason] using h1
  · simpa [read_reason] using (h2 (by simp [read_reason])).1
  · simpa [read_reason] using (h2 (by simp [read_reason])).2

/-! ## C9: the invariant of the input buffer -/

/-- The step `s->buf.end += bytes` keeps the invariant when the `read` returned
at most the count it was asked for. -/
theorem inputbuf_add_ok (cap : Nat) (b : lem_inputbuf) (data : LStr) (bytes : Int)
    (hb : buf_ok cap b) (hle : bytes ≤ ((cap - b.end_ : Nat) : Int)) :
    buf_ok cap (inputbuf_add b data bytes) := by
  have h1 := hb.1
  have h2 := hb.2
  constructor
  · show b.start ≤ b.end_ + bytes.toNat
    omega
  · show b.end_ + bytes.toNat ≤ cap
    omega

/-- Recording the cursors of a buffer that satisfies the invariant. -/
theorem Extends.emit_buf (cap : Nat) (k : Kernel) (b : lem_inputbuf) (h : buf_ok cap b) :
    Extends (Event.bufOk cap) k (k.emit (Event.buf b.start b.end_)) :=
  Extends.emit k _ h

/-- The invariant and the recorded cursors after the code that follows the loop
of `stream__readp`. -/
theorem stream__readp_exit_buf_ok (cap : Nat) (p : lem_parser_t) (hp : parser_keeps cap p)
    (T : lua_State) (s : stream) (k : Kernel) (bytes : Int) (hs : buf_ok cap s.buf) :
    buf_ok cap (stream__readp_exit p T s k bytes).2.2.1.buf ∧
    Extends (Event.bufOk cap) k (stream__readp_exit p T s k bytes).2.2.2 := by
  obtain ⟨hA, hB⟩ := stream__readp_exit_spec p T s k bytes
  by_cases hag : bytes < 0 ∧ k.errno = EAGAIN
  · rw [hA hag]
    exact ⟨hs, Extends.refl _ _⟩
  · obtain ⟨hnone, hsome⟩ := hB hag
    cases hd : p.destroy with
    | none =>
      rw [hnone hd]
      exact ⟨hs, Extends.refl _ _⟩
    | some d =>
      obtain ⟨htr, hbuf, -, -⟩ := hsome d hd
      have hk := hp.2.2 d hd T s.buf (read_reason bytes k.errno) hs
      refine ⟨by rw [hbuf]; exact hk, _, htr, ?_⟩
      intro e he
      simp at he
      rcases he with rfl | rfl
      · trivial
      · exact hk

/-- The invariant and the recorded cursors along the loop of `stream__readp`. -/
theorem stream__readp_loop_buf_ok (cap : Nat) (p : lem_parser_t) (hp : parser_keeps cap p) :
    ∀ (fuel : Nat) (T : lua_State) (s : stream) (k : Kernel), buf_ok cap s.buf →
      buf_ok cap (stream__readp_loop cap p fuel T s k).2.2.1.buf ∧
      Extends (Event.bufOk cap) k (stream__readp_loop cap p fuel T s k).2.2.2 := by
  intro fuel
  induction fuel with
  | zero =>
    intro T s k hs
    exact ⟨hs, Extends.refl _ _⟩
  | succ n ih =>
    intro T s k hs
    obtain ⟨htr, -, -, -, hle, -⟩ := sys_read_cases k s.r.fd (cap - s.buf.end_)
    have hrd : Extends (Event.bufOk cap) k (sys_read k s.r.fd (cap - s.buf.end_)).2.2 :=
      ⟨_, htr, by intro e he; simp at he; subst he; trivial⟩
    unfold stream__readp_loop
    by_cases hw : (sys_read k s.r.fd (cap - s.buf.end_)).1 > 0
    · simp only [hw, if_true]
      have hb1 := inputbuf_add_ok cap s.buf (sys_read k s.r.fd (cap - s.buf.end_)).2.1
        (sys_read k s.r.fd (cap - s.buf.end_)).1 hs hle
      have hb2 := hp.2.1 T _ hb1
      have hk2 := ((hrd.trans (Extends.emit_buf cap _ _ hb1)).trans
        (Extends.emit _ (Event.process (p.process T (inputbuf_add s.buf
          (sys_read k s.r.fd (cap - s.buf.end_)).2.1
          (sys_read k s.r.fd (cap - s.buf.end_)).1)).1) trivial)).trans
        (Extends.emit_buf cap _ _ hb2)
      split
      · exact ⟨hb2, hk2⟩
      · constructor
        · exact (ih _ _ _ hb2).1
        · exact hk2.trans (ih _ _ _ hb2).2
    · simp only [hw, if_false]
      obtain ⟨h1, h2⟩ :=
        stream__readp_exit_buf_ok cap p hp T s (sys_read k s.r.fd (cap - s.buf.end_)).2.2
          (sys_read k s.r.fd (cap - s.buf.end_)).1 hs
      exact ⟨h1, hrd.trans h2⟩


/-- The invariant and the recorded cursors over one run of `stream__readp`. -/
theorem stream__readp_buf_ok (cap : Nat) (p : lem_parser_t) (hp : parser_keeps cap p)
    (T : lua_State) (s : stream) (k : Kernel) (hsp : s.p = some p) (hs : buf_ok cap s.buf) :
    buf_ok cap (stream__readp cap T s k).2.2.1.buf ∧
    Extends (Event.bufOk cap) k (stream__readp cap T s k).2.2.2 := by
  have hdef : stream__readp cap T s k = stream__readp_loop cap p (k.reads.length + 1) T s k := by
    simp [stream__readp, hsp]
  rw [hdef]
  exact stream__readp_loop_buf_ok cap p hp _ T s k hs

/-- The invariant and the recorded cursors over the init step of `stream_readp`. -/
theorem stream_readp_init_buf_ok (cap : Nat) (p : lem_parser_t) (hp : parser_keeps cap p)
    (T : lua_State) (s : stream) (k : Kernel) (hs : buf_ok cap s.buf) :
    buf_ok cap (stream_readp_init p T s k).2.1.buf ∧
    Extends (Event.bufOk cap) k (stream_readp_init p T s k).2.2 := by
  unfold stream_readp_init
  cases hi : p.init with
  | none => exact ⟨hs, Extends.refl _ _⟩
  | some f =>
    have hk := hp.1 f hi T s.buf hs
    exact ⟨hk, (Extends.emit k Event.init trivial).trans (Extends.emit_buf cap _ _ hk)⟩

/-- C9: the invariant `0 ≤ start ≤ end ≤ capacity` holds for the buffer of a
stream made by `stream_new`, and when it holds before a call of `stream_readp`,
of `stream__readp` or of `stream_readp_cb` whose parser callbacks keep it, then
it holds after the call and for the cursors recorded after every change of the
buffer during the call: after `init`, after each `end += bytes`, after each
`process` and after `destroy`.  That a `read` returns at most the count it was
asked for is a property of `sys_read` (`sys_read_cases`). -/
theorem input_buffer_invariant (cap : Nat) (fd : Int) (undef : LStr) (T : lua_State)
    (p : lem_parser_t) (s : stream) (k : Kernel)
    (hp : parser_keeps cap p) (hs : buf_ok cap s.buf) :
    buf_ok cap (stream_new fd undef).buf ∧
    (buf_ok cap (stream_readp cap T p s k).2.2.1.buf ∧
      ∀ e ∈ emitted k (stream_readp cap T p s k).2.2.2, e.bufOk cap) ∧
    (s.p = some p →
      (buf_ok cap (stream__readp cap T s k).2.2.1.buf ∧
        ∀ e ∈ emitted k (stream__readp cap T s k).2.2.2, e.bufOk cap) ∧
      (buf_ok cap (stream_readp_cb cap T s k).2.1.buf ∧
        ∀ e ∈ emitted k (stream_readp_cb cap T s k).2.2, e.bufOk cap)) := by
  refine ⟨⟨Nat.le_refl 0, Nat.zero_le cap⟩, ?_, ?_⟩
  · suffices h : buf_ok cap (stream_readp cap T p s k).2.2.1.buf ∧
        Extends (Event.bufOk cap) k (stream_readp cap T p s k).2.2.2 from ⟨h.1, h.2.emitted⟩
    unfold stream_readp
    split
    · exact ⟨hs, Extends.refl _ _⟩
    split
    · exact ⟨hs, Extends.refl _ _⟩
    obtain ⟨hi1, hi2⟩ := stream_readp_init_buf_ok cap p hp T s k hs
    have hb := hp.2.1 (stream_readp_init p T s k).1 _ hi1
    have hk1 := (hi2.trans (Extends.emit _ (Event.process (p.process
      (stream_readp_init p T s k).1 (stream_readp_init p T s k).2.1.buf).1) trivial)).trans
      (Extends.emit_buf cap _ _ hb)
    simp only []
    split
    · exact ⟨hb, hk1⟩
    have hr := fun k1 => stream__readp_buf_ok cap p hp
      (p.process (stream_readp_init p T s k).1 (stream_readp_init p T s k).2.1.buf).2.1
      { (stream_readp_init p T s k).2.1 with
        buf := (p.process (stream_readp_init p T s k).1
          (stream_readp_init p T s k).2.1.buf).2.2, p := some p }
      k1 rfl hb
    split
    · exact ⟨(hr _).1, hk1.trans (hr _).2⟩
    · exact ⟨(hr _).1, ((hk1.trans (hr _).2).trans
        (Extends.emit _ (Event.store Slot.r_data (some T.id)) trivial)).trans
        (Extends.emit _ (Event.ev_io_start Callback.stream_readp_cb) trivial)⟩
  · intro hsp
    have hr := stream__readp_buf_ok cap p hp T s k hsp hs
    refine ⟨⟨hr.1, hr.2.emitted⟩, ?_⟩
    suffices h : buf_ok cap (stream_readp_cb cap T s k).2.1.buf ∧
        Extends (Event.bufOk cap) k (stream_readp_cb cap T s k).2.2 from ⟨h.1, h.2.emitted⟩
    unfold stream_readp_cb
    simp only []
    split
    · exact hr
    · exact ⟨hr.1, ((hr.2.trans
        (Extends.emit _ (Event.ev_io_stop Callback.stream_readp_cb) trivial)).trans
        (Extends.emit _ (Event.store Slot.r_data none) trivial)).trans
        (Extends.emit _ (Event.lem_queue _ _ _) trivial)⟩

/-- The callbacks of `parser_example` keep the invariant of the input buffer. -/
theorem parser_example_keeps (cap : Nat) : parser_keeps cap parser_example := by
  refine ⟨?_, ?_, ?_⟩
  · intro f hf T b hb
    simp [parser_example] at hf
    subst hf
    exact hb
  · intro T b hb
    simp only [parser_example]
    split
    · exact ⟨Nat.le_refl 0, Nat.zero_le cap⟩
    · exact hb
  · intro d hd
    simp [parser_example] at hd

/-- C9, at a concrete input: a read that takes "hi" from the descriptor. -/
theorem input_buffer_invariant_witness :
    buf_ok 4096 stream0.buf ∧
    buf_ok 4096 (stream_readp 4096 T_rd parser_example stream0 kernel_hi).2.2.1.buf ∧
    ∀ e ∈ emitted kernel_hi (stream_readp 4096 T_rd parser_example stream0 kernel_hi).2.2.2,
      e.bufOk 4096 :=
  ⟨⟨by decide, by decide⟩,
    (input_buffer_invariant 4096 3 [] T_rd parser_example stream0 kernel_hi
      (parser_example_keeps 4096) ⟨by decide, by decide⟩).2.1⟩

/-! ## What the functions leave alone -/

theorem same_waiters_refl (s : stream) : same_waiters s s :=
  ⟨rfl, rfl, rfl, rfl, rfl, rfl⟩

theorem same_waiters_trans {s s1 s2 : stream} (h1 : same_waiters s s1)
    (h2 : same_waiters s1 s2) : same_waiters s s2 :=
  ⟨h2.1.trans h1.1, h2.2.1.trans h1.2.1, h2.2.2.1.trans h1.2.2.1,
    h2.2.2.2.1.trans h1.2.2.2.1, h2.2.2.2.2.1.trans h1.2.2.2.2.1,
    h2.2.2.2.2.2.trans h1.2.2.2.2.2⟩

/-- The code after the loop of `stream__write` leaves the waiters alone. -/
theorem stream__write_exit_waiters (T : lua_State) (s : stream) (k : Kernel) (bytes : Int) :
    same_waiters s (stream__write_exit T s k bytes).2.2.1 := by
  unfold stream__write_exit
  simp only []
  split
  · exact same_waiters_refl s
  · split <;> exact ⟨rfl, rfl, rfl, rfl, rfl, rfl⟩

/-- The loop of `stream__write` leaves the waiters alone. -/
theorem stream__write_loop_waiters (T : lua_State) :
    ∀ (fuel : Nat) (s : stream) (k : Kernel),
      same_waiters s (stream__write_loop T fuel s k).2.2.1 := by
  intro fuel
  induction fuel with
  | zero => intro s k; exact same_waiters_refl s
  | succ n ih =>
    intro s k
    unfold stream__write_loop
    simp only []
    split
    · split
      · split
        · exact ⟨rfl, rfl, rfl, rfl, rfl, rfl⟩
        · refine same_waiters_trans ?_ (ih _ _)
          exact ⟨rfl, rfl, rfl, rfl, rfl, rfl⟩
      · refine same_waiters_trans ?_ (ih _ _)
        exact ⟨rfl, rfl, rfl, rfl, rfl, rfl⟩
    · exact stream__write_exit_waiters T s _ _

/-- A run of `stream__write` leaves the waiters alone. -/
theorem stream__write_waiters (T : lua_State) (s : stream) (k : Kernel) :
    same_waiters s (stream__write T s k).2.2.1 :=
  stream__write_loop_waiters T _ s k

/-- The code after the loop of `stream__readp` leaves both watchers alone. -/
theorem stream__readp_exit_watchers (p : lem_parser_t) (T : lua_State) (s : stream)
    (k : Kernel) (bytes : Int) :
    (stream__readp_exit p T s k bytes).2.2.1.r = s.r ∧
    (stream__readp_exit p T s k bytes).2.2.1.w = s.w := by
  obtain ⟨hA, hB⟩ := stream__readp_exit_spec p T s k bytes
  by_cases hag : bytes < 0 ∧ k.errno = EAGAIN
  · rw [hA hag]
    exact ⟨rfl, rfl⟩
  · cases hd : p.destroy with
    | none =>
      rw [(hB hag).1 hd]
      exact ⟨rfl, rfl⟩
    | some d =>
      unfold stream__readp_exit stream__readp_fail
      simp only [hag, if_false, hd]
      generalize (if bytes = 0 ∨ k.errno = ECONNRESET ∨ k.errno = EPIPE
        then lem_preason.LEM_PCLOSED else lem_preason.LEM_PERROR) = res
      split
      · exact ⟨rfl, rfl⟩
      · split <;> exact ⟨rfl, rfl⟩

/-- The loop of `stream__readp` leaves both watchers alone. -/
theorem stream__readp_loop_watchers (cap : Nat) (p : lem_parser_t) :
    ∀ (fuel : Nat) (T : lua_State) (s : stream) (k : Kernel),
      (stream__readp_loop cap p fuel T s k).2.2.1.r = s.r ∧
      (stream__readp_loop cap p fuel T s k).2.2.1.w = s.w := by
  intro fuel
  induction fuel with
  | zero => intro T s k; exact ⟨rfl, rfl⟩
  | succ n ih =>
    intro T s k
    unfold stream__readp_loop
    simp only []
    split
    · split
      · exact ⟨rfl, rfl⟩
      · exact ih _ _ _
    · exact stream__readp_exit_watchers p T s _ _

/-- A run of `stream__readp` leaves both watchers alone. -/
theorem stream__readp_watchers (cap : Nat) (T : lua_State) (s : stream) (k : Kernel) :
    (stream__readp cap T s k).2.2.1.r = s.r ∧ (stream__readp cap T s k).2.2.1.w = s.w := by
  unfold stream__readp
  split
  · exact stream__readp_loop_watchers cap _ _ T s k
  · exact ⟨rfl, rfl⟩


/-- `stream_close` leaves the waiters alone. -/
theorem stream_close_waiters (T : lua_State) (s : stream) (k : Kernel) :
    same_waiters s (stream_close T s k).2.2.1 := by
  unfold stream_close
  simp only []
  split
  · exact same_waiters_refl s
  · split
    · exact same_waiters_refl s
    · split <;> exact ⟨rfl, rfl, rfl, rfl, rfl, rfl⟩

/-- `stream_setcork` hands the stream back as it was. -/
theorem stream_setcork_same (T : lua_State) (s : stream) (k : Kernel) (state : Int) :
    (stream_setcork T s k state).2.2.1 = s := by
  unfold stream_setcork
  simp only []
  split
  · rfl
  · split
    · rfl
    · split <;> rfl

/-- What `stream_readp` does to the waiters: the write watcher is untouched, and
the read waiter is either untouched or, on an idle stream, set to the caller,
who is then suspended. -/
theorem stream_readp_waiters (cap : Nat) (T : lua_State) (p : lem_parser_t) (s : stream)
    (k : Kernel) :
    (stream_readp cap T p s k).2.2.1.w = s.w ∧
    (stream_readp cap T p s k).2.2.1.r.fd = s.r.fd ∧
    ((stream_readp cap T p s k).2.2.1.r = s.r ∨
     (s.r.data = none ∧ (stream_readp cap T p s k).2.2.1.r.data = some T.id ∧
       (stream_readp cap T p s k).2.2.1.r.active = true ∧
       (stream_readp cap T p s k).1 = LUA_YIELD)) := by
  unfold stream_readp
  simp only []
  split
  · exact ⟨rfl, rfl, Or.inl rfl⟩
  · split
    · exact ⟨rfl, rfl, Or.inl rfl⟩
    · next hd =>
      have hd2 : s.r.data = none := by simpa using hd
      have hinit : (stream_readp_init p T s k).2.1.r = s.r ∧
          (stream_readp_init p T s k).2.1.w = s.w := by
        unfold stream_readp_init
        split <;> exact ⟨rfl, rfl⟩
      split
      · exact ⟨hinit.2, by rw [← hinit.1], Or.inl hinit.1⟩
      · have hw := fun k1 => stream__readp_watchers cap
          (p.process (stream_readp_init p T s k).1 (stream_readp_init p T s k).2.1.buf).2.1
          { (stream_readp_init p T s k).2.1 with
            buf := (p.process (stream_readp_init p T s k).1
              (stream_readp_init p T s k).2.1.buf).2.2, p := some p } k1
        split
        · exact ⟨((hw _).2).trans hinit.2, by rw [(hw _).1]; exact congrArg _ hinit.1,
            Or.inl (((hw _).1).trans hinit.1)⟩
        · refine ⟨((hw _).2).trans hinit.2, ?_, Or.inr ⟨hd2, rfl, rfl, rfl⟩⟩
          show (stream__readp cap _ _ _).2.2.1.r.fd = s.r.fd
          rw [(hw _).1]
          exact congrArg _ hinit.1

/-- What `stream_write` does to the waiters: the read waiter is untouched, and
the write waiter is either untouched or, on an idle stream, set to the caller,
who is then suspended with the watcher started. -/
theorem stream_write_waiters (T : lua_State) (s : stream) (k : Kernel) :
    (stream_write T s k).2.2.1.r.data = s.r.data ∧
    (stream_write T s k).2.2.1.r.active = s.r.active ∧
    (stream_write T s k).2.2.1.r.cb = s.r.cb ∧
    (((stream_write T s k).2.2.1.w.data = s.w.data ∧
      (stream_write T s k).2.2.1.w.active = s.w.active) ∨
     (s.w.data = none ∧ (stream_write T s k).2.2.1.w.data = some T.id ∧
       (stream_write T s k).2.2.1.w.active = true ∧
       (stream_write T s k).1 = LUA_YIELD)) := by
  unfold stream_write
  simp only []
  split
  · exact ⟨rfl, rfl, rfl, Or.inl ⟨rfl, rfl⟩⟩
  · split
    · exact ⟨rfl, rfl, rfl, Or.inl ⟨rfl, rfl⟩⟩
    · next hd =>
      have hd2 : s.w.data = none := by simpa using hd
      have hw := fun k1 => stream__write_waiters T
        { s with out := lua_tolstring T 2, idx := 2 } k1
      split
      · exact ⟨(hw _).1, (hw _).2.1, (hw _).2.2.1, Or.inl ⟨(hw _).2.2.2.1, (hw _).2.2.2.2.1⟩⟩
      · exact ⟨(hw _).1, (hw _).2.1, (hw _).2.2.1, Or.inr ⟨hd2, rfl, rfl, rfl⟩⟩

/-! ## The loops add plain events only -/

theorem Extends.mono {P Q : Event → Prop} {k k1 : Kernel} (h : Extends P k k1)
    (hPQ : ∀ e, P e → Q e) : Extends Q k k1 := by
  obtain ⟨evs, a, b⟩ := h
  exact ⟨evs, a, fun e he => hPQ e (b e he)⟩

/-- The code after the loop of `stream__readp` adds plain events only. -/
theorem stream__readp_exit_plain (p : lem_parser_t)
    (T : lua_State) (s : stream) (k : Kernel) (bytes : Int) :
    Extends (fun e => e.plain = true) k (stream__readp_exit p T s k bytes).2.2.2 := by
  obtain ⟨hA, hB⟩ := stream__readp_exit_spec p T s k bytes
  by_cases hag : bytes < 0 ∧ k.errno = EAGAIN
  · rw [hA hag]
    exact Extends.refl _ _
  · obtain ⟨hnone, hsome⟩ := hB hag
    cases hd : p.destroy with
    | none =>
      rw [hnone hd]
      exact Extends.refl _ _
    | some d =>
      obtain ⟨htr, -, -, -⟩ := hsome d hd
      refine ⟨_, htr, ?_⟩
      intro e he
      simp at he
      rcases he with rfl | rfl <;> rfl

/-- The loop of `stream__readp` adds plain events only. -/
theorem stream__readp_loop_plain (cap : Nat) (p : lem_parser_t) :
    ∀ (fuel : Nat) (T : lua_State) (s : stream) (k : Kernel),
      Extends (fun e => e.plain = true) k (stream__readp_loop cap p fuel T s k).2.2.2 := by
  intro fuel
  induction fuel with
  | zero =>
    intro T s k
    exact Extends.refl _ _
  | succ n ih =>
    intro T s k
    obtain ⟨htr, -, -, -, -, -⟩ := sys_read_cases k s.r.fd (cap - s.buf.end_)
    have hrd : Extends (fun e => e.plain = true) k (sys_read k s.r.fd (cap - s.buf.end_)).2.2 :=
      ⟨_, htr, by intro e he; simp at he; subst he; rfl⟩
    unfold stream__readp_loop
    simp only []
    split
    · have hk2 := ((hrd.trans (Extends.emit _ (Event.buf
          (inputbuf_add s.buf (sys_read k s.r.fd (cap - s.buf.end_)).2.1
            (sys_read k s.r.fd (cap - s.buf.end_)).1).start
          (inputbuf_add s.buf (sys_read k s.r.fd (cap - s.buf.end_)).2.1
            (sys_read k s.r.fd (cap - s.buf.end_)).1).end_) rfl)).trans
        (Extends.emit _ (Event.process (p.process T (inputbuf_add s.buf
          (sys_read k s.r.fd (cap - s.buf.end_)).2.1
          (sys_read k s.r.fd (cap - s.buf.end_)).1)).1) rfl)).trans
        (Extends.emit _ (Event.buf
          (p.process T (inputbuf_add s.buf (sys_read k s.r.fd (cap - s.buf.end_)).2.1
            (sys_read k s.r.fd (cap - s.buf.end_)).1)).2.2.start
          (p.process T (inputbuf_add s.buf (sys_read k s.r.fd (cap - s.buf.end_)).2.1
            (sys_read k s.r.fd (cap - s.buf.end_)).1)).2.2.end_) rfl)
      split
      · exact hk2
      · exact hk2.trans (ih _ _ _)
    · exact hrd.trans (stream__readp_exit_plain p T s _ _)

/-- A run of `stream__readp` adds plain events only. -/
theorem stream__readp_plain (cap : Nat) (T : lua_State) (s : stream) (k : Kernel) :
    Extends (fun e => e.plain = true) k (stream__readp cap T s k).2.2.2 := by
  unfold stream__readp
  split
  · exact stream__readp_loop_plain cap _ _ T s k
  · exact Extends.refl _ _

/-- A `close` adds one plain event. -/
theorem sys_close_plain (k : Kernel) (fd : Int) :
    Extends (fun e => e.plain = true) k (sys_close k fd).2 := by
  unfold sys_close
  split
  · exact ⟨[_], rfl, by intro e he; simp at he; subst he; rfl⟩
  · exact ⟨[_], rfl, by intro e he; simp at he; subst he; rfl⟩
  · exact ⟨[_], rfl, by intro e he; simp at he; subst he; rfl⟩

/-- The code after the loop of `stream__write` adds plain events only. -/
theorem stream__write_exit_plain (T : lua_State) (s : stream) (k : Kernel) (bytes : Int) :
    Extends (fun e => e.plain = true) k (stream__write_exit T s k bytes).2.2.2 := by
  unfold stream__write_exit
  simp only []
  split
  · exact Extends.refl _ _
  · split
    · exact sys_close_plain k s.w.fd
    · exact sys_close_plain k s.w.fd

/-- The loop of `stream__write` adds plain events only. -/
theorem stream__write_loop_plain (T : lua_State) :
    ∀ (fuel : Nat) (s : stream) (k : Kernel),
      Extends (fun e => e.plain = true) k (stream__write_loop T fuel s k).2.2.2 := by
  intro fuel
  induction fuel with
  | zero => intro s k; exact Extends.refl _ _
  | succ n ih =>
    intro s k
    obtain ⟨err, htr, -, -, -, -, -, -⟩ := sys_write_cases k s.w.fd s.out
    have hwr : Extends (fun e => e.plain = true) k (sys_write k s.w.fd s.out).2 :=
      ⟨_, htr, by intro e he; simp at he; subst he; rfl⟩
    unfold stream__write_loop
    simp only []
    split
    · split
      · split
        · exact hwr
        · exact hwr.trans (ih _ _)
      · exact hwr.trans (ih _ _)
    · exact hwr.trans (stream__write_exit_plain T s _ _)

/-- A run of `stream__write` adds plain events only. -/
theorem stream__write_plain (T : lua_State) (s : stream) (k : Kernel) :
    Extends (fun e => e.plain = true) k (stream__write T s k).2.2.2 :=
  stream__write_loop_plain T _ s k

/-! ## C10: `stream_readp` runs the init callback on every call -/

/-- A run of `stream__readp` only adds to the trace. -/
theorem stream__readp_extends (cap : Nat) (T : lua_State) (s : stream) (k : Kernel) :
    Extends (fun _ => True) k (stream__readp cap T s k).2.2.2 :=
  (stream__readp_plain cap T s k).mono (fun _ _ => trivial)

/-- On an open and idle stream, a call of `stream_readp` with a parser that has an
init callback starts with that callback and then calls `process`. -/
theorem stream_readp_trace (cap : Nat) (T : lua_State) (p : lem_parser_t) (s : stream)
    (k : Kernel) (f : lua_State → lem_inputbuf → lua_State × lem_inputbuf)
    (hopen : 0 ≤ s.r.fd) (hidle : s.r.data = none) (hinit : p.init = some f) :
    ∃ rest, emitted k (stream_readp cap T p s k).2.2.2 =
      [Event.init, Event.buf (f T s.buf).2.start (f T s.buf).2.end_,
       Event.process (p.process (f T s.buf).1 (f T s.buf).2).1,
       Event.buf (p.process (f T s.buf).1 (f T s.buf).2).2.2.start
         (p.process (f T s.buf).1 (f T s.buf).2).2.2.end_] ++ rest := by
  have hnc : ¬ s.r.fd < 0 := by omega
  have hi : stream_readp_init p T s k = ((f T s.buf).1, { s with buf := (f T s.buf).2 },
      (k.emit Event.init).emit (Event.buf (f T s.buf).2.start (f T s.buf).2.end_)) := by
    simp [stream_readp_init, hinit]
  have hk1 : ∀ e1 e2 e3 e4 : Event, ((((k.emit e1).emit e2).emit e3).emit e4).trace =
      k.trace ++ [e1, e2, e3, e4] := by
    intro e1 e2 e3 e4
    simp [Kernel.emit]
  have hpre : ∀ k2 : Kernel, Extends (fun _ => True)
      ((((k.emit Event.init).emit (Event.buf (f T s.buf).2.start (f T s.buf).2.end_)).emit
        (Event.process (p.process (f T s.buf).1 (f T s.buf).2).1)).emit
        (Event.buf (p.process (f T s.buf).1 (f T s.buf).2).2.2.start
          (p.process (f T s.buf).1 (f T s.buf).2).2.2.end_)) k2 →
      ∃ rest, emitted k k2 =
        [Event.init, Event.buf (f T s.buf).2.start (f T s.buf).2.end_,
         Event.process (p.process (f T s.buf).1 (f T s.buf).2).1,
         Event.buf (p.process (f T s.buf).1 (f T s.buf).2).2.2.start
           (p.process (f T s.buf).1 (f T s.buf).2).2.2.end_] ++ rest := by
    intro k2 ⟨evs, h1, _⟩
    refine ⟨evs, emitted_of_append ?_⟩
    rw [h1, hk1]
    simp
  unfold stream_readp
  simp only [hnc, hidle, if_false, ne_eq, not_true_eq_false, hi]
  split
  · exact hpre _ (Extends.refl _ _)
  · split
    · exact hpre _ (stream__readp_extends cap _ _ _)
    · exact hpre _ (((stream__readp_extends cap _ _ _).trans
        (Extends.emit _ (Event.store Slot.r_data (some T.id)) trivial)).trans
        (Extends.emit _ (Event.ev_io_start Callback.stream_readp_cb) trivial))

/-- C10, as amended: on an open and idle stream, every call of `stream_readp`
with a parser that has an init callback `f` runs `f` first and `process` after
it.  When `process` returns more than 0 values, the call returns them at once:
the stream is as before but for its buffer, the trace holds nothing but the two
callbacks and the cursors they left (no `read`, no waiter stored, no watcher
started), and a following call with the same parser runs `f` again. -/
theorem stream_readp_runs_init (cap : Nat) (T : lua_State) (p : lem_parser_t) (s : stream)
    (k : Kernel) (f : lua_State → lem_inputbuf → lua_State × lem_inputbuf)
    (hopen : 0 ≤ s.r.fd) (hidle : s.r.data = none) (hinit : p.init = some f) :
    (∃ rest, emitted k (stream_readp cap T p s k).2.2.2 =
      [Event.init, Event.buf (f T s.buf).2.start (f T s.buf).2.end_,
       Event.process (p.process (f T s.buf).1 (f T s.buf).2).1,
       Event.buf (p.process (f T s.buf).1 (f T s.buf).2).2.2.start
         (p.process (f T s.buf).1 (f T s.buf).2).2.2.end_] ++ rest) ∧
    (0 < (p.process (f T s.buf).1 (f T s.buf).2).1 →
      (stream_readp cap T p s k).1 = (p.process (f T s.buf).1 (f T s.buf).2).1 ∧
      (stream_readp cap T p s k).2.1 = (p.process (f T s.buf).1 (f T s.buf).2).2.1 ∧
      (stream_readp cap T p s k).2.2.1 =
        { s with buf := (p.process (f T s.buf).1 (f T s.buf).2).2.2 } ∧
      emitted k (stream_readp cap T p s k).2.2.2 =
        [Event.init, Event.buf (f T s.buf).2.start (f T s.buf).2.end_,
         Event.process (p.process (f T s.buf).1 (f T s.buf).2).1,
         Event.buf (p.process (f T s.buf).1 (f T s.buf).2).2.2.start
           (p.process (f T s.buf).1 (f T s.buf).2).2.2.end_] ∧
      ∀ T2 : lua_State, ∃ rest,
        emitted (stream_readp cap T p s k).2.2.2
          (stream_readp cap T2 p (stream_readp cap T p s k).2.2.1
            (stream_readp cap T p s k).2.2.2).2.2.2 = Event.init :: rest) := by
  have hnc : ¬ s.r.fd < 0 := by omega
  have hi : stream_readp_init p T s k = ((f T s.buf).1, { s with buf := (f T s.buf).2 },
      (k.emit Event.init).emit (Event.buf (f T s.buf).2.start (f T s.buf).2.end_)) := by
    simp [stream_readp_init, hinit]
  have hk1 : ∀ e1 e2 e3 e4 : Event, ((((k.emit e1).emit e2).emit e3).emit e4).trace =
      k.trace ++ [e1, e2, e3, e4] := by
    intro e1 e2 e3 e4
    simp [Kernel.emit]
  refine ⟨stream_readp_trace cap T p s k f hopen hidle hinit, ?_⟩
  intro hpos
  have hr : stream_readp cap T p s k = ((p.process (f T s.buf).1 (f T s.buf).2).1,
      (p.process (f T s.buf).1 (f T s.buf).2).2.1,
      { s with buf := (p.process (f T s.buf).1 (f T s.buf).2).2.2 },
      (((k.emit Event.init).emit (Event.buf (f T s.buf).2.start (f T s.buf).2.end_)).emit
        (Event.process (p.process (f T s.buf).1 (f T s.buf).2).1)).emit
        (Event.buf (p.process (f T s.buf).1 (f T s.buf).2).2.2.start
          (p.process (f T s.buf).1 (f T s.buf).2).2.2.end_)) := by
    unfold stream_readp
    simp only [hnc, hidle, if_false, ne_eq, not_true_eq_false, hi]
    simp [hpos]
  refine ⟨by rw [hr], by rw [hr], by rw [hr], ?_, ?_⟩
  · rw [hr]
    exact emitted_of_append (hk1 _ _ _ _)
  · intro T2
    rw [hr]
    obtain ⟨rest, h⟩ := stream_readp_trace cap T2 p
      { s with buf := (p.process (f T s.buf).1 (f T s.buf).2).2.2 }
      ((((k.emit Event.init).emit (Event.buf (f T s.buf).2.start (f T s.buf).2.end_)).emit
        (Event.process (p.process (f T s.buf).1 (f T s.buf).2).1)).emit
        (Event.buf (p.process (f T s.buf).1 (f T s.buf).2).2.2.start
          (p.process (f T s.buf).1 (f T s.buf).2).2.2.end_)) f hopen hidle hinit
    exact ⟨_, h⟩

/-- C10, as amended, at a concrete input: two bytes are buffered and the parser
hands them back at once. -/
theorem stream_readp_runs_init_witness :
    (stream_readp 4096 T_rd parser_example stream_buffered kernel0).1 = 1 ∧
    emitted kernel0 (stream_readp 4096 T_rd parser_example stream_buffered kernel0).2.2.2 =
      [Event.init, Event.buf 0 2, Event.process 1, Event.buf 0 0] :=
  ⟨((stream_readp_runs_init 4096 T_rd parser_example stream_buffered kernel0
      (fun T b => (T, b)) (by decide) (by decide) rfl).2 (by decide)).1,
   ((stream_readp_runs_init 4096 T_rd parser_example stream_buffered kernel0
      (fun T b => (T, b)) (by decide) (by decide) rfl).2 (by decide)).2.2.2.1⟩

/-- C10 as stated fails: on the fresh open and idle stream the first call with
`parser_example` runs its init callback and returns a result, the stream is
still open and idle, and the second call with the same parser runs the init
callback again. -/
theorem second_readp_runs_init_again :
    0 ≤ stream0.r.fd ∧ stream0.r.data = none ∧ parser_example.init.isSome = true ∧
    readp_call1.1 = 1 ∧
    (emitted kernel_two readp_call1.2.2.2).count Event.init = 1 ∧
    0 ≤ readp_call1.2.2.1.r.fd ∧ readp_call1.2.2.1.r.data = none ∧
    readp_call2.1 = 1 ∧
    (emitted readp_call1.2.2.2 readp_call2.2.2.2).count Event.init = 1 := by
  decide

/-! ## C2: a second operation on a busy direction -/

/-- A state reached by running steps from a reachable state is reachable. -/
theorem reachable_of_run (cap : Nat) :
    ∀ (ls : List Label) (st0 st : Sys), Reachable cap st0 → run cap ls st0 = some st →
      Reachable cap st := by
  intro ls
  induction ls with
  | nil =>
    intro st0 st h hr
    simp [run] at hr
    subst hr
    exact h
  | cons l ls ih =>
    intro st0 st h hr
    simp only [run] at hr
    cases hs : step cap l st0 with
    | none => simp [hs] at hr
    | some st1 =>
      simp only [hs] at hr
      exact ih st1 st (Reachable.step l st0 st1 h hs) hr

/-- C2, as amended: when the read descriptor of `sr` is open and a read waiter
is registered, `stream_readp` returns nil and "busy" and changes nothing (no
parser callback, no system call, same stream); when the write descriptor of
`sw` is open and a write waiter is registered, `stream_write` does the same. -/
theorem busy_when_open (cap : Nat) (T : lua_State) (p : lem_parser_t) (sr sw : stream)
    (k : Kernel) (hr : 0 ≤ sr.r.fd) (hrd : sr.r.data ≠ none)
    (hw : 0 ≤ sw.w.fd) (hwd : sw.w.data ≠ none) :
    stream_readp cap T p sr k = (2, (io_busy T).2, sr, k) ∧
    stream_write T sw k = (2, (io_busy T).2, sw, k) ∧
    results 2 (io_busy T).2 = [Val.nil, Val.string "busy".toList] := by
  have h1 : ¬ sr.r.fd < 0 := by omega
  have h2 : ¬ sw.w.fd < 0 := by omega
  refine ⟨?_, ?_, ?_⟩
  · simp [stream_readp, h1, hrd, io_busy]
  · simp [stream_write, h2, hwd, io_busy]
  · simp [io_busy, lua_pushliteral, lua_pushnil, results_pair]

/-- C2, as amended, at a concrete input: a stream with a suspended reader and a
stream with a suspended writer. -/
theorem busy_when_open_witness :
    stream_readp 4096 T_rd2 parser_example stream_reading kernel0 =
      (2, (io_busy T_rd2).2, stream_reading, kernel0) ∧
    stream_write T_rd2 stream_writing kernel0 =
      (2, (io_busy T_rd2).2, stream_writing, kernel0) :=
  ⟨(busy_when_open 4096 T_rd2 parser_example stream_reading stream_writing kernel0
      (by decide) (by decide) (by decide) (by decide)).1,
   (busy_when_open 4096 T_rd2 parser_example stream_reading stream_writing kernel0
      (by decide) (by decide) (by decide) (by decide)).2.1⟩

/-- C2 as stated fails.  A reachable state has a read waiter registered and yet
`stream_readp` answers nil and "closed", not "busy": the reader was suspended
when a write by another coroutine failed fatally and closed both descriptors.
Another reachable state has a write waiter registered and `stream_write`
answers nil and "closed": the mode switch of a transfer in flight failed. -/
theorem busy_claim_fails :
    (∃ st s, Reachable 4096 st ∧ st.streams[0]? = some s ∧ s.r.data = some 8 ∧
      results 2 (stream_readp 4096 T_rd2 parser_example s st.k).2.1 =
        [Val.nil, Val.string "closed".toList]) ∧
    (∃ st s, Reachable 4096 st ∧ st.streams[0]? = some s ∧ s.w.data = some 6 ∧
      results 2 (stream_write T_ab s st.k).2.1 = [Val.nil, Val.string "closed".toList]) := by
  constructor
  · refine ⟨_, _, reachable_of_run 4096 labels_read_then_write (Sys.init kernel_wfail) _
      (Reachable.init _) rfl, rfl, ?_, ?_⟩
    · decide
    · decide
  · refine ⟨_, _, reachable_of_run 4096 labels_sendfile_fails (Sys.init kernel_fcntl_fail) _
      (Reachable.init _) rfl, rfl, ?_, ?_⟩
    · decide
    · decide

/-! ## The callbacks and the zero-copy transfer, by cases -/

/-- The callback `stream_readp_cb`, by the result of its retry. -/
theorem stream_readp_cb_spec (cap : Nat) (T : lua_State) (s : stream) (k : Kernel) :
    ((stream__readp cap T s k).1 = 0 →
      stream_readp_cb cap T s k =
        (same_thread T (stream__readp cap T s k).2.1, (stream__readp cap T s k).2.2.1,
          (stream__readp cap T s k).2.2.2)) ∧
    ((stream__readp cap T s k).1 ≠ 0 →
      (stream_readp_cb cap T s k).2.1.r.data = none ∧
      (stream_readp_cb cap T s k).2.1.r.active = false ∧
      (stream_readp_cb cap T s k).2.2.trace = (stream__readp cap T s k).2.2.2.trace ++
        [Event.ev_io_stop Callback.stream_readp_cb, Event.store Slot.r_data none,
         Event.lem_queue T.id (stream__readp cap T s k).1
           (results (stream__readp cap T s k).1 (stream__readp cap T s k).2.1)]) ∧
    (stream_readp_cb cap T s k).2.1.w = s.w ∧
    (stream_readp_cb cap T s k).2.1.r.fd = s.r.fd ∧
    (stream_readp_cb cap T s k).1.id = T.id := by
  have hw := stream__readp_watchers cap T s k
  unfold stream_readp_cb
  simp only []
  refine ⟨?_, ?_, ?_, ?_, ?_⟩
  · intro h
    simp [h]
  · intro h
    simp [h, lem_queue, Kernel.emit, results, same_thread]
  · split
    · exact hw.2
    · exact hw.2
  · split
    · rw [hw.1]
    · show (stream__readp cap T s k).2.2.1.r.fd = s.r.fd
      rw [hw.1]
  · split <;> rfl

/-- The callback `stream_write_cb`, by the result of its retry. -/
theorem stream_write_cb_spec (T : lua_State) (s : stream) (k : Kernel) :
    ((stream__write T s k).1 = 0 →
      stream_write_cb T s k =
        (same_thread T (stream__write T s k).2.1, (stream__write T s k).2.2.1,
          (stream__write T s k).2.2.2) ∧
      (stream_write_cb T s k).2.1.w.data = s.w.data ∧
      (stream_write_cb T s k).2.1.w.active = s.w.active) ∧
    ((stream__write T s k).1 ≠ 0 →
      (stream_write_cb T s k).2.1.w.data = none ∧
      (stream_write_cb T s k).2.1.w.active = false ∧
      (stream_write_cb T s k).2.2.trace = (stream__write T s k).2.2.2.trace ++
        [Event.ev_io_stop Callback.stream_write_cb, Event.store Slot.w_data none,
         Event.lem_queue T.id (stream__write T s k).1
           (results (stream__write T s k).1 (stream__write T s k).2.1)]) ∧
    (stream_write_cb T s k).2.1.r.data = s.r.data ∧
    (stream_write_cb T s k).2.1.r.active = s.r.active ∧
    (stream_write_cb T s k).1.id = T.id := by
  have hw := stream__write_waiters T s k
  unfold stream_write_cb
  simp only []
  refine ⟨?_, ?_, ?_, ?_, ?_⟩
  · intro h
    simp only [h, if_true]
    exact ⟨trivial, hw.2.2.2.1, hw.2.2.2.2.1⟩
  · intro h
    simp [h, lem_queue, Kernel.emit, results, same_thread]
  · split
    · exact hw.1
    · exact hw.1
  · split
    · exact hw.2.1
    · exact hw.2.1
  · split <;> rfl

/-- The method `stream_sendfile`, by cases: the four rejections change nothing,
and the submission marks stream and file with the caller and puts the job. -/
theorem stream_sendfile_spec (T : lua_State) (sid : Nat) (s : stream) (f : file)
    (size offset : Int) (k : Kernel) :
    ((s.w.fd < 0 ∨ s.w.data ≠ none ∨ f.fd < 0 ∨ f.a_T ≠ none) →
      (stream_sendfile T sid s f size offset k).1 = 2 ∧
      (∃ msg, results 2 (stream_sendfile T sid s f size offset k).2.1 =
        [Val.nil, Val.string msg]) ∧
      (stream_sendfile T sid s f size offset k).2.2.1 = s ∧
      (stream_sendfile T sid s f size offset k).2.2.2.1 = f ∧
      (stream_sendfile T sid s f size offset k).2.2.2.2 = k) ∧
    (¬ (s.w.fd < 0 ∨ s.w.data ≠ none ∨ f.fd < 0 ∨ f.a_T ≠ none) →
      (stream_sendfile T sid s f size offset k).1 = LUA_YIELD ∧
      (stream_sendfile T sid s f size offset k).2.2.1 =
        { s with w := { s.w with data := some T.id } } ∧
      (stream_sendfile T sid s f size offset k).2.2.2.1 =
        { f with a_T := some T.id, sendfile_stream := some sid, sendfile_size := size,
                 sendfile_offset := offset } ∧
      (stream_sendfile T sid s f size offset k).2.2.2.2.trace = k.trace ++
        [Event.store Slot.w_data (some T.id), Event.store Slot.a_T (some T.id),
         Event.lem_async_put T.id]) := by
  constructor
  · intro h
    unfold stream_sendfile
    by_cases h1 : s.w.fd < 0
    · simp [h1, io_closed, lua_pushliteral, lua_pushnil, results_pair]
    by_cases h2 : s.w.data ≠ none
    · simp [h1, h2, io_busy, lua_pushliteral, lua_pushnil, results_pair]
    by_cases h3 : f.fd < 0
    · have h2b : s.w.data = none := by simpa using h2
      simp [h1, h2b, h3, lua_pushliteral, lua_pushnil, results_pair]
    by_cases h4 : f.a_T ≠ none
    · have h2b : s.w.data = none := by simpa using h2
      simp [h1, h2b, h3, h4, lua_pushliteral, lua_pushnil, results_pair]
    · rcases h with h | h | h | h
      · exact absurd h h1
      · exact absurd h h2
      · exact absurd h h3
      · exact absurd h h4
  · intro h
    have h1 : ¬ s.w.fd < 0 := fun h' => h (Or.inl h')
    have h2 : ¬ s.w.data ≠ none := fun h' => h (Or.inr (Or.inl h'))
    have h3 : ¬ f.fd < 0 := fun h' => h (Or.inr (Or.inr (Or.inl h')))
    have h4 : ¬ f.a_T ≠ none := fun h' => h (Or.inr (Or.inr (Or.inr h')))
    have h2b : s.w.data = none := by simpa using h2
    have h4b : f.a_T = none := by simpa using h4
    unfold stream_sendfile
    simp [h1, h2b, h3, h4b, lem_async_do, Kernel.emit, lua_yield]

/-- The failure branch of the work function leaves waiters and job marks alone. -/
theorem stream_sendfile_abort_keeps (f : file) (s : stream) (k : Kernel) :
    same_waiters s (stream_sendfile_abort f s k).2.1 ∧
    (stream_sendfile_abort f s k).1.a_T = f.a_T ∧
    (stream_sendfile_abort f s k).1.sendfile_stream = f.sendfile_stream :=
  ⟨⟨rfl, rfl, rfl, rfl, rfl, rfl⟩, rfl, rfl⟩

/-- The `sendfile` call of the work function, on every platform, leaves the
marks of the job alone. -/
theorem stream_sendfile_call_keeps (f : file) (s : stream) (k : Kernel) :
    (stream_sendfile_call f s k).1.a_T = f.a_T ∧
    (stream_sendfile_call f s k).1.sendfile_stream = f.sendfile_stream := by
  unfold stream_sendfile_call
  split <;> simp only [] <;> split <;> exact ⟨rfl, rfl⟩

/-- The work function leaves the waiters and the marks of the job alone. -/
theorem stream_sendfile_work_keeps (f : file) (s : stream) (k : Kernel) :
    same_waiters s (stream_sendfile_work f s k).2.1 ∧
    (stream_sendfile_work f s k).1.a_T = f.a_T ∧
    (stream_sendfile_work f s k).1.sendfile_stream = f.sendfile_stream := by
  unfold stream_sendfile_work
  simp only []
  have hf1 := stream_sendfile_call_keeps f s (sys_fcntl k s.w.fd false).2
  split
  · exact stream_sendfile_abort_keeps f s _
  · split
    · refine ⟨(stream_sendfile_abort_keeps _ s _).1, ?_, ?_⟩
      · exact ((stream_sendfile_abort_keeps _ s _).2.1).trans hf1.1
      · exact ((stream_sendfile_abort_keeps _ s _).2.2).trans hf1.2
    · exact ⟨same_waiters_refl s, hf1.1, hf1.2⟩

/-- The reap function: both marks are cleared, and the trace grows by the two
stores followed by the hand-over to the scheduler (the byte count on success,
nil and the error text otherwise). -/
theorem stream_sendfile_reap_spec (T : lua_State) (f : file) (s : stream) (k : Kernel) :
    (stream_sendfile_reap T f s k).2.1 = { f with a_T := none } ∧
    (stream_sendfile_reap T f s k).2.2.1 = { s with w := { s.w with data := none } } ∧
    (stream_sendfile_reap T f s k).2.2.2.trace = k.trace ++
      [Event.store Slot.a_T none, Event.store Slot.w_data none,
       Event.lem_queue T.id (if f.ret = 0 then 1 else 2)
         (if f.ret = 0 then [Val.number f.sendfile_size]
          else [Val.nil, Val.string (k.strerror f.ret)])] ∧
    (stream_sendfile_reap T f s k).1.id = T.id := by
  refine ⟨rfl, rfl, ?_, ?_⟩
  · by_cases h : f.ret = 0
    · simp [stream_sendfile_reap, h, lem_queue, Kernel.emit, lua_pushnumber, results_one]
      rfl
    · simp [stream_sendfile_reap, h, lem_queue, Kernel.emit, io_strerror, lua_pushstring,
        lua_pushnil, results_pair]
      rfl
  · unfold stream_sendfile_reap
    simp only []
    split <;> rfl

/-! ## The invariant of the jobs in flight -/

/-- Looking up in a list after one place was set. -/
theorem getElem?_set_of_some {α : Type} (l : List α) (i j : Nat) (a x : α)
    (hi : l[i]? = some x) : (l.set i a)[j]? = if j = i then some a else l[j]? := by
  rw [List.getElem?_set]
  have : i < l.length := by
    rw [List.getElem?_eq_some] at hi
    exact hi.1
  by_cases h : j = i
  · subst h; simp [this]
  · have h2 : ¬ i = j := fun h' => h h'.symm
    simp [h, h2]

/-- Looking up an old place after the list grew by one. -/
theorem getElem?_append_one {α : Type} (l : List α) (a x : α) (j : Nat)
    (h : l[j]? = some x) : (l ++ [a])[j]? = some x := by
  have : j < l.length := by
    rw [List.getElem?_eq_some] at h
    exact h.1
  rw [List.getElem?_append_left this]
  exact h

theorem job_stream_set (F : List file) (fid x : Nat) (f f1 : file) (hf : F[fid]? = some f) :
    job_stream (F.set fid f1) x =
      if x = fid then f1.sendfile_stream else job_stream F x := by
  unfold job_stream
  rw [getElem?_set_of_some F fid x f1 f hf]
  by_cases h : x = fid <;> simp [h]

theorem job_stream_of_some (F : List file) (fid : Nat) (f : file) (hf : F[fid]? = some f) :
    job_stream F fid = f.sendfile_stream := by
  simp [job_stream, hf]

theorem JobsInv.nil : JobsInv [] [] [] :=
  ⟨by simp, by simp, by simp, by simp⟩

/-- The invariant looks at the jobs through their counts only. -/
theorem JobsInv.of_count {S : List stream} {F : List file} {J J1 : List Nat}
    (h : JobsInv S F J) (hc : ∀ x, J1.count x = J.count x) : JobsInv S F J1 := by
  have hm : ∀ x, x ∈ J1 ↔ x ∈ J := by
    intro x
    rw [← List.count_pos_iff, ← List.count_pos_iff, hc]
  refine ⟨?_, ?_, ?_, h.active⟩
  · intro x; rw [hc]; exact h.count x
  · intro x hx; exact h.job x ((hm x).1 hx)
  · intro x hx y hy; exact h.inj x ((hm x).1 hx) y ((hm y).1 hy)

/-- A new stream does not disturb the invariant. -/
theorem JobsInv.new_stream {S : List stream} {F : List file} {J : List Nat}
    (h : JobsInv S F J) (fd : Int) (undef : LStr) :
    JobsInv (S ++ [stream_new fd undef]) F J := by
  refine ⟨h.count, ?_, h.inj, ?_⟩
  · intro x hx
    obtain ⟨f, t, sid, s, h1, h2, h3, h4, h5, h6⟩ := h.job x hx
    exact ⟨f, t, sid, s, h1, h2, h3, getElem?_append_one S _ s sid h4, h5, h6⟩
  · intro sid s hs hact
    rw [List.getElem?_append] at hs
    split at hs
    · exact h.active sid s hs hact
    · have : s = stream_new fd undef := by
        cases hh : ([stream_new fd undef] : List stream)[sid - S.length]? with
        | none => rw [hh] at hs; cases hs
        | some y =>
          rw [hh] at hs
          cases hs
          rw [List.getElem?_eq_some] at hh
          obtain ⟨hlt, heq⟩ := hh
          simp at hlt
          simp [hlt] at heq
          exact heq.symm
      subst this
      simp [stream_new, ev_io_init] at hact

/-- A new file does not disturb the invariant. -/
theorem JobsInv.new_file {S : List stream} {F : List file} {J : List Nat}
    (h : JobsInv S F J) (fd : Int) : JobsInv S (F ++ [file_new fd]) J := by
  have hjs : ∀ x ∈ J, job_stream (F ++ [file_new fd]) x = job_stream F x := by
    intro x hx
    obtain ⟨f, t, sid, s, h1, -⟩ := h.job x hx
    simp [job_stream, getElem?_append_one F _ f x h1, h1]
  refine ⟨h.count, ?_, ?_, h.active⟩
  · intro x hx
    obtain ⟨f, t, sid, s, h1, h2, h3, h4, h5, h6⟩ := h.job x hx
    exact ⟨f, t, sid, s, getElem?_append_one F _ f x h1, h2, h3, h4, h5, h6⟩
  · intro x hx y hy hxy
    rw [hjs x hx, hjs y hy] at hxy
    exact h.inj x hx y hy hxy

/-- A stream may change as long as a stream that a job writes to keeps its write
waiter and its stopped watcher, and a started write watcher has a waiter. -/
theorem JobsInv.set_stream {S : List stream} {F : List file} {J : List Nat}
    (h : JobsInv S F J) (sid : Nat) (s s1 : stream) (hs : S[sid]? = some s)
    (hact : s1.w.active = true → s1.w.data ≠ none)
    (hjob : s.w.active = false → s.w.data ≠ none →
      s1.w.data = s.w.data ∧ s1.w.active = s.w.active) :
    JobsInv (S.set sid s1) F J := by
  refine ⟨h.count, ?_, h.inj, ?_⟩
  · intro x hx
    obtain ⟨f, t, sid0, s0, h1, h2, h3, h4, h5, h6⟩ := h.job x hx
    by_cases hsid : sid0 = sid
    · subst hsid
      rw [hs] at h4
      cases h4
      have := hjob h6 (by rw [h5]; simp)
      exact ⟨f, t, sid0, s1, h1, h2, h3,
        by rw [getElem?_set_of_some S sid0 sid0 s1 s hs]; simp,
        by rw [this.1, h5], by rw [this.2, h6]⟩
    · exact ⟨f, t, sid0, s0, h1, h2, h3,
        by rw [getElem?_set_of_some S sid sid0 s1 s hs]; simp [hsid, h4], h5, h6⟩
  · intro sid0 s0 hs0 ha
    rw [getElem?_set_of_some S sid sid0 s1 s hs] at hs0
    by_cases hsid : sid0 = sid
    · simp [hsid] at hs0
      subst hs0
      exact hact ha
    · simp [hsid] at hs0
      exact h.active sid0 s0 hs0 ha

/-- A file may change as long as it keeps its job marks. -/
theorem JobsInv.set_file {S : List stream} {F : List file} {J : List Nat}
    (h : JobsInv S F J) (fid : Nat) (f f1 : file) (hf : F[fid]? = some f)
    (ha : f1.a_T = f.a_T) (hst : f1.sendfile_stream = f.sendfile_stream) :
    JobsInv S (F.set fid f1) J := by
  have hjs : ∀ x, job_stream (F.set fid f1) x = job_stream F x := by
    intro x
    rw [job_stream_set F fid x f f1 hf]
    by_cases hx : x = fid
    · subst hx
      simp [hst, job_stream_of_some F x f hf]
    · simp [hx]
  refine ⟨h.count, ?_, ?_, h.active⟩
  · intro x hx
    obtain ⟨f0, t, sid0, s0, h1, h2, h3, h4, h5, h6⟩ := h.job x hx
    by_cases hfid : x = fid
    · subst hfid
      rw [hf] at h1
      cases h1
      exact ⟨f1, t, sid0, s0, by rw [getElem?_set_of_some F x x f1 f hf]; simp,
        by rw [ha, h2], by rw [hst, h3], h4, h5, h6⟩
    · exact ⟨f0, t, sid0, s0,
        by rw [getElem?_set_of_some F fid x f1 f hf]; simp [hfid, h1], h2, h3, h4, h5, h6⟩
  · intro x hx y hy hxy
    rw [hjs x, hjs y] at hxy
    exact h.inj x hx y hy hxy


/-- Submitting a job for an idle file to an idle stream keeps the invariant. -/
theorem JobsInv.submit {S : List stream} {F : List file} {J : List Nat}
    (h : JobsInv S F J) (sid fid t : Nat) (s s1 : stream) (f f1 : file)
    (hs : S[sid]? = some s) (hf : F[fid]? = some f)
    (hsd : s.w.data = none) (hfa : f.a_T = none)
    (hs1d : s1.w.data = some t) (hs1a : s1.w.active = s.w.active)
    (hf1a : f1.a_T = some t) (hf1s : f1.sendfile_stream = some sid) :
    JobsInv (S.set sid s1) (F.set fid f1) (J ++ [fid]) := by
  have hnot : fid ∉ J := by
    intro hx
    obtain ⟨f0, t0, sid0, s0, h1, h2, -⟩ := h.job fid hx
    rw [hf] at h1
    cases h1
    rw [hfa] at h2
    cases h2
  have hsact : s.w.active = false := by
    cases hh : s.w.active with
    | false => rfl
    | true => exact absurd hsd (h.active sid s hs hh)
  have hold : ∀ x ∈ J, x ≠ fid ∧ ∃ (f0 : file) (t0 sid0 : Nat) (s0 : stream),
      (F.set fid f1)[x]? = some f0 ∧ f0.a_T = some t0 ∧ f0.sendfile_stream = some sid0 ∧
      (S.set sid s1)[sid0]? = some s0 ∧ s0.w.data = some t0 ∧ s0.w.active = false ∧
      sid0 ≠ sid := by
    intro x hx
    have hne : x ≠ fid := fun hh => hnot (hh ▸ hx)
    obtain ⟨f0, t0, sid0, s0, h1, h2, h3, h4, h5, h6⟩ := h.job x hx
    have hsid : sid0 ≠ sid := by
      intro hh
      subst hh
      rw [hs] at h4
      cases h4
      rw [hsd] at h5
      cases h5
    exact ⟨hne, f0, t0, sid0, s0,
      by rw [getElem?_set_of_some F fid x f1 f hf]; simp [hne, h1], h2, h3,
      by rw [getElem?_set_of_some S sid sid0 s1 s hs]; simp [hsid, h4], h5, h6, hsid⟩
  have hjs_new : job_stream (F.set fid f1) fid = some sid := by
    rw [job_stream_set F fid fid f f1 hf]; simp [hf1s]
  have hjs_old : ∀ x ∈ J, ∃ sid0, job_stream (F.set fid f1) x = some sid0 ∧ sid0 ≠ sid ∧
      job_stream (F.set fid f1) x = job_stream F x := by
    intro x hx
    obtain ⟨hne, f0, t0, sid0, s0, h1, h2, h3, h4, h5, h6, h7⟩ := hold x hx
    refine ⟨sid0, ?_, h7, ?_⟩
    · rw [job_stream_of_some _ x f0 h1, h3]
    · rw [job_stream_set F fid x f f1 hf]; simp [hne]
  refine ⟨?_, ?_, ?_, ?_⟩
  · intro x
    rw [List.count_append]
    by_cases hx : x = fid
    · subst hx
      have : List.count x J = 0 := List.count_eq_zero_of_not_mem hnot
      simp [this]
    · have h0 : List.count x [fid] = 0 := by
        apply List.count_eq_zero_of_not_mem
        simp [hx]
      rw [h0]
      exact h.count x
  · intro x hx
    rcases List.mem_append.1 hx with hx | hx
    · obtain ⟨-, f0, t0, sid0, s0, h1, h2, h3, h4, h5, h6, -⟩ := hold x hx
      exact ⟨f0, t0, sid0, s0, h1, h2, h3, h4, h5, h6⟩
    · simp at hx
      subst hx
      exact ⟨f1, t, sid, s1, by rw [getElem?_set_of_some F x x f1 f hf]; simp, hf1a, hf1s,
        by rw [getElem?_set_of_some S sid sid s1 s hs]; simp, hs1d, by rw [hs1a, hsact]⟩
  · intro x hx y hy hxy
    rcases List.mem_append.1 hx with hx1 | hx1
    · rcases List.mem_append.1 hy with hy1 | hy1
      · obtain ⟨-, -, -, e1⟩ := hjs_old x hx1
        obtain ⟨-, -, -, e2⟩ := hjs_old y hy1
        rw [e1, e2] at hxy
        exact h.inj x hx1 y hy1 hxy
      · have hy2 : y = fid := by simpa using hy1
        obtain ⟨sid0, e1, e2, -⟩ := hjs_old x hx1
        rw [e1, hy2, hjs_new] at hxy
        cases hxy
        exact absurd rfl e2
    · have hx2 : x = fid := by simpa using hx1
      rcases List.mem_append.1 hy with hy1 | hy1
      · obtain ⟨sid0, e1, e2, -⟩ := hjs_old y hy1
        rw [e1, hx2, hjs_new] at hxy
        cases hxy
        exact absurd rfl e2
      · have hy2 : y = fid := by simpa using hy1
        rw [hx2, hy2]
  · intro sid0 s0 hs0 ha
    rw [getElem?_set_of_some S sid sid0 s1 s hs] at hs0
    by_cases hsid : sid0 = sid
    · simp [hsid] at hs0
      subst hs0
      rw [hs1d]
      simp
    · simp [hsid] at hs0
      exact h.active sid0 s0 hs0 ha

/-- Reaping a job keeps the invariant. -/
theorem JobsInv.reap {S : List stream} {F : List file} {J : List Nat}
    (h : JobsInv S F J) (sid fid : Nat) (s s1 : stream) (f f1 : file)
    (hJ : fid ∈ J) (hs : S[sid]? = some s) (hf : F[fid]? = some f)
    (hfs : f.sendfile_stream = some sid)
    (hs1a : s1.w.active = s.w.active) :
    JobsInv (S.set sid s1) (F.set fid f1) (J.erase fid) := by
  have hnd : J.Nodup := List.nodup_iff_count_le_one.2 (fun x => h.count x)
  have hmem : ∀ x, x ∈ J.erase fid ↔ x ≠ fid ∧ x ∈ J := fun x => hnd.mem_erase_iff
  have hsact : s.w.active = false := by
    obtain ⟨f0, t0, sid0, s0, h1, h2, h3, h4, h5, h6⟩ := h.job fid hJ
    rw [hf] at h1
    cases h1
    rw [hfs] at h3
    cases h3
    rw [hs] at h4
    cases h4
    exact h6
  have hjs : ∀ x, x ≠ fid → job_stream (F.set fid f1) x = job_stream F x := by
    intro x hx
    rw [job_stream_set F fid x f f1 hf]; simp [hx]
  refine ⟨?_, ?_, ?_, ?_⟩
  · intro x
    exact le_trans (List.Sublist.count_le (List.erase_sublist fid J) x) (h.count x)
  · intro x hx
    obtain ⟨hne, hxJ⟩ := (hmem x).1 hx
    obtain ⟨f0, t0, sid0, s0, h1, h2, h3, h4, h5, h6⟩ := h.job x hxJ
    have hsid : sid0 ≠ sid := by
      intro hh
      subst hh
      apply hne
      apply h.inj x hxJ fid hJ
      rw [job_stream_of_some F x f0 h1, job_stream_of_some F fid f hf, h3, hfs]
    exact ⟨f0, t0, sid0, s0,
      by rw [getElem?_set_of_some F fid x f1 f hf]; simp [hne, h1], h2, h3,
      by rw [getElem?_set_of_some S sid sid0 s1 s hs]; simp [hsid, h4], h5, h6⟩
  · intro x hx y hy hxy
    obtain ⟨hnx, hxJ⟩ := (hmem x).1 hx
    obtain ⟨hny, hyJ⟩ := (hmem y).1 hy
    rw [hjs x hnx, hjs y hny] at hxy
    exact h.inj x hxJ y hyJ hxy
  · intro sid0 s0 hs0 ha
    rw [getElem?_set_of_some S sid sid0 s1 s hs] at hs0
    by_cases hsid : sid0 = sid
    · simp [hsid] at hs0
      subst hs0
      rw [hs1a, hsact] at ha
      cases ha
    · simp [hsid] at hs0
      exact h.active sid0 s0 hs0 ha

/-! ## Steps of the system keep the invariant -/

/-- What a successful call of a method through `Sys.call` leaves. -/
theorem Sys.call_some {st st1 : Sys} {sid : Nat} {T : lua_State}
    {op : stream → Kernel → Int × lua_State × stream × Kernel}
    (h : st.call sid T op = some st1) :
    ∃ s, st.streams[sid]? = some s ∧
      st1.streams = st.streams.set sid (op s st.k).2.2.1 ∧
      st1.files = st.files ∧ st1.queue = st.queue ∧ st1.done = st.done ∧
      st1.k = (op s st.k).2.2.2 := by
  unfold Sys.call at h
  split at h
  · cases h
  · next s hs =>
    split at h
    · cases h
    · cases h
      exact ⟨s, hs, rfl, rfl, rfl, rfl, rfl⟩

/-- A call of a method keeps the invariant when the method leaves the write
waiter alone or sets it on an idle stream while starting the watcher. -/
theorem Sys.Inv.call {st st1 : Sys} {sid : Nat} {T : lua_State}
    {op : stream → Kernel → Int × lua_State × stream × Kernel}
    (hinv : st.Inv) (h : st.call sid T op = some st1)
    (hop : ∀ s k, ((op s k).2.2.1.w.data = s.w.data ∧ (op s k).2.2.1.w.active = s.w.active) ∨
      (s.w.data = none ∧ (op s k).2.2.1.w.data ≠ none)) :
    st1.Inv := by
  obtain ⟨s, hs, h1, h2, h3, h4, -⟩ := Sys.call_some h
  unfold Sys.Inv Sys.jobs
  rw [h1, h2, h3, h4]
  apply JobsInv.set_stream hinv sid s _ hs
  · intro ha
    rcases hop s st.k with ⟨e1, e2⟩ | ⟨-, e2⟩
    · rw [e1]
      rw [e2] at ha
      exact hinv.active sid s hs ha
    · exact e2
  · intro ha hd
    rcases hop s st.k with h5 | ⟨e1, -⟩
    · exact h5
    · exact absurd e1 hd

/-- What a step of `stream_sendfile` leaves. -/
theorem step_sendfile_some {cap : Nat} {st st1 : Sys} {T : lua_State} {sid fid : Nat}
    {size offset : Int}
    (h : step cap (Label.sendfile T sid fid size offset) st = some st1) :
    ∃ s f, st.streams[sid]? = some s ∧ st.files[fid]? = some f ∧
      st1.streams = st.streams.set sid (stream_sendfile T sid s f size offset st.k).2.2.1 ∧
      st1.files = st.files.set fid (stream_sendfile T sid s f size offset st.k).2.2.2.1 ∧
      st1.queue = (if (stream_sendfile T sid s f size offset st.k).1 = LUA_YIELD
        then st.queue ++ [fid] else st.queue) ∧
      st1.done = st.done ∧
      st1.k = (stream_sendfile T sid s f size offset st.k).2.2.2.2 := by
  simp only [Lem.step] at h
  split at h
  · next s f hs hf =>
    split at h
    · cases h
    · cases h
      exact ⟨s, f, hs, hf, rfl, rfl, rfl, rfl, rfl⟩
  · cases h

/-- What a step of `stream_readp_cb` leaves. -/
theorem step_readp_cb_some {cap : Nat} {st st1 : Sys} {sid : Nat}
    (h : step cap (Label.readp_cb sid) st = some st1) :
    ∃ s t, st.streams[sid]? = some s ∧ s.r.data = some t ∧ s.r.active = true ∧
      st1.streams = st.streams.set sid
        (stream_readp_cb cap { id := t, stack := st.threads t } s st.k).2.1 ∧
      st1.files = st.files ∧ st1.queue = st.queue ∧ st1.done = st.done ∧
      st1.k = (stream_readp_cb cap { id := t, stack := st.threads t } s st.k).2.2 := by
  simp only [Lem.step] at h
  split at h
  · next s hs =>
    split at h
    · next t ht =>
      split at h
      · next hc =>
        cases h
        exact ⟨s, t, hs, ht, hc.1, rfl, rfl, rfl, rfl, rfl⟩
      · cases h
    · cases h
  · cases h

/-- What a step of `stream_write_cb` leaves. -/
theorem step_write_cb_some {cap : Nat} {st st1 : Sys} {sid : Nat}
    (h : step cap (Label.write_cb sid) st = some st1) :
    ∃ s t, st.streams[sid]? = some s ∧ s.w.data = some t ∧ s.w.active = true ∧
      st1.streams = st.streams.set sid
        (stream_write_cb { id := t, stack := st.threads t } s st.k).2.1 ∧
      st1.files = st.files ∧ st1.queue = st.queue ∧ st1.done = st.done ∧
      st1.k = (stream_write_cb { id := t, stack := st.threads t } s st.k).2.2 := by
  simp only [Lem.step] at h
  split at h
  · next s hs =>
    split at h
    · next t ht =>
      split at h
      · next hc =>
        cases h
        exact ⟨s, t, hs, ht, hc.1, rfl, rfl, rfl, rfl, rfl⟩
      · cases h
    · cases h
  · cases h

/-- What a step of `stream_sendfile_work` leaves. -/
theorem step_work_some {cap : Nat} {st st1 : Sys} {fid : Nat}
    (h : step cap (Label.work fid) st = some st1) :
    fid ∈ st.queue ∧ ∃ f sid s, st.files[fid]? = some f ∧ f.sendfile_stream = some sid ∧
      st.streams[sid]? = some s ∧
      st1.files = st.files.set fid (stream_sendfile_work f s st.k).1 ∧
      st1.streams = st.streams.set sid (stream_sendfile_work f s st.k).2.1 ∧
      st1.queue = st.queue.erase fid ∧ st1.done = st.done ++ [fid] ∧
      st1.k = (stream_sendfile_work f s st.k).2.2 := by
  simp only [Lem.step] at h
  split at h
  · next hq =>
    refine ⟨hq, ?_⟩
    split at h
    · next f hf =>
      split at h
      · next sid hsid =>
        split at h
        · next s hs =>
          cases h
          exact ⟨f, sid, s, hf, hsid, hs, rfl, rfl, rfl, rfl, rfl⟩
        · cases h
      · cases h
    · cases h
  · cases h

/-- What a step of `stream_sendfile_reap` leaves. -/
theorem step_reap_some {cap : Nat} {st st1 : Sys} {fid : Nat}
    (h : step cap (Label.reap fid) st = some st1) :
    fid ∈ st.done ∧ ∃ f sid t s, st.files[fid]? = some f ∧ f.sendfile_stream = some sid ∧
      f.a_T = some t ∧ st.streams[sid]? = some s ∧
      st1.files = st.files.set fid
        (stream_sendfile_reap { id := t, stack := st.threads t } f s st.k).2.1 ∧
      st1.streams = st.streams.set sid
        (stream_sendfile_reap { id := t, stack := st.threads t } f s st.k).2.2.1 ∧
      st1.queue = st.queue ∧ st1.done = st.done.erase fid ∧
      st1.k = (stream_sendfile_reap { id := t, stack := st.threads t } f s st.k).2.2.2 := by
  simp only [Lem.step] at h
  split at h
  · next hq =>
    refine ⟨hq, ?_⟩
    split at h
    · next f hf =>
      split at h
      · next sid t hsid ht =>
        split at h
        · next s hs =>
          cases h
          exact ⟨f, sid, t, s, hf, hsid, ht, hs, rfl, rfl, rfl, rfl, rfl⟩
        · cases h
      · cases h
    · cases h
  · cases h

/-- Every step of the system keeps the invariant of the jobs. -/
theorem Sys.Inv.step (cap : Nat) {l : Label} {st st1 : Sys} (hinv : st.Inv)
    (h : step cap l st = some st1) : st1.Inv := by
  cases l with
  | new fd undef =>
    simp only [Lem.step] at h
    cases h
    exact JobsInv.new_stream hinv fd undef
  | fopen fd =>
    simp only [Lem.step] at h
    cases h
    exact JobsInv.new_file hinv fd
  | close T sid =>
    simp only [Lem.step] at h
    apply Sys.Inv.call hinv h
    intro s k
    have := stream_close_waiters T s k
    exact Or.inl ⟨this.2.2.2.1, this.2.2.2.2.1⟩
  | readp T sid p =>
    simp only [Lem.step] at h
    apply Sys.Inv.call hinv h
    intro s k
    have := (stream_readp_waiters cap T p s k).1
    exact Or.inl ⟨by rw [this], by rw [this]⟩
  | write T sid =>
    simp only [Lem.step] at h
    split at h
    · apply Sys.Inv.call hinv h
      intro s k
      rcases (stream_write_waiters T s k).2.2.2 with h1 | ⟨h1, h2, -⟩
      · exact Or.inl h1
      · exact Or.inr ⟨h1, by rw [h2]; simp⟩
    · cases h
  | cork T sid =>
    simp only [Lem.step] at h
    apply Sys.Inv.call hinv h
    intro s k
    have : (stream_cork T s k).2.2.1 = s := stream_setcork_same T s k 1
    exact Or.inl ⟨by rw [this], by rw [this]⟩
  | uncork T sid =>
    simp only [Lem.step] at h
    apply Sys.Inv.call hinv h
    intro s k
    have : (stream_uncork T s k).2.2.1 = s := stream_setcork_same T s k 0
    exact Or.inl ⟨by rw [this], by rw [this]⟩
  | sendfile T sid fid size offset =>
    obtain ⟨s, f, hs, hf, h1, h2, h3, h4, -⟩ := step_sendfile_some h
    obtain ⟨hrej, hacc⟩ := stream_sendfile_spec T sid s f size offset st.k
    unfold Sys.Inv Sys.jobs
    rw [h1, h2, h3, h4]
    by_cases hc : s.w.fd < 0 ∨ s.w.data ≠ none ∨ f.fd < 0 ∨ f.a_T ≠ none
    · obtain ⟨e1, -, e2, e3, -⟩ := hrej hc
      have hny : ¬ (stream_sendfile T sid s f size offset st.k).1 = LUA_YIELD := by
        rw [e1]; decide
      rw [e2, e3]
      simp only [hny, if_false]
      exact (JobsInv.set_stream hinv sid s s hs (hinv.active sid s hs)
        (fun _ _ => ⟨rfl, rfl⟩)).set_file fid f f hf rfl rfl
    · obtain ⟨e1, e2, e3, -⟩ := hacc hc
      have hsd : s.w.data = none := by
        by_contra hh
        exact hc (Or.inr (Or.inl hh))
      have hfa : f.a_T = none := by
        by_contra hh
        exact hc (Or.inr (Or.inr (Or.inr hh)))
      simp only [e1, if_true]
      apply JobsInv.of_count (JobsInv.submit hinv sid fid T.id s _ f _ hs hf hsd hfa
        (by rw [e2]) (by rw [e2]) (by rw [e3]) (by rw [e3]))
      intro x
      simp only [Sys.jobs, List.count_append]
      omega
  | readp_cb sid =>
    obtain ⟨s, t, hs, -, -, h1, h2, h3, h4, -⟩ := step_readp_cb_some h
    unfold Sys.Inv Sys.jobs
    rw [h1, h2, h3, h4]
    have hw := (stream_readp_cb_spec cap { id := t, stack := st.threads t } s st.k).2.2.1
    apply JobsInv.set_stream hinv sid s _ hs
    · intro ha
      rw [hw] at ha ⊢
      exact hinv.active sid s hs ha
    · intro _ _
      rw [hw]
      exact ⟨rfl, rfl⟩
  | write_cb sid =>
    obtain ⟨s, t, hs, hd, hact, h1, h2, h3, h4, -⟩ := step_write_cb_some h
    unfold Sys.Inv Sys.jobs
    rw [h1, h2, h3, h4]
    obtain ⟨hp, hq, -⟩ := stream_write_cb_spec { id := t, stack := st.threads t } s st.k
    apply JobsInv.set_stream hinv sid s _ hs
    · intro ha
      by_cases hr : (stream__write { id := t, stack := st.threads t } s st.k).1 = 0
      · rw [(hp hr).2.1, hd]
        simp
      · rw [(hq hr).2.1] at ha
        cases ha
    · intro ha
      rw [hact] at ha
      cases ha
  | work fid =>
    obtain ⟨hq, f, sid, s, hf, hsid, hs, h1, h2, h3, h4, -⟩ := step_work_some h
    obtain ⟨hsw, ha, hst⟩ := stream_sendfile_work_keeps f s st.k
    unfold Sys.Inv Sys.jobs
    rw [h1, h2, h3, h4]
    apply JobsInv.of_count ((JobsInv.set_stream hinv sid s _ hs ?_ ?_).set_file fid f _ hf ha hst)
    · intro x
      have hp : 0 < st.queue.count fid := List.count_pos_iff.2 hq
      simp only [Sys.jobs, List.count_append]
      by_cases hx : x = fid
      · subst hx
        rw [List.count_erase_self]
        simp
        omega
      · rw [List.count_erase_of_ne hx]
        have : List.count x [fid] = 0 := List.count_eq_zero_of_not_mem (by simp [hx])
        omega
    · intro hact
      rw [hsw.2.2.2.2.1] at hact
      rw [hsw.2.2.2.1]
      exact hinv.active sid s hs hact
    · intro _ _
      exact ⟨hsw.2.2.2.1, hsw.2.2.2.2.1⟩
  | reap fid =>
    obtain ⟨hq, f, sid, t, s, hf, hsid, ht, hs, h1, h2, h3, h4, -⟩ := step_reap_some h
    obtain ⟨e1, e2, -, -⟩ :=
      stream_sendfile_reap_spec { id := t, stack := st.threads t } f s st.k
    have hJ : fid ∈ st.jobs := List.mem_append.2 (Or.inr hq)
    unfold Sys.Inv Sys.jobs
    rw [h1, h2, h3, h4]
    apply JobsInv.of_count (JobsInv.reap hinv sid fid s _ f _ hJ hs hf hsid (by rw [e2]))
    intro x
    have hp : 0 < st.done.count fid := List.count_pos_iff.2 hq
    have hc := hinv.count fid
    unfold Sys.jobs at hc
    simp only [List.count_append] at hc
    have hq0 : st.queue.count fid = 0 := by omega
    have hnq : fid ∉ st.queue := fun hh => by
      have := List.count_pos_iff.2 hh
      omega
    simp only [Sys.jobs]
    rw [List.erase_append_right _ hnq]

/-- Every reachable state satisfies the invariant of the jobs. -/
theorem Reachable.inv {cap : Nat} {st : Sys} (h : Reachable cap st) : st.Inv := by
  induction h with
  | init k => exact JobsInv.nil
  | step l st st1 _ hs ih => exact Sys.Inv.step cap ih hs

/-! ## C6: when a waiter slot changes -/

/-- Looking up a stream after one stream of the heap was replaced. -/
theorem set_lookup {S : List stream} {sid0 sid : Nat} {s0 x s s1 : stream}
    (h0 : S[sid0]? = some s0) (hs : S[sid]? = some s)
    (hs1 : (S.set sid0 x)[sid]? = some s1) :
    (sid = sid0 ∧ s = s0 ∧ s1 = x) ∨ (sid ≠ sid0 ∧ s1 = s) := by
  rw [getElem?_set_of_some S sid0 sid x s0 h0] at hs1
  by_cases h : sid = sid0
  · subst h
    rw [h0] at hs
    cases hs
    simp at hs1
    exact Or.inl ⟨rfl, rfl, hs1.symm⟩
  · simp [h] at hs1
    rw [hs] at hs1
    cases hs1
    exact Or.inr ⟨h, rfl⟩

theorem getLast?_append_three {α : Type} (l : List α) (a b c : α) :
    (l ++ [a, b, c]).getLast? = some c := by
  simp [List.getLast?_append]

theorem WaiterChange.unchanged {l : Label} {st st1 : Sys} {sid : Nat} {s s1 : stream}
    (hr : s1.r.data = s.r.data) (hw : s1.w.data = s.w.data) :
    WaiterChange l st st1 sid s s1 :=
  ⟨fun h => absurd hr h, fun h => absurd hw h⟩

/-- A call of a method changes no stream but the one it is called on. -/
theorem call_lookup {st st1 : Sys} {sid0 sid : Nat} {T : lua_State}
    {op : stream → Kernel → Int × lua_State × stream × Kernel} {s s1 : stream}
    (h : st.call sid0 T op = some st1)
    (hs : st.streams[sid]? = some s) (hs1 : st1.streams[sid]? = some s1) :
    (sid = sid0 ∧ s1 = (op s st.k).2.2.1) ∨ s1 = s := by
  obtain ⟨s0, h0, h1, -⟩ := Sys.call_some h
  rw [h1] at hs1
  rcases set_lookup h0 hs hs1 with ⟨e1, e2, e3⟩ | ⟨-, e⟩
  · subst e2
    exact Or.inl ⟨e1, e3⟩
  · exact Or.inr e

/-- In every step from a reachable state, the waiter slots of every stream change
only in the ways of `WaiterChange`. -/
theorem waiter_steps (cap : Nat) (l : Label) (st st1 : Sys) (sid : Nat) (s s1 : stream)
    (hreach : Reachable cap st) (hstep : step cap l st = some st1)
    (hs : st.streams[sid]? = some s) (hs1 : st1.streams[sid]? = some s1) :
    WaiterChange l st st1 sid s s1 := by
  have hinv := hreach.inv
  cases l with
  | new fd undef =>
    simp only [Lem.step] at hstep
    cases hstep
    have : (st.streams ++ [stream_new fd undef])[sid]? = some s :=
      getElem?_append_one _ _ s sid hs
    have e : s1 = s := by
      have hs1b : (st.streams ++ [stream_new fd undef])[sid]? = some s1 := hs1
      rw [this] at hs1b
      cases hs1b
      rfl
    subst e
    exact WaiterChange.unchanged rfl rfl
  | fopen fd =>
    simp only [Lem.step] at hstep
    cases hstep
    have e : s1 = s := by
      have hs1b : st.streams[sid]? = some s1 := hs1
      rw [hs] at hs1b
      cases hs1b
      rfl
    subst e
    exact WaiterChange.unchanged rfl rfl
  | close T sid0 =>
    simp only [Lem.step] at hstep
    rcases call_lookup hstep hs hs1 with ⟨-, e⟩ | e
    · have := stream_close_waiters T s st.k
      rw [← e] at this
      exact WaiterChange.unchanged this.1 this.2.2.2.1
    · subst e
      exact WaiterChange.unchanged rfl rfl
  | readp T sid0 p =>
    simp only [Lem.step] at hstep
    rcases call_lookup hstep hs hs1 with ⟨e0, e⟩ | e
    · obtain ⟨hw, -, hr⟩ := stream_readp_waiters cap T p s st.k
      rw [← e] at hw hr
      subst e0
      rcases hr with hr | ⟨h1, h2, h3, -⟩
      · exact WaiterChange.unchanged (by rw [hr]) (by rw [hw])
      · exact ⟨fun _ => Or.inl ⟨T, p, rfl, h1, h2, h3⟩, fun h => absurd (by rw [hw]) h⟩
    · subst e
      exact WaiterChange.unchanged rfl rfl
  | write T sid0 =>
    simp only [Lem.step] at hstep
    split at hstep
    · rcases call_lookup hstep hs hs1 with ⟨e0, e⟩ | e
      · obtain ⟨hr, -, -, hw⟩ := stream_write_waiters T s st.k
        rw [← e] at hr hw
        subst e0
        rcases hw with hw | ⟨h1, h2, -, -⟩
        · exact WaiterChange.unchanged hr hw.1
        · exact ⟨fun h => absurd hr h, fun _ => Or.inl ⟨T, rfl, h1, h2⟩⟩
      · subst e
        exact WaiterChange.unchanged rfl rfl
    · cases hstep
  | cork T sid0 =>
    simp only [Lem.step] at hstep
    rcases call_lookup hstep hs hs1 with ⟨-, e⟩ | e
    · have : (stream_cork T s st.k).2.2.1 = s := stream_setcork_same T s st.k 1
      rw [this] at e
      subst e
      exact WaiterChange.unchanged rfl rfl
    · subst e
      exact WaiterChange.unchanged rfl rfl
  | uncork T sid0 =>
    simp only [Lem.step] at hstep
    rcases call_lookup hstep hs hs1 with ⟨-, e⟩ | e
    · have : (stream_uncork T s st.k).2.2.1 = s := stream_setcork_same T s st.k 0
      rw [this] at e
      subst e
      exact WaiterChange.unchanged rfl rfl
    · subst e
      exact WaiterChange.unchanged rfl rfl
  | sendfile T sid0 fid size offset =>
    obtain ⟨s0, f, h0, hf, h1, -, -, -, -⟩ := step_sendfile_some hstep
    rw [h1] at hs1
    rcases set_lookup h0 hs hs1 with ⟨e1, e2, e3⟩ | ⟨-, e⟩
    · subst e1 e2
      obtain ⟨hrej, hacc⟩ := stream_sendfile_spec T sid s f size offset st.k
      by_cases hc : s.w.fd < 0 ∨ s.w.data ≠ none ∨ f.fd < 0 ∨ f.a_T ≠ none
      · rw [(hrej hc).2.2.1] at e3
        subst e3
        exact WaiterChange.unchanged rfl rfl
      · rw [(hacc hc).2.1] at e3
        subst e3
        have hsd : s.w.data = none := by
          by_contra hh
          exact hc (Or.inr (Or.inl hh))
        exact ⟨fun h => absurd rfl h,
          fun _ => Or.inr (Or.inl ⟨T, fid, size, offset, rfl, hsd, rfl⟩)⟩
    · subst e
      exact WaiterChange.unchanged rfl rfl
  | readp_cb sid0 =>
    obtain ⟨s0, t, h0, hd, -, h1, -, -, -, hk⟩ := step_readp_cb_some hstep
    rw [h1] at hs1
    rcases set_lookup h0 hs hs1 with ⟨e1, e2, e3⟩ | ⟨-, e⟩
    · subst e1 e2
      obtain ⟨hp, hq, hw, -, -⟩ :=
        stream_readp_cb_spec cap { id := t, stack := st.threads t } s st.k
      rw [← e3] at hw
      by_cases hr : (stream__readp cap { id := t, stack := st.threads t } s st.k).1 = 0
      · have := hp hr
        rw [this] at e3
        have hwat := stream__readp_watchers cap { id := t, stack := st.threads t } s st.k
        exact WaiterChange.unchanged (by rw [e3]; exact congrArg _ hwat.1) (by rw [hw])
      · obtain ⟨q1, q2, q3⟩ := hq hr
        rw [← e3] at q1 q2
        have hlast : ∃ n vals, st1.k.trace.getLast? = some (Event.lem_queue t n vals) :=
          ⟨_, _, by rw [hk, q3]; exact getLast?_append_three _ _ _ _⟩
        obtain ⟨n, vals, hl⟩ := hlast
        exact ⟨fun _ => Or.inr ⟨t, n, vals, rfl, hd, q1, q2, hl⟩,
          fun h => absurd (by rw [hw]) h⟩
    · subst e
      exact WaiterChange.unchanged rfl rfl
  | write_cb sid0 =>
    obtain ⟨s0, t, h0, hd, -, h1, -, -, -, hk⟩ := step_write_cb_some hstep
    rw [h1] at hs1
    rcases set_lookup h0 hs hs1 with ⟨e1, e2, e3⟩ | ⟨-, e⟩
    · subst e1 e2
      obtain ⟨hp, hq, hrd, -, -⟩ :=
        stream_write_cb_spec { id := t, stack := st.threads t } s st.k
      rw [← e3] at hrd
      by_cases hr : (stream__write { id := t, stack := st.threads t } s st.k).1 = 0
      · have := (hp hr).2.1
        rw [← e3] at this
        exact WaiterChange.unchanged hrd this
      · obtain ⟨q1, q2, q3⟩ := hq hr
        rw [← e3] at q1 q2
        have hlast : ∃ n vals, st1.k.trace.getLast? = some (Event.lem_queue t n vals) :=
          ⟨_, _, by rw [hk, q3]; exact getLast?_append_three _ _ _ _⟩
        obtain ⟨n, vals, hl⟩ := hlast
        exact ⟨fun h => absurd hrd h,
          fun _ => Or.inr (Or.inr (Or.inl ⟨t, n, vals, rfl, hd, q1, q2, hl⟩))⟩
    · subst e
      exact WaiterChange.unchanged rfl rfl
  | work fid =>
    obtain ⟨-, f, sid0, s0, -, -, h0, -, h1, -, -, -⟩ := step_work_some hstep
    rw [h1] at hs1
    rcases set_lookup h0 hs hs1 with ⟨e1, e2, e3⟩ | ⟨-, e⟩
    · subst e2
      have := (stream_sendfile_work_keeps f s st.k).1
      rw [← e3] at this
      exact WaiterChange.unchanged this.1 this.2.2.2.1
    · subst e
      exact WaiterChange.unchanged rfl rfl
  | reap fid =>
    obtain ⟨hq, f, sid0, t, s0, hf, hsid, ht, h0, -, h1, -, -, hk⟩ := step_reap_some hstep
    rw [h1] at hs1
    rcases set_lookup h0 hs hs1 with ⟨e1, e2, e3⟩ | ⟨-, e⟩
    · subst e1 e2
      obtain ⟨-, q2, q3, -⟩ :=
        stream_sendfile_reap_spec { id := t, stack := st.threads t } f s st.k
      rw [q2] at e3
      subst e3
      have hJ : fid ∈ st.jobs := List.mem_append.2 (Or.inr hq)
      obtain ⟨f0, t0, sidj, sj, j1, j2, j3, j4, j5, -⟩ := hinv.job fid hJ
      rw [hf] at j1
      cases j1
      rw [hsid] at j3
      cases j3
      rw [hs] at j4
      cases j4
      rw [ht] at j2
      cases j2
      have hlast : ∃ n vals, st1.k.trace.getLast? = some (Event.lem_queue t n vals) :=
        ⟨_, _, by rw [hk, q3]; exact getLast?_append_three _ _ _ _⟩
      obtain ⟨n, vals, hl⟩ := hlast
      have hjs : job_stream st.files fid = some sid := by
        rw [job_stream_of_some st.files fid f hf, hsid]
      exact ⟨fun h => absurd rfl h,
        fun _ => Or.inr (Or.inr (Or.inr ⟨fid, t, n, vals, rfl, hjs, j5, rfl, hl⟩))⟩
    · subst e
      exact WaiterChange.unchanged rfl rfl

/-- C6, as amended.  When the retry of a readiness callback returns more than 0
values (its result is not 0), the callback ends with the waiter slot NULL and
the watcher stopped, and after the retry the trace grows by exactly
`ev_io_stop`, the store of NULL to the slot and `lem_queue` for the coroutine
of the callback, in this order.  When the retry returns 0, the slot and the
watcher are as they were and the callback adds plain events only: no store,
no call into libev, no `lem_queue`.  And in every step from a reachable state
(`WaiterChange`) a read waiter is set only by a suspending `stream_readp` and
cleared only by `stream_readp_cb` handing that coroutine to `lem_queue`, while
a write waiter is set only by a suspending `stream_write` or by a
`stream_sendfile` that puts a job, and cleared only by `stream_write_cb` or by
the reap function of that job, handing that coroutine to `lem_queue`. -/
theorem waiters_cleared_before_resume (cap : Nat) (T : lua_State) (s : stream) (k : Kernel)
    (l : Label) (st st1 : Sys) (sid : Nat) (a a1 : stream)
    (hreach : Reachable cap st) (hstep : step cap l st = some st1)
    (ha : st.streams[sid]? = some a) (ha1 : st1.streams[sid]? = some a1) :
    ((stream__readp cap T s k).1 ≠ 0 →
      (stream_readp_cb cap T s k).2.1.r.data = none ∧
      (stream_readp_cb cap T s k).2.1.r.active = false ∧
      emitted (stream__readp cap T s k).2.2.2 (stream_readp_cb cap T s k).2.2 =
        [Event.ev_io_stop Callback.stream_readp_cb, Event.store Slot.r_data none,
         Event.lem_queue T.id (stream__readp cap T s k).1
           (results (stream__readp cap T s k).1 (stream__readp cap T s k).2.1)]) ∧
    ((stream__readp cap T s k).1 = 0 →
      (stream_readp_cb cap T s k).2.1.r = s.r ∧
      ∀ e ∈ emitted k (stream_readp_cb cap T s k).2.2, e.plain = true) ∧
    ((stream__write T s k).1 ≠ 0 →
      (stream_write_cb T s k).2.1.w.data = none ∧
      (stream_write_cb T s k).2.1.w.active = false ∧
      emitted (stream__write T s k).2.2.2 (stream_write_cb T s k).2.2 =
        [Event.ev_io_stop Callback.stream_write_cb, Event.store Slot.w_data none,
         Event.lem_queue T.id (stream__write T s k).1
           (results (stream__write T s k).1 (stream__write T s k).2.1)]) ∧
    ((stream__write T s k).1 = 0 →
      (stream_write_cb T s k).2.1.w.data = s.w.data ∧
      (stream_write_cb T s k).2.1.w.active = s.w.active ∧
      (stream_write_cb T s k).2.1.w.cb = s.w.cb ∧
      ∀ e ∈ emitted k (stream_write_cb T s k).2.2, e.plain = true) ∧
    WaiterChange l st st1 sid a a1 := by
  obtain ⟨r1, r2, -⟩ := stream_readp_cb_spec cap T s k
  obtain ⟨w1, w2, -⟩ := stream_write_cb_spec T s k
  refine ⟨?_, ?_, ?_, ?_, waiter_steps cap l st st1 sid a a1 hreach hstep ha ha1⟩
  · intro h
    obtain ⟨q1, q2, q3⟩ := r2 h
    exact ⟨q1, q2, emitted_of_append q3⟩
  · intro h
    rw [r1 h]
    exact ⟨(stream__readp_watchers cap T s k).1, (stream__readp_plain cap T s k).emitted⟩
  · intro h
    obtain ⟨q1, q2, q3⟩ := w2 h
    exact ⟨q1, q2, emitted_of_append q3⟩
  · intro h
    have hw := stream__write_waiters T s k
    rw [(w1 h).1]
    exact ⟨hw.2.2.2.1, hw.2.2.2.2.1, hw.2.2.2.2.2, (stream__write_plain T s k).emitted⟩

/-- C6, as amended, at a concrete input: the readiness callback resumes the
reader that was suspended in `sys_waiting`. -/
theorem waiters_cleared_before_resume_witness :
    WaiterChange (Label.readp_cb 0) sys_waiting sys_resumed 0
      (sys_waiting.streams.getD 0 stream0) (sys_resumed.streams.getD 0 stream0) ∧
    (sys_waiting.streams.getD 0 stream0).r.data = some 8 ∧
    (sys_resumed.streams.getD 0 stream0).r.data = none :=
  ⟨(waiters_cleared_before_resume 4096 T_rd stream0 kernel0 (Label.readp_cb 0)
      sys_waiting sys_resumed 0 _ _
      (reachable_of_run 4096 labels_waiting (Sys.init kernel_later) _ (Reachable.init _) rfl)
      rfl rfl rfl).2.2.2.2, by decide, by decide⟩

/-- C6 as stated fails in its last sentence: in the reachable state `sys_fresh`
a call of `stream_sendfile` sets the write waiter of the stream, and no
`stream_write` has suspended (no write watcher was ever started). -/
theorem write_waiter_set_by_sendfile :
    Reachable 4096 sys_fresh ∧
    step 4096 (Label.sendfile T_sf 0 0 10 0) sys_fresh = some sys_job ∧
    (sys_fresh.streams.getD 0 stream0).w.data = none ∧
    (sys_job.streams.getD 0 stream0).w.data = some 6 ∧
    Event.ev_io_start Callback.stream_write_cb ∉ sys_job.k.trace :=
  ⟨reachable_of_run 4096 labels_fresh (Sys.init kernel0) _ (Reachable.init _) rfl, rfl,
    by decide, by decide, by decide⟩

/-! ## C7: one job in flight for each file and each stream -/

/-- In a list without repetition in which any two members with the property are
equal, at most one member has the property. -/
theorem filter_length_le_one (J : List Nat) (P : Nat → Bool) (hnd : J.Nodup)
    (h : ∀ x ∈ J, ∀ y ∈ J, P x = true → P y = true → x = y) :
    (J.filter P).length ≤ 1 := by
  have hnd2 : (J.filter P).Nodup := hnd.filter P
  match hf : J.filter P with
  | [] => simp
  | [a] => simp
  | a :: b :: rest =>
    exfalso
    have ha : a ∈ J.filter P := by rw [hf]; simp
    have hb : b ∈ J.filter P := by rw [hf]; simp
    rw [List.mem_filter] at ha hb
    have hab := h a ha.1 b hb.1 ha.2 hb.2
    rw [hf] at hnd2
    subst hab
    simp at hnd2

/-- C7.  `stream_sendfile` rejects a closed or busy stream and a closed or busy
file with 2 values, nil and a diagnostic string, and hands back stream, file and
kernel as they were (so nothing is put).  Otherwise it yields with the stream's
`w.data` and the file's `a.T` set to the caller and puts exactly one job.
`stream_sendfile_reap` clears both marks, and only then calls `lem_queue` for
that coroutine.  In every reachable state of the system no file has more than
one job in flight and no stream is written to by more than one job in flight. -/
theorem sendfile_one_job (cap : Nat) (T : lua_State) (sid : Nat) (s : stream) (f : file)
    (size offset : Int) (k : Kernel) (st : Sys) (hreach : Reachable cap st) :
    ((s.w.fd < 0 ∨ s.w.data ≠ none ∨ f.fd < 0 ∨ f.a_T ≠ none) →
      (stream_sendfile T sid s f size offset k).1 = 2 ∧
      (∃ msg, results 2 (stream_sendfile T sid s f size offset k).2.1 =
        [Val.nil, Val.string msg]) ∧
      (stream_sendfile T sid s f size offset k).2.2.1 = s ∧
      (stream_sendfile T sid s f size offset k).2.2.2.1 = f ∧
      (stream_sendfile T sid s f size offset k).2.2.2.2 = k) ∧
    (¬ (s.w.fd < 0 ∨ s.w.data ≠ none ∨ f.fd < 0 ∨ f.a_T ≠ none) →
      (stream_sendfile T sid s f size offset k).1 = LUA_YIELD ∧
      (stream_sendfile T sid s f size offset k).2.2.1.w.data = some T.id ∧
      (stream_sendfile T sid s f size offset k).2.2.2.1.a_T = some T.id ∧
      (stream_sendfile T sid s f size offset k).2.2.2.1.sendfile_stream = some sid ∧
      emitted k (stream_sendfile T sid s f size offset k).2.2.2.2 =
        [Event.store Slot.w_data (some T.id), Event.store Slot.a_T (some T.id),
         Event.lem_async_put T.id]) ∧
    ((stream_sendfile_reap T f s k).2.1.a_T = none ∧
      (stream_sendfile_reap T f s k).2.2.1.w.data = none ∧
      emitted k (stream_sendfile_reap T f s k).2.2.2 =
        [Event.store Slot.a_T none, Event.store Slot.w_data none,
         Event.lem_queue T.id (if f.ret = 0 then 1 else 2)
           (if f.ret = 0 then [Val.number f.sendfile_size]
            else [Val.nil, Val.string (k.strerror f.ret)])]) ∧
    (∀ fid, st.jobs.count fid ≤ 1) ∧
    (∀ sid1, (st.jobs.filter (fun fid => job_stream st.files fid == some sid1)).length ≤ 1) := by
  obtain ⟨hrej, hacc⟩ := stream_sendfile_spec T sid s f size offset k
  obtain ⟨q1, q2, q3, -⟩ := stream_sendfile_reap_spec T f s k
  have hinv := hreach.inv
  refine ⟨hrej, ?_, ?_, hinv.count, ?_⟩
  · intro h
    obtain ⟨e1, e2, e3, e4⟩ := hacc h
    exact ⟨e1, by rw [e2], by rw [e3], by rw [e3], emitted_of_append e4⟩
  · exact ⟨by rw [q1], by rw [q2], emitted_of_append q3⟩
  · intro sid1
    apply filter_length_le_one _ _ (List.nodup_iff_count_le_one.2 (fun x => hinv.count x))
    intro x hx y hy px py
    apply hinv.inj x hx y hy
    simp at px py
    rw [px, py]

/-- C7, at a concrete input: the reachable state `sys_job`, in which the job of
file 0 is in flight. -/
theorem sendfile_one_job_witness :
    sys_job.jobs = [0] ∧
    (∀ fid, sys_job.jobs.count fid ≤ 1) ∧
    (∀ sid1, (sys_job.jobs.filter
      (fun fid => job_stream sys_job.files fid == some sid1)).length ≤ 1) :=
  ⟨by decide,
    (sendfile_one_job 4096 T_sf 0 stream0 file0 10 0 kernel0 sys_job
      (Reachable.step _ _ _
        (reachable_of_run 4096 labels_fresh (Sys.init kernel0) _ (Reachable.init _) rfl)
        (rfl : step 4096 (Label.sendfile T_sf 0 0 10 0) sys_fresh = some sys_job))).2.2.2⟩

/-! ## C8: a transfer of 0 bytes -/

/-- The bytes written over two stretches of a trace. -/
theorem written_append (l1 l2 : List Event) : written (l1 ++ l2) = written l1 ++ written l2 := by
  induction l1 with
  | nil => rfl
  | cons e es ih => simp [written, ih]

/-- The strings from argument `i` on start with argument `i`. -/
theorem concat_args_drop (args : List LStr) (i : Nat) (a : LStr) (h : args[i]? = some a) :
    concat_args (args.drop i) = a ++ concat_args (args.drop (i + 1)) := by
  have hd : args.drop i = a :: args.drop (i + 1) := by
    rw [List.getElem?_eq_some] at h
    obtain ⟨h1, h2⟩ := h
    rw [← h2]
    exact List.drop_eq_getElem_cons h1
  rw [hd]
  rfl

/-- The stack of a call `stream:write(a1, ..., an)`: the stream and then the
strings. -/
theorem stack_args (T : lua_State) (u : Nat) (args : List LStr)
    (hstack : T.stack = Val.userdata u :: args.map Val.string) :
    lua_gettop T = args.length + 1 ∧
    ∀ i a, args[i]? = some a → lua_tolstring T (i + 2) = a := by
  constructor
  · simp [lua_gettop, hstack]
  · intro i a h
    simp [lua_tolstring, hstack, h]

/-- One call of `stream__write` on a descriptor that takes at least one byte
or would block, with every argument string non-empty: it either finishes the
last string and returns 1, or stops at a would-block further on in the
arguments; the bytes taken so far and the bytes still to write make up what was
to be written at the start. -/
theorem stream__write_loop_progress (T : lua_State) (u : Nat) (args : List LStr) (K : Nat)
    (hstack : T.stack = Val.userdata u :: args.map Val.string)
    (hne : ∀ a ∈ args, a ≠ []) :
    ∀ (fuel : Nat) (s : stream) (k : Kernel) (i : Nat), k.writes.length < fuel →
      WritePos args i s → (∀ o ∈ k.writes, SysRet.accepting K o) →
      (remaining args i s).length ≤ (k.writes.filter SysRet.isOk).length →
      ∃ evs, (stream__write_loop T fuel s k).2.2.2.trace = k.trace ++ evs ∧
        (((stream__write_loop T fuel s k).1 = 1 ∧
            (stream__write_loop T fuel s k).2.1 = lua_pushboolean T 1 ∧
            (stream__write_loop T fuel s k).2.2.1.w = s.w ∧
            written evs = remaining args i s) ∨
         ((stream__write_loop T fuel s k).1 = 0 ∧
            (stream__write_loop T fuel s k).2.1 = T ∧
            (stream__write_loop T fuel s k).2.2.1.w = s.w ∧
            ∃ j, WritePos args j (stream__write_loop T fuel s k).2.2.1 ∧
              written evs ++ remaining args j (stream__write_loop T fuel s k).2.2.1 =
                remaining args i s ∧
              (∀ o ∈ (stream__write_loop T fuel s k).2.2.2.writes, SysRet.accepting K o) ∧
              (remaining args j (stream__write_loop T fuel s k).2.2.1).length ≤
                ((stream__write_loop T fuel s k).2.2.2.writes.filter SysRet.isOk).length ∧
              (stream__write_loop T fuel s k).2.2.2.writes.length < k.writes.length)) := by
  obtain ⟨htop, hstr⟩ := stack_args T u args hstack
  intro fuel
  induction fuel with
  | zero => intro s k i h; omega
  | succ n ih =>
    intro s k i hfuel hpos hacc hcount
    obtain ⟨hi, hidx, hout, donepart, hd⟩ := hpos
    have houtlen : 0 < s.out.length := List.length_pos.mpr hout
    cases hk : k.writes with
    | nil =>
      rw [hk] at hcount
      simp only [remaining, List.length_append, List.filter_nil, List.length_nil] at hcount
      omega
    | cons o rest =>
      cases o with
      | fail e =>
        have he : e = EAGAIN := by
          have := hacc (SysRet.fail e) (by simp [hk])
          simpa [SysRet.accepting] using this
        subst he
        refine ⟨[Event.write s.w.fd s.out (-1) EAGAIN], ?_, Or.inr ?_⟩
        · simp [stream__write_loop, sys_write, hk, stream__write_exit]
        · simp only [stream__write_loop, sys_write, hk, stream__write_exit]
          simp
          refine ⟨i, ⟨hi, hidx, hout, donepart, hd⟩, ?_, ?_, ?_⟩
          · simp [written, Event.taken]
          · intro o ho
            exact hacc o (by simp [hk, ho])
          · simpa [hk, SysRet.isOk] using hcount
      | ok m =>
        have hm : 1 ≤ m ∧ m ≤ K := by
          have := hacc (SysRet.ok m) (by simp [hk])
          simpa [SysRet.accepting] using this
        have hb : ∃ b : Nat, 1 ≤ b ∧ b ≤ s.out.length ∧
            (sys_write k s.w.fd s.out).1 = (b : Int) ∧
            (sys_write k s.w.fd s.out).2.writes = rest ∧
            (sys_write k s.w.fd s.out).2.trace =
              k.trace ++ [Event.write s.w.fd s.out (b : Int) k.errno] := by
          refine ⟨min m s.out.length, ?_, ?_, ?_, ?_, ?_⟩
          · exact Nat.le_min.mpr ⟨hm.1, houtlen⟩
          · exact Nat.min_le_right _ _
          · simp [sys_write, hk]
          · simp [sys_write, hk]
          · simp [sys_write, hk]
        obtain ⟨b, hb1, hb2, hw1, hw2, hw3⟩ := hb
        have hposb : (sys_write k s.w.fd s.out).1 > 0 := by rw [hw1]; exact_mod_cast hb1
        have htn : (sys_write k s.w.fd s.out).1.toNat = b := by rw [hw1]; simp
        have hcnt : (k.writes.filter SysRet.isOk).length =
            (rest.filter SysRet.isOk).length + 1 := by
          simp [hk, SysRet.isOk]
        have hrestacc : ∀ o ∈ rest, SysRet.accepting K o := by
          intro o ho
          exact hacc o (by simp [hk, ho])
        have hklen : k.writes.length = rest.length + 1 := by simp [hk]
        have hwritten : written [Event.write s.w.fd s.out (b : Int) k.errno] = s.out.take b := by
          simp [written, Event.taken]
        rw [← hk]
        have key : ∀ (s1 : stream) (j0 : Nat), s1.w = s.w → WritePos args j0 s1 →
            s.out.take b ++ remaining args j0 s1 = remaining args i s →
            stream__write_loop T (n + 1) s k =
              stream__write_loop T n s1 (sys_write k s.w.fd s.out).2 →
            ∃ evs, (stream__write_loop T (n + 1) s k).2.2.2.trace = k.trace ++ evs ∧
              (((stream__write_loop T (n + 1) s k).1 = 1 ∧
                  (stream__write_loop T (n + 1) s k).2.1 = lua_pushboolean T 1 ∧
                  (stream__write_loop T (n + 1) s k).2.2.1.w = s.w ∧
                  written evs = remaining args i s) ∨
               ((stream__write_loop T (n + 1) s k).1 = 0 ∧
                  (stream__write_loop T (n + 1) s k).2.1 = T ∧
                  (stream__write_loop T (n + 1) s k).2.2.1.w = s.w ∧
                  ∃ j, WritePos args j (stream__write_loop T (n + 1) s k).2.2.1 ∧
                    written evs ++ remaining args j (stream__write_loop T (n + 1) s k).2.2.1 =
                      remaining args i s ∧
                    (∀ o ∈ (stream__write_loop T (n + 1) s k).2.2.2.writes,
                      SysRet.accepting K o) ∧
                    (remaining args j (stream__write_loop T (n + 1) s k).2.2.1).length ≤
                      ((stream__write_loop T (n + 1) s k).2.2.2.writes.filter
                        SysRet.isOk).length ∧
                    (stream__write_loop T (n + 1) s k).2.2.2.writes.length <
                      k.writes.length)) := by
          intro s1 j0 hw hp hrem hres
          rw [hres]
          have hlen : (remaining args j0 s1).length ≤
              ((sys_write k s.w.fd s.out).2.writes.filter SysRet.isOk).length := by
            rw [hw2]
            have h1 := congrArg List.length hrem
            have h2 : (s.out.take b).length = b := by simp [hb2]
            rw [List.length_append, h2] at h1
            omega
          obtain ⟨evs, htr, hcase⟩ := ih s1 (sys_write k s.w.fd s.out).2 j0
            (by rw [hw2]; omega) hp (by rw [hw2]; exact hrestacc) hlen
          refine ⟨Event.write s.w.fd s.out (b : Int) k.errno :: evs, ?_, ?_⟩
          · rw [htr, hw3]; simp
          · have hwr : written (Event.write s.w.fd s.out (b : Int) k.errno :: evs) =
                s.out.take b ++ written evs := by
              simp [written, Event.taken]
            rcases hcase with ⟨h1, h2, h0, h3⟩ | ⟨h1, h2, h3, j, h4, h5, h6, h7, h8⟩
            · exact Or.inl ⟨h1, h2, h0.trans hw, by rw [hwr, h3, hrem]⟩
            · refine Or.inr ⟨h1, h2, h3.trans hw, j, h4, ?_, h6, h7, ?_⟩
              · rw [hwr, List.append_assoc, h5, hrem]
              · rw [hw2] at h8; omega
        by_cases hall : b = s.out.length
        · have hdrop : s.out.drop b = [] := by rw [hall]; simp
          have htake : s.out.take b = s.out := by rw [hall]; simp
          by_cases hlast : s.idx = lua_gettop T
          · refine ⟨[Event.write s.w.fd s.out (b : Int) k.errno], ?_, Or.inl ?_⟩
            · simp [stream__write_loop, hposb, htn, hdrop, hlast, hw3]
            · simp only [stream__write_loop, hposb, htn, hdrop, hlast]
              simp
              rw [hwritten, htake]
              have : args.drop (i + 1) = [] := by
                apply List.drop_eq_nil_of_le
                rw [htop] at hlast
                omega
              simp [remaining, this, concat_args]
          · have hi1 : i + 1 < args.length := by
              rw [htop] at hlast
              omega
            obtain ⟨a, ha⟩ : ∃ a, args[i + 1]? = some a :=
              ⟨args[i + 1], List.getElem?_eq_getElem hi1⟩
            have hane : a ≠ [] := by
              apply hne
              rw [List.getElem?_eq_some] at ha
              obtain ⟨h1, h2⟩ := ha
              rw [← h2]
              apply List.getElem_mem
            have hstr1 : lua_tolstring T (s.idx + 1) = a := by
              rw [hidx]
              exact hstr (i + 1) a ha
            apply key { s with idx := s.idx + 1, out := a } (i + 1) rfl
            · exact ⟨hi1, by simp [hidx], hane, [], by simpa using ha⟩
            · rw [htake]
              simp [remaining, concat_args_drop args (i + 1) a ha]
            · simp [stream__write_loop, hposb, htn, hdrop, hlast, hstr1]
        · have hdrop : s.out.drop b ≠ [] := by
            intro h
            have := congrArg List.length h
            simp at this
            omega
          apply key { s with out := s.out.drop b } i rfl
          · refine ⟨hi, hidx, hdrop, donepart ++ s.out.take b, ?_⟩
            simp [hd]
          · simp only [remaining]
            rw [← List.append_assoc, List.take_append_drop]
          · have hlen0 : ¬ (s.out.length - b = 0) := by omega
            simp [stream__write_loop, hposb, htn, hlen0]

/-- Where the callee left the stack alone, the coroutine is as it was. -/
theorem same_thread_self (T : lua_State) : same_thread T T = T := by
  cases T
  rfl

/-- The callback does not fire once the write watcher is stopped. -/
theorem write_retry_inactive (n : Nat) (T : lua_State) (s : stream) (k : Kernel)
    (h : s.w.active = false) : write_retry n T s k = (T, s, k) := by
  cases n <;> simp [write_retry, h]

/-- The retries of `stream_write_cb` on a suspended write: when the descriptor
has enough accepting outcomes left, they write what remained and end by handing
the coroutine to `lem_queue` with the single value true. -/
theorem write_retry_progress (T : lua_State) (u : Nat) (args : List LStr) (K : Nat)
    (hstack : T.stack = Val.userdata u :: args.map Val.string)
    (hne : ∀ a ∈ args, a ≠ []) :
    ∀ (n : Nat) (s : stream) (k : Kernel) (i : Nat), k.writes.length ≤ n →
      s.w.active = true → WritePos args i s → (∀ o ∈ k.writes, SysRet.accepting K o) →
      (remaining args i s).length ≤ (k.writes.filter SysRet.isOk).length →
      ∃ evs, (write_retry n T s k).2.2.trace = k.trace ++ evs ∧
        written evs = remaining args i s ∧
        (write_retry n T s k).2.2.trace.getLast? =
          some (Event.lem_queue T.id 1 [Val.boolean true]) := by
  intro n
  induction n with
  | zero =>
    intro s k i hn hact hpos hacc hcount
    have hk : k.writes = [] := List.length_eq_zero.mp (by omega)
    have houtlen : 0 < s.out.length := List.length_pos.mpr hpos.2.2.1
    rw [hk] at hcount
    simp only [remaining, List.length_append, List.filter_nil, List.length_nil] at hcount
    omega
  | succ n ih =>
    intro s k i hn hact hpos hacc hcount
    obtain ⟨evs, htr, hcase⟩ := stream__write_loop_progress T u args K hstack hne
      (k.writes.length + 1) s k i (by omega) hpos hacc hcount
    rcases hcase with ⟨h1, h2, h0, h3⟩ | ⟨h1, h2, h3, j, h4, h5, h6, h7, h8⟩
    · have hcb : stream_write_cb T s k =
          (same_thread T (lua_pushboolean T 1),
            { (stream__write T s k).2.2.1 with
              w := { (stream__write T s k).2.2.1.w with active := false, data := none } },
            lem_queue (((stream__write T s k).2.2.2.emit
              (Event.ev_io_stop Callback.stream_write_cb)).emit
                (Event.store Slot.w_data none)) (same_thread T (lua_pushboolean T 1)) 1) := by
        simp only [stream__write] at *
        simp [stream_write_cb, stream__write, h1, h2]
      have hq : results 1 (same_thread T (lua_pushboolean T 1)) = [Val.boolean true] := by
        simp [results, same_thread, lua_pushboolean, lua_push]
      have hid : (same_thread T (lua_pushboolean T 1)).id = T.id := rfl
      have hret : write_retry (n + 1) T s k = stream_write_cb T s k := by
        simp only [write_retry, hact, if_true]
        rw [write_retry_inactive]
        rw [hcb]
      rw [hret, hcb]
      refine ⟨evs ++ [Event.ev_io_stop Callback.stream_write_cb,
        Event.store Slot.w_data none, Event.lem_queue T.id 1 [Val.boolean true]], ?_, ?_, ?_⟩
      · simp [lem_queue, Kernel.emit, stream__write, htr, hq, hid]
      · rw [written_append, h3]
        simp [written, Event.taken]
      · simp [lem_queue, Kernel.emit, hq, hid]
    · have hcb : stream_write_cb T s k =
          (T, (stream__write T s k).2.2.1, (stream__write T s k).2.2.2) := by
        simp only [stream__write] at *
        simp [stream_write_cb, stream__write, h1, h2, same_thread_self]
      have hret : write_retry (n + 1) T s k =
          write_retry n T (stream__write T s k).2.2.1 (stream__write T s k).2.2.2 := by
        simp only [write_retry, hact, if_true]
        rw [hcb]
      rw [hret]
      simp only [stream__write] at *
      obtain ⟨evs2, htr2, hw2, hl2⟩ := ih _ _ j (by omega) (by rw [h3]; exact hact) h4 h6 h7
      refine ⟨evs ++ evs2, ?_, ?_, hl2⟩
      · rw [htr2, htr, List.append_assoc]
      · rw [written_append, hw2, h5]

/-- Writing non-empty strings.  On an open, idle stream, with every argument a
non-empty string and a descriptor whose every `write` takes between 1 and `K`
bytes or reports `EAGAIN` (and takes bytes often enough), `stream_write` and the
retries of `stream_write_cb` end by reporting the single value true, and the
bytes taken by the `write` calls, in order, are the argument strings one after
the other. -/
theorem stream_write_delivers (T : lua_State) (s : stream) (k : Kernel) (u : Nat)
    (args : List LStr) (K : Nat)
    (hstack : T.stack = Val.userdata u :: args.map Val.string)
    (hargs : args ≠ []) (hne : ∀ a ∈ args, a ≠ [])
    (hfd : 0 ≤ s.w.fd) (hidle : s.w.data = none) (hact : s.w.active = false)
    (hacc : ∀ o ∈ k.writes, SysRet.accepting K o)
    (hcount : (concat_args args).length ≤ (k.writes.filter SysRet.isOk).length) :
    write_reported T s k k.writes.length ∧
    written (emitted k (write_session T s k k.writes.length).2.2) = concat_args args := by
  obtain ⟨htop, hstr⟩ := stack_args T u args hstack
  obtain ⟨a0, rest, rfl⟩ := List.exists_cons_of_ne_nil hargs
  have hs2 : lua_tolstring T 2 = a0 := hstr 0 a0 (by simp)
  have hpos : WritePos (a0 :: rest) 0 { s with out := a0, idx := 2 } :=
    ⟨by simp, rfl, hne a0 (by simp), [], by simp⟩
  have hrem : remaining (a0 :: rest) 0 { s with out := a0, idx := 2 } =
      concat_args (a0 :: rest) := by
    simp [remaining, concat_args]
  have hnfd : ¬ s.w.fd < 0 := by omega
  obtain ⟨evs, htr, hcase⟩ := stream__write_loop_progress T u (a0 :: rest) K hstack hne
    (k.writes.length + 1) { s with out := a0, idx := 2 } k 0 (by omega) hpos hacc
    (by rw [hrem]; exact hcount)
  rw [hrem] at hcase
  rcases hcase with ⟨h1, h2, h0, h3⟩ | ⟨h1, h2, h3, j, h4, h5, h6, h7, h8⟩
  · have hsw : stream_write T s k =
        stream__write_loop T (k.writes.length + 1) { s with out := a0, idx := 2 } k := by
      simp [stream_write, stream__write, hnfd, hidle, hs2, h1]
    have hses : write_session T s k k.writes.length =
        (same_thread T (stream_write T s k).2.1, (stream_write T s k).2.2.1,
          (stream_write T s k).2.2.2) := by
      unfold write_session
      apply write_retry_inactive
      rw [hsw, h0]
      exact hact
    constructor
    · left
      rw [hsw, h1, h2]
      exact ⟨rfl, results_one T _⟩
    · rw [hses, hsw]
      simp only []
      rw [emitted_of_append htr, h3]
  · have hsw : (stream_write T s k).2 =
        (T, { (stream__write_loop T (k.writes.length + 1)
                { s with out := a0, idx := 2 } k).2.2.1 with
              w := { (stream__write_loop T (k.writes.length + 1)
                { s with out := a0, idx := 2 } k).2.2.1.w with
                data := some T.id, cb := some Callback.stream_write_cb, active := true } },
          ((stream__write_loop T (k.writes.length + 1)
                { s with out := a0, idx := 2 } k).2.2.2.emit
              (Event.store Slot.w_data (some T.id))).emit
            (Event.ev_io_start Callback.stream_write_cb)) := by
      simp [stream_write, stream__write, hnfd, hidle, hs2, h1, h2]
    have hses : write_session T s k k.writes.length = write_retry k.writes.length T
        (stream_write T s k).2.2.1 (stream_write T s k).2.2.2 := by
      unfold write_session
      rw [hsw, same_thread_self]
    obtain ⟨evs2, htr2, hw2, hl2⟩ := write_retry_progress T u (a0 :: rest) K hstack hne
      k.writes.length (stream_write T s k).2.2.1 (stream_write T s k).2.2.2 j
      (by rw [hsw]; exact Nat.le_of_lt h8) (by rw [hsw]) (by rw [hsw]; exact h4)
      (by rw [hsw]; exact h6) (by rw [hsw]; exact h7)
    have htr4 : (stream_write T s k).2.2.2.trace = k.trace ++ (evs ++
        [Event.store Slot.w_data (some T.id), Event.ev_io_start Callback.stream_write_cb]) := by
      rw [hsw]
      simp [Kernel.emit, htr]
    have hrem2 : remaining (a0 :: rest) j (stream_write T s k).2.2.1 =
        remaining (a0 :: rest) j (stream__write_loop T (k.writes.length + 1)
                { s with out := a0, idx := 2 } k).2.2.1 := by
      rw [hsw]
      rfl
    constructor
    · right
      rw [hses]
      exact hl2
    · rw [hses]
      have : (write_retry k.writes.length T (stream_write T s k).2.2.1
          (stream_write T s k).2.2.2).2.2.trace = k.trace ++ ((evs ++
        [Event.store Slot.w_data (some T.id), Event.ev_io_start Callback.stream_write_cb])
          ++ evs2) := by
        rw [htr2, htr4, List.append_assoc]
      rw [emitted_of_append this, written_append, written_append, hw2, hrem2]
      simp only [written, Event.taken, List.append_nil]
      exact h5

/-- Writing non-empty strings, at a concrete input: `stream:write("ab", "c")` on
a descriptor that takes one byte, would block, and then takes one byte at a
time. -/
theorem stream_write_delivers_example :
    write_reported T_ab_c stream0 kernel_slow 4 ∧
    written (emitted kernel_slow (write_session T_ab_c stream0 kernel_slow 4).2.2) =
      "abc".toList :=
  stream_write_delivers T_ab_c stream0 kernel_slow 1 ["ab".toList, "c".toList] 1 rfl
    (by decide) (by decide) (by decide) (by decide) (by decide)
    (by simp [kernel_slow, kernel0, SysRet.accepting, EAGAIN]) (by decide)

/-- A plain event reports nothing to the scheduler. -/
theorem plain_not_reportsOne (e : Event) (h : e.plain = true) : ¬ e.reportsOne := by
  cases e <;> simp [Event.plain, Event.reportsOne] at *

/-- With an empty string at argument `i`, a call of `stream__write` that has not
got past that argument never returns 1: it is pending, still not past the
argument, or it has closed the stream and returns two values. -/
theorem stream__write_loop_stuck (T : lua_State) (u : Nat) (args : List LStr) (i : Nat)
    (hstack : T.stack = Val.userdata u :: args.map Val.string)
    (hi : args[i]? = some []) :
    ∀ (fuel : Nat) (s : stream) (k : Kernel), BeforeEmpty i s →
      ((stream__write_loop T fuel s k).1 = 0 ∧ (stream__write_loop T fuel s k).2.1 = T ∧
        BeforeEmpty i (stream__write_loop T fuel s k).2.2.1) ∨
      (stream__write_loop T fuel s k).1 = 2 := by
  obtain ⟨htop, hstr⟩ := stack_args T u args hstack
  have hilt : i < args.length := by
    rw [List.getElem?_eq_some] at hi
    exact hi.1
  intro fuel
  induction fuel with
  | zero => intro s k h; exact Or.inl ⟨rfl, rfl, h⟩
  | succ n ih =>
    intro s k hinv
    have hle := (sys_write_cases k s.w.fd s.out).choose_spec.2.2.2.2.2.2
    by_cases hpos : (sys_write k s.w.fd s.out).1 > 0
    · have hout : s.out ≠ [] := by
        intro h
        rw [h] at hle hpos
        simp at hle
        omega
      have hidx : s.idx < i + 2 := by
        rcases Nat.lt_or_ge s.idx (i + 2) with h | h
        · exact h
        · exact absurd (hinv.2 (by have := hinv.1; omega)) hout
      have hntop : s.idx ≠ lua_gettop T := by rw [htop]; omega
      simp only [stream__write_loop, hpos, if_true, if_neg hntop]
      split
      · apply ih
        refine ⟨by simp; omega, ?_⟩
        intro h
        simp at h
        have : s.idx + 1 = i + 2 := by omega
        show lua_tolstring T (s.idx + 1) = []
        rw [this]
        exact hstr i [] hi
      · apply ih
        exact ⟨hinv.1, fun h => absurd h (by simp; omega)⟩
    · simp only [stream__write_loop, hpos, if_false, stream__write_exit]
      split
      · exact Or.inl ⟨rfl, rfl, hinv⟩
      · right
        split <;> simp [io_closed, io_strerror]

/-- With an empty string at argument `i`, no retry of `stream_write_cb` hands
the coroutine to `lem_queue` with one value. -/
theorem write_retry_stuck (T : lua_State) (u : Nat) (args : List LStr) (i : Nat)
    (hstack : T.stack = Val.userdata u :: args.map Val.string)
    (hi : args[i]? = some []) :
    ∀ (n : Nat) (s : stream) (k : Kernel), BeforeEmpty i s →
      Extends (fun e => ¬ e.reportsOne) k (write_retry n T s k).2.2 := by
  intro n
  induction n with
  | zero => intro s k _; exact Extends.refl _ _
  | succ n ih =>
    intro s k hinv
    by_cases hact : s.w.active = true
    · have hplain : Extends (fun e => ¬ e.reportsOne) k (stream__write T s k).2.2.2 :=
        (stream__write_plain T s k).mono plain_not_reportsOne
      rcases stream__write_loop_stuck T u args i hstack hi (k.writes.length + 1) s k hinv with
        ⟨h1, h2, h3⟩ | h1
      · have hcb : stream_write_cb T s k =
            (T, (stream__write T s k).2.2.1, (stream__write T s k).2.2.2) := by
          simp only [stream__write] at *
          simp [stream_write_cb, stream__write, h1, h2, same_thread_self]
        simp only [write_retry, hact, if_true]
        rw [hcb]
        exact hplain.trans (ih _ _ h3)
      · have h2 : (stream__write T s k).1 = 2 := h1
        have hne0 : ¬ (stream__write T s k).1 = 0 := by rw [h2]; decide
        simp only [write_retry, hact, if_true]
        rw [write_retry_inactive]
        · simp only [stream_write_cb, hne0, if_false, lem_queue]
          refine (hplain.trans (Extends.emit _ _ ?_)).trans
            ((Extends.emit _ _ ?_).trans (Extends.emit _ _ ?_))
          · simp [Event.reportsOne]
          · simp [Event.reportsOne]
          · simp [Event.reportsOne, h2]
        · simp [stream_write_cb, hne0]
    · have hact2 : s.w.active = false := by simpa using hact
      rw [write_retry_inactive _ _ _ _ hact2]
      exact Extends.refl _ _

/-- Writing an empty string, for every descriptor.  When one of the arguments of
`stream:write(...)` is the empty string, the call on an open and idle stream
does not return the single value true, and however often the readiness callback
fires afterwards the coroutine is never handed to `lem_queue` with one value. -/
theorem stream_write_empty_arg (T : lua_State) (s : stream) (k : Kernel) (u : Nat)
    (args : List LStr) (i n : Nat)
    (hstack : T.stack = Val.userdata u :: args.map Val.string)
    (hi : args[i]? = some [])
    (hfd : 0 ≤ s.w.fd) (hidle : s.w.data = none) (hact : s.w.active = false) :
    (stream_write T s k).1 ≠ 1 ∧
    ∀ e ∈ emitted k (write_session T s k n).2.2, ¬ e.reportsOne := by
  obtain ⟨htop, hstr⟩ := stack_args T u args hstack
  have hnfd : ¬ s.w.fd < 0 := by omega
  have hinv : BeforeEmpty i { s with out := lua_tolstring T 2, idx := 2 } := by
    refine ⟨by simp, ?_⟩
    intro h
    have h0 : i = 0 := by simpa using h.symm
    subst h0
    exact hstr 0 [] hi
  have hplain : Extends (fun e => ¬ e.reportsOne) k
      (stream__write T { s with out := lua_tolstring T 2, idx := 2 } k).2.2.2 :=
    (stream__write_plain T _ k).mono plain_not_reportsOne
  have hsame := stream__write_waiters T { s with out := lua_tolstring T 2, idx := 2 } k
  rcases stream__write_loop_stuck T u args i hstack hi (k.writes.length + 1) _ k hinv with
    ⟨h1, h2, h3⟩ | h1
  · have hsw : stream_write T s k =
        (lua_yield T (lua_gettop T), T,
          { (stream__write T { s with out := lua_tolstring T 2, idx := 2 } k).2.2.1 with
              w := { (stream__write T { s with out := lua_tolstring T 2, idx := 2 } k).2.2.1.w
                with data := some T.id, cb := some Callback.stream_write_cb, active := true } },
          ((stream__write T { s with out := lua_tolstring T 2, idx := 2 } k).2.2.2.emit
              (Event.store Slot.w_data (some T.id))).emit
            (Event.ev_io_start Callback.stream_write_cb)) := by
      simp only [stream__write] at *
      simp [stream_write, stream__write, hnfd, hidle, h1, h2]
    constructor
    · rw [hsw]
      simp [lua_yield, LUA_YIELD]
    · apply Extends.emitted
      unfold write_session
      rw [hsw]
      simp only [same_thread_self]
      refine (hplain.trans ((Extends.emit _ _ ?_).trans (Extends.emit _ _ ?_))).trans
        (write_retry_stuck T u args i hstack hi n _ _ h3)
      · simp [Event.reportsOne]
      · simp [Event.reportsOne]
  · have h2 : (stream__write T { s with out := lua_tolstring T 2, idx := 2 } k).1 = 2 := h1
    have hsw : stream_write T s k =
        stream__write T { s with out := lua_tolstring T 2, idx := 2 } k := by
      simp [stream_write, hnfd, hidle, h2]
    constructor
    · rw [hsw, h2]; decide
    · apply Extends.emitted
      unfold write_session
      rw [write_retry_inactive]
      · rw [hsw]
        exact hplain
      · rw [hsw, hsame.2.2.2.2.1]
        exact hact

/-- Writing an empty string, at a concrete input: `stream:write("ab", "")` on the
fresh stream with a descriptor that takes one byte at a time; the empty string
is argument 1. -/
theorem stream_write_empty_arg_example :
    (stream_write T_ab_empty stream0 kernel_bytewise).1 ≠ 1 ∧
    ∀ e ∈ emitted kernel_bytewise (write_session T_ab_empty stream0 kernel_bytewise 4).2.2,
      ¬ e.reportsOne :=
  stream_write_empty_arg T_ab_empty stream0 kernel_bytewise 1 ["ab".toList, []] 1 4 rfl
    (by decide) (by decide) (by decide) (by decide)

/-- A call of `stream__write` whose current string is empty never returns
success: `write` cannot take a byte, so the call is pending or closes the
stream. -/
theorem stream__write_empty_no_success (T : lua_State) (fuel : Nat) (s : stream) (k : Kernel)
    (hout : s.out = []) :
    (stream__write_loop T (fuel + 1) s k).1 = 0 ∨
    ((stream__write_loop T (fuel + 1) s k).1 = 2 ∧
      (stream__write_loop T (fuel + 1) s k).2.2.1.r.fd = -1 ∧
      (stream__write_loop T (fuel + 1) s k).2.2.1.w.fd = -1) := by
  have hle := (sys_write_cases k s.w.fd s.out).choose_spec.2.2.2.2.2.2
  rw [hout] at hle
  have hnot : ¬ (sys_write k s.w.fd []).1 > 0 := by
    simp at hle
    omega
  simp only [stream__write_loop, hout, hnot, if_false, stream__write_exit]
  split
  · left; rfl
  · right
    split <;> simp [io_closed, io_strerror]

/-- C1 fails at this input.  The call `stream:write("ab", "")` on the fresh open
and idle stream, with a descriptor that takes one byte for each `write`: the two
bytes are written, the third `write` is handed the empty string and returns 0,
and `stream__write` reads that as a closed peer: it closes the descriptor, marks
the stream closed and returns nil and "closed" where the claim promises true. -/
theorem write_empty_string_closes :
    T_ab_empty.stack = [Val.userdata 1, Val.string "ab".toList, Val.string []] ∧
    0 ≤ stream0.w.fd ∧ stream0.w.data = none ∧
    (∀ o ∈ kernel_bytewise.writes, SysRet.accepting 1 o) ∧
    (stream_write T_ab_empty stream0 kernel_bytewise).1 = 2 ∧
    results 2 (stream_write T_ab_empty stream0 kernel_bytewise).2.1 =
      [Val.nil, Val.string "closed".toList] ∧
    (stream_write T_ab_empty stream0 kernel_bytewise).2.2.1.r.fd = -1 ∧
    (stream_write T_ab_empty stream0 kernel_bytewise).2.2.1.w.fd = -1 ∧
    (stream_write T_ab_empty stream0 kernel_bytewise).2.2.1.w.data = none ∧
    emitted kernel_bytewise (stream_write T_ab_empty stream0 kernel_bytewise).2.2.2 =
      [Event.write 3 "ab".toList 1 0, Event.write 3 "b".toList 1 0,
       Event.write 3 [] 0 0, Event.close 3 0] := by
  refine ⟨rfl, by decide, by decide, ?_, by decide, by decide, by decide, by decide,
    by decide, by decide⟩
  simp [kernel_bytewise, kernel0, SysRet.accepting]

/-! ## C11: a read into a full input buffer -/

/-- With the input buffer full, the first `read` of the loop asks for 0 bytes,
delivers none, and the loop goes straight to the code after it. -/
theorem stream__readp_loop_full (cap : Nat) (p : lem_parser_t) (fuel : Nat) (T : lua_State)
    (s : stream) (k : Kernel) (hfull : s.buf.end_ = cap) :
    (sys_read k s.r.fd 0).1 ≤ 0 ∧
    stream__readp_loop cap p (fuel + 1) T s k =
      stream__readp_exit p T s (sys_read k s.r.fd 0).2.2 (sys_read k s.r.fd 0).1 := by
  have hle : (sys_read k s.r.fd 0).1 ≤ 0 := by
    have := (sys_read_cases k s.r.fd 0).2.2.2.2.1
    simpa using this
  have hnot : ¬ (sys_read k s.r.fd 0).1 > 0 := by omega
  refine ⟨hle, ?_⟩
  simp only [stream__readp_loop, hfull, Nat.sub_self, hnot, if_false]

/-- The code after the loop of `stream__readp` keeps `s->p`. -/
theorem stream__readp_exit_keeps_p (p : lem_parser_t) (T : lua_State) (s : stream)
    (k : Kernel) (bytes : Int) : (stream__readp_exit p T s k bytes).2.2.1.p = s.p := by
  unfold stream__readp_exit
  simp only [stream__readp_fail_spec]
  split
  · rfl
  · generalize (if bytes = 0 ∨ k.errno = ECONNRESET ∨ k.errno = EPIPE
      then lem_preason.LEM_PCLOSED else lem_preason.LEM_PERROR) = res
    cases p.destroy with
    | none => rfl
    | some d =>
      simp only []
      split <;> rfl

/-- A run of the loop that starts with the input buffer full: its trace is that
one `read` followed by at most a destroy call, it leaves the watchers and `s->p`
alone, and it either returns values or is pending with the stream as it was. -/
theorem stream__readp_loop_full_run (cap : Nat) (p : lem_parser_t) (fuel : Nat)
    (T : lua_State) (s : stream) (k : Kernel) (hfull : s.buf.end_ = cap) :
    ∃ rest, (stream__readp_loop cap p (fuel + 1) T s k).2.2.2.trace =
        k.trace ++ Event.read s.r.fd 0 (sys_read k s.r.fd 0).1
          (sys_read k s.r.fd 0).2.2.errno :: rest ∧
      (∀ e ∈ rest, e.noInput = true) ∧
      (stream__readp_loop cap p (fuel + 1) T s k).2.2.1.r = s.r ∧
      (stream__readp_loop cap p (fuel + 1) T s k).2.2.1.w = s.w ∧
      (stream__readp_loop cap p (fuel + 1) T s k).2.2.1.p = s.p ∧
      (0 < (stream__readp_loop cap p (fuel + 1) T s k).1 ∨
        ((stream__readp_loop cap p (fuel + 1) T s k).1 = 0 ∧
        (stream__readp_loop cap p (fuel + 1) T s k).2.1 = T ∧
        (stream__readp_loop cap p (fuel + 1) T s k).2.2.1 = s)) := by
  obtain ⟨-, hrun⟩ := stream__readp_loop_full cap p fuel T s k hfull
  have htr := (sys_read_cases k s.r.fd 0).1
  obtain ⟨hA, hB⟩ := stream__readp_exit_spec p T s (sys_read k s.r.fd 0).2.2
    (sys_read k s.r.fd 0).1
  rw [hrun]
  by_cases hag : (sys_read k s.r.fd 0).1 < 0 ∧ (sys_read k s.r.fd 0).2.2.errno = EAGAIN
  · rw [hA hag]
    exact ⟨[], by simpa using htr, by simp, rfl, rfl, rfl, Or.inr ⟨rfl, rfl, rfl⟩⟩
  · cases hd : p.destroy with
    | none =>
      rw [(hB hag).1 hd]
      exact ⟨[], by simpa using htr, by simp, rfl, rfl, rfl, Or.inl (by simp)⟩
    | some d =>
      obtain ⟨h1, h2, h3, h4⟩ := (hB hag).2 d hd
      obtain ⟨hr, hw⟩ := stream__readp_exit_watchers p T s (sys_read k s.r.fd 0).2.2
        (sys_read k s.r.fd 0).1
      refine ⟨_, by rw [h1, htr, List.append_assoc]; rfl, ?_, hr, hw, ?_, Or.inl ?_⟩
      · intro e he
        simp at he
        rcases he with he | he <;> subst he <;> rfl
      · exact stream__readp_exit_keeps_p p T s _ _
      · by_cases hpos : 0 < (d T s.buf (read_reason (sys_read k s.r.fd 0).1
            (sys_read k s.r.fd 0).2.2.errno)).1
        · rw [(h3 hpos).1]
          exact hpos
        · rw [(h4 hpos).1]
          decide

/-- A call of `stream__readp` with the input buffer full brings no input. -/
theorem stream__readp_full_extends (cap : Nat) (p : lem_parser_t) (T : lua_State)
    (s : stream) (k : Kernel) (hp : s.p = some p) (hfull : s.buf.end_ = cap) :
    stream__readp cap T s k = stream__readp_loop cap p (k.reads.length + 1) T s k ∧
    Extends (fun e => e.noInput = true) k (stream__readp cap T s k).2.2.2 := by
  have hdef : stream__readp cap T s k =
      stream__readp_loop cap p (k.reads.length + 1) T s k := by
    simp [stream__readp, hp]
  refine ⟨hdef, ?_⟩
  rw [hdef]
  obtain ⟨hle, -⟩ := stream__readp_loop_full cap p k.reads.length T s k hfull
  obtain ⟨rest, htr, hrest, -⟩ := stream__readp_loop_full_run cap p k.reads.length T s k hfull
  refine ⟨_, htr, ?_⟩
  intro e he
  rcases List.mem_cons.1 he with h | h
  · subst h
    simp [Event.noInput, hle]
  · exact hrest e h

/-- The callback does not fire once the read watcher is stopped. -/
theorem readp_retry_inactive (cap n : Nat) (T : lua_State) (s : stream) (k : Kernel)
    (h : s.r.active = false) : readp_retry cap n T s k = (T, s, k) := by
  cases n <;> simp [readp_retry, h]

/-- With the input buffer full, no retry of `stream_readp_cb` brings input, and
the descriptors stay as they are. -/
theorem readp_retry_full (cap : Nat) (p : lem_parser_t) :
    ∀ (n : Nat) (T : lua_State) (s : stream) (k : Kernel), s.p = some p → s.buf.end_ = cap →
      Extends (fun e => e.noInput = true) k (readp_retry cap n T s k).2.2 ∧
      (readp_retry cap n T s k).2.1.r.fd = s.r.fd ∧
      (readp_retry cap n T s k).2.1.w.fd = s.w.fd := by
  intro n
  induction n with
  | zero => intro T s k _ _; exact ⟨Extends.refl _ _, rfl, rfl⟩
  | succ n ih =>
    intro T s k hp hfull
    by_cases hact : s.r.active = true
    · obtain ⟨hdef, hext⟩ := stream__readp_full_extends cap p T s k hp hfull
      obtain ⟨rest, -, -, hr, hw, -, hcase⟩ :=
        stream__readp_loop_full_run cap p k.reads.length T s k hfull
      rw [← hdef] at hr hw hcase
      simp only [readp_retry, hact, if_true]
      rcases hcase with hpos | ⟨h0, hT, hs⟩
      · have hne0 : ¬ (stream__readp cap T s k).1 = 0 := by omega
        rw [readp_retry_inactive]
        · simp only [stream_readp_cb, hne0, if_false, lem_queue]
          refine ⟨(hext.trans (Extends.emit _ _ ?_)).trans
            ((Extends.emit _ _ ?_).trans (Extends.emit _ _ ?_)), ?_, ?_⟩
          · rfl
          · rfl
          · rfl
          · rw [← hr]
          · rw [← hw]
        · simp [stream_readp_cb, hne0]
      · have hcb : stream_readp_cb cap T s k = (T, s, (stream__readp cap T s k).2.2.2) := by
          simp [stream_readp_cb, h0, hT, hs, same_thread_self]
        rw [hcb]
        obtain ⟨i1, i2, i3⟩ := ih T s (stream__readp cap T s k).2.2.2 hp hfull
        exact ⟨hext.trans i1, i2, i3⟩
    · have hact2 : s.r.active = false := by simpa using hact
      rw [readp_retry_inactive _ _ _ _ _ hact2]
      exact ⟨Extends.refl _ _, rfl, rfl⟩

/-- The init step of `stream_readp` only adds to the trace and leaves the
watchers alone. -/
theorem stream_readp_init_spec (p : lem_parser_t) (T : lua_State) (s : stream) (k : Kernel) :
    (∃ evs, (stream_readp_init p T s k).2.2.trace = k.trace ++ evs) ∧
    (stream_readp_init p T s k).2.1.r = s.r ∧ (stream_readp_init p T s k).2.1.w = s.w := by
  unfold stream_readp_init
  cases p.init with
  | none => exact ⟨⟨[], by simp⟩, rfl, rfl⟩
  | some f => exact ⟨⟨_, by simp [Kernel.emit]; rfl⟩, rfl, rfl⟩

/-- A call of `stream_readp` in which `process` reports pending and leaves the
input buffer full: after that call of `process` neither the call nor any retry
brings input. -/
theorem readp_session_full (cap : Nat) (T : lua_State) (p : lem_parser_t) (s : stream)
    (k : Kernel) (n : Nat)
    (hopen : 0 ≤ s.r.fd) (hidle : s.r.data = none) (hact : s.r.active = false)
    (hpend : (p.process (stream_readp_init p T s k).1 (stream_readp_init p T s k).2.1.buf).1 ≤ 0)
    (hfull : (p.process (stream_readp_init p T s k).1
      (stream_readp_init p T s k).2.1.buf).2.2.end_ = cap) :
    (∃ rest, emitted k (readp_session cap T p s k n).2.2 =
      emitted k (stream_readp_init p T s k).2.2 ++
        [Event.process (p.process (stream_readp_init p T s k).1
            (stream_readp_init p T s k).2.1.buf).1,
         Event.buf (p.process (stream_readp_init p T s k).1
            (stream_readp_init p T s k).2.1.buf).2.2.start
           (p.process (stream_readp_init p T s k).1
            (stream_readp_init p T s k).2.1.buf).2.2.end_] ++ rest ∧
      ∀ e ∈ rest, e.noInput = true) ∧
    (readp_session cap T p s k n).2.1.r.fd = s.r.fd ∧
    (readp_session cap T p s k n).2.1.w.fd = s.w.fd := by
  have hnc : ¬ s.r.fd < 0 := by omega
  obtain ⟨⟨ievs, hitr⟩, hir, hiw⟩ := stream_readp_init_spec p T s k
  generalize hi : stream_readp_init p T s k = i at *
  generalize hpr : p.process i.1 i.2.1.buf = pr at *
  have hnpos : ¬ pr.1 > 0 := by omega
  have key : ∀ k2 : Kernel,
      Extends (fun e => e.noInput = true)
        ((i.2.2.emit (Event.process pr.1)).emit (Event.buf pr.2.2.start pr.2.2.end_)) k2 →
      ∃ rest, emitted k k2 = emitted k i.2.2 ++
        [Event.process pr.1, Event.buf pr.2.2.start pr.2.2.end_] ++ rest ∧
        ∀ e ∈ rest, e.noInput = true := by
    intro k2 ⟨evs, h1, h2⟩
    refine ⟨evs, ?_, h2⟩
    rw [emitted_of_append hitr]
    apply emitted_of_append
    rw [h1]
    simp [Kernel.emit, hitr]
  have hs2p : ({ i.2.1 with buf := pr.2.2, p := some p } : stream).p = some p := rfl
  have hs2f : ({ i.2.1 with buf := pr.2.2, p := some p } : stream).buf.end_ = cap := hfull
  obtain ⟨hdef, hext⟩ := stream__readp_full_extends cap p pr.2.1
    { i.2.1 with buf := pr.2.2, p := some p }
    ((i.2.2.emit (Event.process pr.1)).emit (Event.buf pr.2.2.start pr.2.2.end_)) hs2p hs2f
  obtain ⟨-, -, -, hr, hw, hp2, hcase⟩ := stream__readp_loop_full_run cap p
    ((i.2.2.emit (Event.process pr.1)).emit (Event.buf pr.2.2.start pr.2.2.end_)).reads.length
    pr.2.1 { i.2.1 with buf := pr.2.2, p := some p }
    ((i.2.2.emit (Event.process pr.1)).emit (Event.buf pr.2.2.start pr.2.2.end_)) hfull
  rw [← hdef] at hr hw hp2 hcase
  rcases hcase with hpos | ⟨h0, hT, hs⟩
  · have hsr : stream_readp cap T p s k = stream__readp cap pr.2.1
        { i.2.1 with buf := pr.2.2, p := some p }
        ((i.2.2.emit (Event.process pr.1)).emit (Event.buf pr.2.2.start pr.2.2.end_)) := by
      unfold stream_readp
      simp only [hnc, hidle, if_false, ne_eq, not_true_eq_false, hi, hpr, hnpos]
      rw [if_pos hpos]
    have hses : readp_session cap T p s k n =
        (same_thread T (stream_readp cap T p s k).2.1, (stream_readp cap T p s k).2.2.1,
          (stream_readp cap T p s k).2.2.2) := by
      unfold readp_session
      apply readp_retry_inactive
      rw [hsr, hr]
      show i.2.1.r.active = false
      rw [hir]
      exact hact
    rw [hses, hsr]
    refine ⟨key _ hext, ?_, ?_⟩
    · show _ = s.r.fd
      rw [hr]
      exact congrArg _ hir
    · show _ = s.w.fd
      rw [hw]
      exact congrArg _ hiw
  · have hnp : ¬ (stream__readp cap pr.2.1 { i.2.1 with buf := pr.2.2, p := some p }
        ((i.2.2.emit (Event.process pr.1)).emit
          (Event.buf pr.2.2.start pr.2.2.end_))).1 > 0 := by omega
    have hsr : (stream_readp cap T p s k).2.2.1.p = some p ∧
        (stream_readp cap T p s k).2.2.1.buf = pr.2.2 ∧
        (stream_readp cap T p s k).2.2.1.r.fd = i.2.1.r.fd ∧
        (stream_readp cap T p s k).2.2.1.w = i.2.1.w ∧
        (stream_readp cap T p s k).2.2.2 =
          ((stream__readp cap pr.2.1 { i.2.1 with buf := pr.2.2, p := some p }
            ((i.2.2.emit (Event.process pr.1)).emit
              (Event.buf pr.2.2.start pr.2.2.end_))).2.2.2.emit
              (Event.store Slot.r_data (some T.id))).emit
            (Event.ev_io_start Callback.stream_readp_cb) := by
      unfold stream_readp
      simp only [hnc, hidle, if_false, ne_eq, not_true_eq_false, hi, hpr, hnpos]
      rw [if_neg hnp]
      simp [hs]
    obtain ⟨q1, q2, q3, q4, q5⟩ := hsr
    obtain ⟨r1, r2, r3⟩ := readp_retry_full cap p n
      (same_thread T (stream_readp cap T p s k).2.1) (stream_readp cap T p s k).2.2.1
      (stream_readp cap T p s k).2.2.2 q1 (by rw [q2]; exact hfull)
    unfold readp_session
    refine ⟨key _ ?_, ?_, ?_⟩
    · refine Extends.trans ?_ r1
      rw [q5]
      exact hext.trans ((Extends.emit _ _ (by rfl)).trans (Extends.emit _ _ (by rfl)))
    · rw [r2, q3]
      exact congrArg _ hir
    · rw [r3, q4]
      exact congrArg _ hiw

/-- C11: take the loop of `stream__readp` at a point where it issues its `read`
with the input buffer full (`end = LEM_INPUTBUF_SIZE`).  The `read` asks for 0
bytes and delivers none; it is the only `read` of the run, `process` is not
called, and the watchers with their descriptors are left as they were.  When
that `read` returns 0 the run takes the peer-closed path: without a destroy
callback it returns nil and "closed" and leaves the stream untouched; with one,
the callback is called once with `LEM_PCLOSED` and the run returns what it
salvaged, or nil and "closed" when it salvaged nothing.  From there on, for the
parser `s->p`, no retry of `stream_readp_cb` brings the parser new bytes and the
descriptors stay as they are; and a call of `stream_readp` in which `process`
reports pending and leaves the buffer full never brings the parser new bytes
either, in the call or in any retry. -/
theorem full_buffer_read (cap : Nat) (p : lem_parser_t) (fuel : Nat) (T : lua_State)
    (s : stream) (k : Kernel) (hfull : s.buf.end_ = cap) :
    (sys_read k s.r.fd 0).1 ≤ 0 ∧
    (∃ rest, emitted k (stream__readp_loop cap p (fuel + 1) T s k).2.2.2 =
        Event.read s.r.fd 0 (sys_read k s.r.fd 0).1 (sys_read k s.r.fd 0).2.2.errno :: rest ∧
      ∀ e ∈ rest, e.noInput = true) ∧
    (stream__readp_loop cap p (fuel + 1) T s k).2.2.1.r = s.r ∧
    (stream__readp_loop cap p (fuel + 1) T s k).2.2.1.w = s.w ∧
    ((sys_read k s.r.fd 0).1 = 0 →
      (p.destroy = none →
        emitted k (stream__readp_loop cap p (fuel + 1) T s k).2.2.2 =
          [Event.read s.r.fd 0 0 (sys_read k s.r.fd 0).2.2.errno] ∧
        (stream__readp_loop cap p (fuel + 1) T s k).1 = 2 ∧
        results 2 (stream__readp_loop cap p (fuel + 1) T s k).2.1 =
          [Val.nil, Val.string "closed".toList] ∧
        (stream__readp_loop cap p (fuel + 1) T s k).2.2.1 = s) ∧
      (∀ d, p.destroy = some d →
        emitted k (stream__readp_loop cap p (fuel + 1) T s k).2.2.2 =
          [Event.read s.r.fd 0 0 (sys_read k s.r.fd 0).2.2.errno,
           Event.destroy lem_preason.LEM_PCLOSED (d T s.buf lem_preason.LEM_PCLOSED).1,
           Event.buf (d T s.buf lem_preason.LEM_PCLOSED).2.2.start
             (d T s.buf lem_preason.LEM_PCLOSED).2.2.end_] ∧
        (0 < (d T s.buf lem_preason.LEM_PCLOSED).1 →
          (stream__readp_loop cap p (fuel + 1) T s k).1 =
            (d T s.buf lem_preason.LEM_PCLOSED).1 ∧
          (stream__readp_loop cap p (fuel + 1) T s k).2.1 =
            (d T s.buf lem_preason.LEM_PCLOSED).2.1) ∧
        (¬ 0 < (d T s.buf lem_preason.LEM_PCLOSED).1 →
          (stream__readp_loop cap p (fuel + 1) T s k).1 = 2 ∧
          results 2 (stream__readp_loop cap p (fuel + 1) T s k).2.1 =
            [Val.nil, Val.string "closed".toList]))) ∧
    (s.p = some p → ∀ n,
      (∀ e ∈ emitted k (readp_retry cap n T s k).2.2, e.noInput = true) ∧
      (readp_retry cap n T s k).2.1.r.fd = s.r.fd ∧
      (readp_retry cap n T s k).2.1.w.fd = s.w.fd) ∧
    (∀ (T0 : lua_State) (s0 : stream) (k0 : Kernel) (n : Nat),
      0 ≤ s0.r.fd → s0.r.data = none → s0.r.active = false →
      (p.process (stream_readp_init p T0 s0 k0).1
        (stream_readp_init p T0 s0 k0).2.1.buf).1 ≤ 0 →
      (p.process (stream_readp_init p T0 s0 k0).1
        (stream_readp_init p T0 s0 k0).2.1.buf).2.2.end_ = cap →
      (∃ rest, emitted k0 (readp_session cap T0 p s0 k0 n).2.2 =
        emitted k0 (stream_readp_init p T0 s0 k0).2.2 ++
          [Event.process (p.process (stream_readp_init p T0 s0 k0).1
              (stream_readp_init p T0 s0 k0).2.1.buf).1,
           Event.buf (p.process (stream_readp_init p T0 s0 k0).1
              (stream_readp_init p T0 s0 k0).2.1.buf).2.2.start
             (p.process (stream_readp_init p T0 s0 k0).1
              (stream_readp_init p T0 s0 k0).2.1.buf).2.2.end_] ++ rest ∧
        ∀ e ∈ rest, e.noInput = true) ∧
      (readp_session cap T0 p s0 k0 n).2.1.r.fd = s0.r.fd ∧
      (readp_session cap T0 p s0 k0 n).2.1.w.fd = s0.w.fd) := by
  obtain ⟨hle, hrun⟩ := stream__readp_loop_full cap p fuel T s k hfull
  obtain ⟨rest, htr, hrest, hr, hw, -, -⟩ := stream__readp_loop_full_run cap p fuel T s k hfull
  have hrd := (sys_read_cases k s.r.fd 0).1
  refine ⟨hle, ⟨rest, emitted_of_append htr, hrest⟩, hr, hw, ?_, ?_, ?_⟩
  · intro hz
    have hag : ¬ ((sys_read k s.r.fd 0).1 < 0 ∧ (sys_read k s.r.fd 0).2.2.errno = EAGAIN) := by
      omega
    have hreason : read_reason (sys_read k s.r.fd 0).1 (sys_read k s.r.fd 0).2.2.errno =
        lem_preason.LEM_PCLOSED := by
      simp [read_reason, hz]
    obtain ⟨h1, h2⟩ := (stream__readp_exit_spec p T s (sys_read k s.r.fd 0).2.2
      (sys_read k s.r.fd 0).1).2 hag
    rw [hreason] at h1 h2
    rw [hrun]
    constructor
    · intro hd
      rw [h1 hd]
      refine ⟨?_, rfl, ?_, rfl⟩
      · apply emitted_of_append
        rw [hrd, hz]
      · simp [results, lua_push, lua_settop, reason_text]
    · intro d hd
      obtain ⟨q1, -, q3, q4⟩ := h2 d hd
      refine ⟨?_, q3, ?_⟩
      · apply emitted_of_append
        rw [q1, hrd, hz]
        simp
      · intro hn
        obtain ⟨e1, e2⟩ := q4 hn
        refine ⟨e1, ?_⟩
        rw [e2]
        simp [results, lua_push, lua_settop, reason_text]
  · intro hp n
    obtain ⟨r1, r2, r3⟩ := readp_retry_full cap p n T s k hp hfull
    exact ⟨r1.emitted, r2, r3⟩
  · intro T0 s0 k0 n hopen hidle hact hpend hf
    exact readp_session_full cap T0 p s0 k0 n hopen hidle hact hpend hf

/-- C11, at a concrete input: the buffer of 2 bytes is full with "hi", the line
parser waits for a newline, and the peer has sent "more".  The `read` of 0 bytes
returns 0 and the run returns nil and "closed" with the stream as it was, its
descriptor 3 open. -/
theorem full_buffer_read_witness :
    stream_full.buf.end_ = 2 ∧ stream_full.r.fd = 3 ∧
    (sys_read kernel_more 3 0).1 = 0 ∧
    emitted kernel_more (stream__readp 2 T_rd stream_full kernel_more).2.2.2 =
      [Event.read 3 0 0 0] ∧
    (stream__readp 2 T_rd stream_full kernel_more).1 = 2 ∧
    results 2 (stream__readp 2 T_rd stream_full kernel_more).2.1 =
      [Val.nil, Val.string "closed".toList] ∧
    (stream__readp 2 T_rd stream_full kernel_more).2.2.1 = stream_full ∧
    (∀ e ∈ emitted kernel_more (readp_retry 2 3 T_rd stream_full kernel_more).2.2,
      e.noInput = true) ∧
    (readp_retry 2 3 T_rd stream_full kernel_more).2.1.r.fd = 3 :=
  have h := full_buffer_read 2 parser_line_example 1 T_rd stream_full kernel_more
    (by decide)
  ⟨by decide, by decide, by decide,
    ((h.2.2.2.2.1 (by decide)).1 rfl).1, ((h.2.2.2.2.1 (by decide)).1 rfl).2.1,
    ((h.2.2.2.2.1 (by decide)).1 rfl).2.2.1, ((h.2.2.2.2.1 (by decide)).1 rfl).2.2.2,
    (h.2.2.2.2.2.1 rfl 3).1, (h.2.2.2.2.2.1 rfl 3).2.1⟩

/-- The whole course at concrete inputs, with a buffer of 2 bytes.  A first call
`stream:readp(parser_line_example)` on the fresh stream reads "hi", finds no
newline, reads again with length 0 and returns nil and "closed" although "more"
is waiting and the descriptors are open; a retry on the suspended reader
`stream_full` resumes the coroutine with the same pair; and with a parser that
salvages, the call hands back the buffered "hi" and nothing of what the peer
sent. -/
theorem full_buffer_read_example :
    (stream_readp 2 T_rd parser_line_example stream0 kernel_hi_more).1 = 2 ∧
    results 2 (stream_readp 2 T_rd parser_line_example stream0 kernel_hi_more).2.1 =
      [Val.nil, Val.string "closed".toList] ∧
    (stream_readp 2 T_rd parser_line_example stream0 kernel_hi_more).2.2.1.r.fd = 3 ∧
    (stream_readp 2 T_rd parser_line_example stream0 kernel_hi_more).2.2.1.w.fd = 3 ∧
    emitted kernel_hi_more
        (stream_readp 2 T_rd parser_line_example stream0 kernel_hi_more).2.2.2 =
      [Event.process 0, Event.buf 0 0, Event.read 3 2 2 0, Event.buf 0 2,
       Event.process 0, Event.buf 0 2, Event.read 3 0 0 0] ∧
    emitted kernel_more (stream_readp_cb 2 T_rd stream_full kernel_more).2.2 =
      [Event.read 3 0 0 0, Event.ev_io_stop Callback.stream_readp_cb,
       Event.store Slot.r_data none,
       Event.lem_queue 8 2 [Val.nil, Val.string "closed".toList]] ∧
    (stream_readp_cb 2 T_rd stream_full kernel_more).2.1.r.fd = 3 ∧
    (stream_readp 2 T_rd parser_all_example stream_buffered kernel_hi).1 = 1 ∧
    results 1 (stream_readp 2 T_rd parser_all_example stream_buffered kernel_hi).2.1 =
      [Val.string "hi".toList] ∧
    emitted kernel_hi (stream_readp 2 T_rd parser_all_example stream_buffered kernel_hi).2.2.2 =
      [Event.process 0, Event.buf 0 2, Event.read 3 0 0 0,
       Event.destroy lem_preason.LEM_PCLOSED 1, Event.buf 0 0] := by
  decide

end Lem
